import Mathlib

/-!
# Cross-Chip DFX drivers: HBICAP (DMA) and HWICAP (FIFO) FPGA managers

A shallow embedding of `hbicap_fpga_manager/{axi-cdma,axi-hbicap,hbicap-fpga}.c`
and `hwicap_fpga_manager/hwicap-fpga.c`.

* Memory-mapped registers are an arbitrary deterministic device: a state `σ`
  with a read and a write function.  Every `ioread32le` / `iowrite32le` the
  driver performs is appended to a trace, in program order.
* `ssize_t` values are `Int`; a kernel buffer is shorter than `2^63` bytes, so
  the `size_t → ssize_t` conversions are value preserving.  Conversions to
  `u32` and to `int` are explicit (`to_u32`, `to_int`).
* Loops are structurally recursive on a fuel argument and return `none` when
  the fuel runs out; the entry points pass a fuel that is proved sufficient.
-/

namespace DFX

/-! ## Machine integers -/

/-- Conversion of an integer value to `u32`. -/
def to_u32 (x : Int) : Nat := (x % 4294967296).toNat

/-- Conversion of an integer value to `int` (two's complement, 32 bit). -/
def to_int (x : Int) : Int := (x + 2147483648) % 4294967296 - 2147483648

/-! ## Register access and the event trace -/

/-- The two mapped register windows of the HBICAP driver:
`axi_lite_virt_base_addr` and `cdma_virt_base_addr`. -/
inductive Base where
  | axi_lite
  | cdma
  deriving DecidableEq, Repr

/-- Observable actions of the driver, in program order. -/
inductive Event where
  /-- A read `ioread32le(base + off)` that returned `val`. -/
  | rd (base : Base) (off : Nat) (val : Nat)
  /-- A write `iowrite32le(val, base + off)`. -/
  | wr (base : Base) (off : Nat) (val : Nat)
  /-- The copy `memcpy(ddr_virt_base_addr, buf + off, count)`; `data` are the bytes copied. -/
  | stage (off : Int) (count : Int) (data : List Nat)
  deriving DecidableEq, Repr

/-- The device behind the registers: any deterministic machine. -/
structure Hw (σ : Type) where
  rd : Base → Nat → σ → Nat × σ
  wr : Base → Nat → Nat → σ → σ

/-- Lifecycle states of `enum fpga_mgr_states`. -/
inductive fpga_mgr_states where
  | FPGA_MGR_STATE_UNKNOWN
  | FPGA_MGR_STATE_POWER_OFF
  | FPGA_MGR_STATE_POWER_UP
  | FPGA_MGR_STATE_RESET
  | FPGA_MGR_STATE_FIRMWARE_REQ
  | FPGA_MGR_STATE_FIRMWARE_REQ_ERR
  | FPGA_MGR_STATE_WRITE_INIT
  | FPGA_MGR_STATE_WRITE_INIT_ERR
  | FPGA_MGR_STATE_WRITE
  | FPGA_MGR_STATE_WRITE_ERR
  | FPGA_MGR_STATE_WRITE_COMPLETE
  | FPGA_MGR_STATE_WRITE_COMPLETE_ERR
  | FPGA_MGR_STATE_OPERATING
  deriving DecidableEq, Repr

open fpga_mgr_states

/-- Everything `hbicap_fpga_ops_*` can change: the device, the trace of register
accesses and staging copies, the mutex `drvdata->sem` (held or free),
`mgr->state` and `priv->flags`. -/
structure World (σ : Type) where
  dev : σ
  trace : List Event
  sem : Bool
  state : fpga_mgr_states
  /-- The field `priv->flags`. -/
  flags : Nat
  deriving DecidableEq, Repr

/-- The fields of `struct hbicap_drvdata` that `hbicap_fpga_ops_write` passes on. -/
structure hbicap_drvdata where
  axi_data_phys_base_lower : Nat
  axi_data_phys_base_higher : Nat
  ddr_phys_base_addr : Nat
  deriving DecidableEq, Repr

variable {σ : Type}

def ioread32le (hw : Hw σ) (base : Base) (off : Nat) (w : World σ) : Nat × World σ :=
  let r := hw.rd base off w.dev
  let v := r.1 % 4294967296
  (v, { w with dev := r.2, trace := w.trace ++ [Event.rd base off v] })

def iowrite32le (hw : Hw σ) (v : Nat) (base : Base) (off : Nat) (w : World σ) : World σ :=
  { w with dev := hw.wr base off v w.dev, trace := w.trace ++ [Event.wr base off v] }

/-! ## axi-cdma.c -/

def XAXICDMA_CR_OFFSET : Nat := 0x00
def XAXICDMA_SR_OFFSET : Nat := 0x04
def XAXICDMA_SRCADDR_LOWER_OFFSET : Nat := 0x18
def XAXICDMA_SRCADDR_HIGHER_OFFSET : Nat := 0x1C
def XAXICDMA_DSTADDR_LOWER_OFFSET : Nat := 0x20
def XAXICDMA_DSTADDR_HIGHER_OFFSET : Nat := 0x24
def XAXICDMA_BTT_OFFSET : Nat := 0x28

def XAXICDMA_SIMPLE_IRQ : Nat := 0x5000
def XAXICDMA_RESET : Nat := 0x4

def XAXICDMA_IDLE : Nat := 0x2
def XACDMA_IOC_IRQ : Nat := 0x1000
def XAXICDMA_ERR_IRQ : Nat := 0x4000

def XACDMA_NOT_IDLE : Int := -1
def XACDMA_WRITE_ERROR : Int := -2
def XACDMA_WRITE_TIMEOUT : Int := -3

def XACDMA_MAX_RETRIES : Nat := 10000

def axi_cdma_set_interrupts (hw : Hw σ) (w : World σ) : World σ :=
  let r := ioread32le hw Base.cdma XAXICDMA_CR_OFFSET w
  iowrite32le hw (r.1 ||| XAXICDMA_SIMPLE_IRQ) Base.cdma XAXICDMA_CR_OFFSET r.2

def axi_cdma_set_source_addr (hw : Hw σ) (addr_higher addr_lower : Nat) (w : World σ) :
    World σ :=
  let w := iowrite32le hw addr_higher Base.cdma XAXICDMA_SRCADDR_HIGHER_OFFSET w
  iowrite32le hw addr_lower Base.cdma XAXICDMA_SRCADDR_LOWER_OFFSET w

def axi_cdma_set_destination_addr (hw : Hw σ) (addr_higher addr_lower : Nat) (w : World σ) :
    World σ :=
  let w := iowrite32le hw addr_higher Base.cdma XAXICDMA_DSTADDR_HIGHER_OFFSET w
  iowrite32le hw addr_lower Base.cdma XAXICDMA_DSTADDR_LOWER_OFFSET w

def axi_cdma_set_size (hw : Hw σ) (size : Nat) (w : World σ) : World σ :=
  iowrite32le hw size Base.cdma XAXICDMA_BTT_OFFSET w

def axi_cdma_check_IDLE (hw : Hw σ) (w : World σ) : Nat × World σ :=
  let r := ioread32le hw Base.cdma XAXICDMA_SR_OFFSET w
  (if r.1 &&& XAXICDMA_IDLE ≠ 0 then 1 else 0, r.2)

/-- The `do { ... } while (!(status_register & XACDMA_IOC_IRQ))` loop of
`axi_cdma_busy`.  The result is `none` on the timeout exit (`goto error`) and
the last status word when the completion flag ended the loop. -/
def axi_cdma_busy_poll (hw : Hw σ) : Nat → Nat → World σ → Option (Option Nat × World σ)
  | 0, _, _ => none
  | fuel + 1, retries, w =>
    let r := ioread32le hw Base.cdma XAXICDMA_SR_OFFSET w
    let status_register := r.1
    let retries := retries + 1
    if retries > XACDMA_MAX_RETRIES then
      some (none, r.2)
    else if status_register &&& XACDMA_IOC_IRQ = 0 then
      axi_cdma_busy_poll hw fuel retries r.2
    else
      some (some status_register, r.2)

/-- Function `axi_cdma_busy`: the `u32` status it returns, and the world afterwards. -/
def axi_cdma_busy (hw : Hw σ) (w : World σ) : Option (Nat × World σ) :=
  match axi_cdma_busy_poll hw (XACDMA_MAX_RETRIES + 1) 0 w with
  | none => none
  | some (none, w) => some (to_u32 XACDMA_WRITE_TIMEOUT, w)
  | some (some status_register, w) =>
    let w := iowrite32le hw XACDMA_IOC_IRQ Base.cdma XAXICDMA_SR_OFFSET w
    if status_register &&& XAXICDMA_ERR_IRQ ≠ 0 then
      some (to_u32 XACDMA_WRITE_ERROR, w)
    else
      some (0, w)

def axi_cdma_reset (hw : Hw σ) (w : World σ) : World σ :=
  iowrite32le hw XAXICDMA_RESET Base.cdma XAXICDMA_CR_OFFSET w

def axi_cdma_write (hw : Hw σ) (source_addr_higher source_addr_lower
    destination_addr_higher destination_addr_lower size : Nat) (w : World σ) :
    Option (Int × World σ) :=
  let r := axi_cdma_check_IDLE hw w
  if r.1 = 0 then
    some (XACDMA_NOT_IDLE, r.2)
  else
    let w := axi_cdma_set_interrupts hw r.2
    let w := axi_cdma_set_source_addr hw source_addr_higher source_addr_lower w
    let w := axi_cdma_set_destination_addr hw destination_addr_higher destination_addr_lower w
    let w := axi_cdma_set_size hw size w
    match axi_cdma_busy hw w with
    | none => none
    | some (status, w) => some (to_int status, w)

/-! ## axi-hbicap.c -/

def XHI_SZ_OFFSET : Nat := 0x108
def XHI_CR_OFFSET : Nat := 0x10C
def XHI_SR_OFFSET : Nat := 0x110

def XHI_CR_SW_RESET_MASK : Nat := 0x8
def XHI_SR_DONE_MASK : Nat := 0x1

def axi_hbicap_set_size_register (hw : Hw σ) (data : Nat) (w : World σ) : World σ :=
  iowrite32le hw data Base.axi_lite XHI_SZ_OFFSET w

def axi_hbicap_busy (hw : Hw σ) (w : World σ) : Nat × World σ :=
  let r := ioread32le hw Base.axi_lite XHI_SR_OFFSET w
  (if r.1 &&& XHI_SR_DONE_MASK ≠ 0 then 0 else 1, r.2)

def axi_hbicap_reset (hw : Hw σ) (w : World σ) : World σ :=
  let r := ioread32le hw Base.axi_lite XHI_CR_OFFSET w
  let reg_data := r.1
  let w := iowrite32le hw (reg_data ||| XHI_CR_SW_RESET_MASK) Base.axi_lite XHI_CR_OFFSET r.2
  iowrite32le hw (reg_data &&& (4294967295 - XHI_CR_SW_RESET_MASK)) Base.axi_lite XHI_CR_OFFSET w

/-! ## The mutex `drvdata->sem` -/

def EINTR : Int := 4
def EINVAL : Int := 22
def ENOMEM : Int := 12
def EFAULT : Int := 14

/-- Function `mutex_lock_interruptible` on the held/free flag of a mutex: returns `-EINTR`
and leaves the mutex as it is when the wait is interrupted, returns `0` with the
mutex held otherwise. -/
def mutex_lock_interruptible (interrupted : Bool) (sem : Bool) : Int × Bool :=
  if interrupted then (-EINTR, sem) else (0, true)

/-- Function `mutex_unlock`: the mutex is free afterwards. -/
def mutex_unlock (_sem : Bool) : Bool := false

/-! ## Flag constants of the kernel headers

`FPGA_MGR_*` (`linux/fpga/fpga-mgr.h`) and `XILINX_ZYNQMP_PM_FPGA_*`
(`linux/firmware/xlnx-zynqmp.h`) are not part of the drivers; they are kept as
parameters. -/

structure FlagBits where
  FPGA_MGR_PARTIAL_RECONFIG : Nat
  FPGA_MGR_ENCRYPTED_BITSTREAM : Nat
  FPGA_MGR_USERKEY_ENCRYPTED_BITSTREAM : Nat
  FPGA_MGR_DDR_MEM_AUTH_BITSTREAM : Nat
  FPGA_MGR_SECURE_MEM_AUTH_BITSTREAM : Nat
  XILINX_ZYNQMP_PM_FPGA_PARTIAL : Nat
  XILINX_ZYNQMP_PM_FPGA_AUTHENTICATION_DDR : Nat
  XILINX_ZYNQMP_PM_FPGA_AUTHENTICATION_OCM : Nat
  XILINX_ZYNQMP_PM_FPGA_ENCRYPTION_USERKEY : Nat
  XILINX_ZYNQMP_PM_FPGA_ENCRYPTION_DEVKEY : Nat
  deriving DecidableEq, Repr

/-- The block `/* Update firmware flags */` of both `write_init` functions: the
capability mask `eemi_flags` derived from `priv->flags`. -/
def eemi_flags (k : FlagBits) (flags : Nat) : Nat :=
  let eemi := 0
  let eemi :=
    if flags &&& k.FPGA_MGR_USERKEY_ENCRYPTED_BITSTREAM ≠ 0 then
      eemi ||| k.XILINX_ZYNQMP_PM_FPGA_ENCRYPTION_USERKEY
    else if flags &&& k.FPGA_MGR_ENCRYPTED_BITSTREAM ≠ 0 then
      eemi ||| k.XILINX_ZYNQMP_PM_FPGA_ENCRYPTION_DEVKEY
    else eemi
  let eemi :=
    if flags &&& k.FPGA_MGR_DDR_MEM_AUTH_BITSTREAM ≠ 0 then
      eemi ||| k.XILINX_ZYNQMP_PM_FPGA_AUTHENTICATION_DDR
    else if flags &&& k.FPGA_MGR_SECURE_MEM_AUTH_BITSTREAM ≠ 0 then
      eemi ||| k.XILINX_ZYNQMP_PM_FPGA_AUTHENTICATION_OCM
    else eemi
  if flags &&& k.FPGA_MGR_PARTIAL_RECONFIG ≠ 0 then
    eemi ||| k.XILINX_ZYNQMP_PM_FPGA_PARTIAL
  else eemi

/-! ## hbicap-fpga.c : `hbicap_fpga_ops_write_init` -/

/-- Function `hbicap_fpga_ops_write_init(mgr, info, buf, size)`; `feature_list` is
`priv->feature_list` and `info_flags` is `info->flags`. -/
def hbicap_fpga_ops_write_init (hw : Hw σ) (k : FlagBits) (feature_list : Nat)
    (info_flags : Nat) (w : World σ) : Int × World σ :=
  let w := { w with state := FPGA_MGR_STATE_WRITE_INIT }
  let w := { w with flags := info_flags }
  let eemi := eemi_flags k w.flags
  if feature_list &&& eemi ≠ eemi then
    (-EINVAL, { w with state := FPGA_MGR_STATE_WRITE_INIT_ERR })
  else
    let w := axi_hbicap_reset hw w
    (0, w)

/-! ## hbicap-fpga.c : `hbicap_fpga_ops_write` -/

def XHI_MAX_RETRIES : Nat := 5000

/-- The bytes `memcpy(dst, buf + off, count)` reads from the caller buffer. -/
def buf_read (buf : List Nat) (off count : Int) : List Nat :=
  (buf.drop off.toNat).take count.toNat

/-- How the chunk loop `while (left > 0)` is left: through `goto error` with the
status of the failed transfer, or normally with the final `written`. -/
inductive LoopExit where
  | error (status : Int) (written : Int)
  | finished (written : Int)
  deriving DecidableEq, Repr

/-- One pass through the body of the chunk loop up to the status check: the
copy of the next chunk into the staging buffer and its transfer by the engine. -/
def hbicap_write_chunk (hw : Hw σ) (drvdata : hbicap_drvdata) (buf : List Nat)
    (written left : Int) (w : World σ) : Option (Int × World σ) :=
  let len := if left < 4096 then left else 4096
  let w := { w with trace := w.trace ++ [Event.stage written len (buf_read buf written len)] }
  axi_cdma_write hw 0 (drvdata.ddr_phys_base_addr % 4294967296)
    drvdata.axi_data_phys_base_higher drvdata.axi_data_phys_base_lower (to_u32 len) w

/-- The chunk loop of `hbicap_fpga_ops_write`. -/
def hbicap_write_loop (hw : Hw σ) (drvdata : hbicap_drvdata) (buf : List Nat) :
    Nat → Int → Int → World σ → Option (LoopExit × World σ)
  | 0, _, _, _ => none
  | fuel + 1, written, left, w =>
    if left > 0 then
      let len := if left < 4096 then left else 4096
      match hbicap_write_chunk hw drvdata buf written left w with
      | none => none
      | some (status, w) =>
        if status ≠ 0 then
          some (LoopExit.error status written, w)
        else
          hbicap_write_loop hw drvdata buf fuel (written + len) (left - len) w
    else
      some (LoopExit.finished written, w)

/-- The final `while (axi_hbicap_busy(drvdata))` loop; the flag is `true` when it
is left through `return -42`. -/
def hbicap_busy_wait (hw : Hw σ) : Nat → Nat → World σ → Option (Bool × World σ)
  | 0, _, _ => none
  | fuel + 1, retries, w =>
    let r := axi_hbicap_busy hw w
    if r.1 ≠ 0 then
      let retries := retries + 1
      if retries > XHI_MAX_RETRIES then
        some (true, r.2)
      else
        hbicap_busy_wait hw fuel retries r.2
    else
      some (false, r.2)

/-- Function `hbicap_fpga_ops_write(mgr, buf, size)` with `size = buf.length`.
`interrupted` says whether the wait for the mutex is interrupted. -/
def hbicap_fpga_ops_write (hw : Hw σ) (drvdata : hbicap_drvdata) (interrupted : Bool)
    (buf : List Nat) (w : World σ) : Option (Int × World σ) :=
  let size : Nat := buf.length
  let w := { w with state := FPGA_MGR_STATE_WRITE }
  let l := mutex_lock_interruptible interrupted w.sem
  let w := { w with sem := l.2 }
  if l.1 ≠ 0 then
    let w := { w with state := FPGA_MGR_STATE_WRITE_ERR }
    some (to_int l.1, { w with sem := mutex_unlock w.sem })
  else
    let w := axi_hbicap_set_size_register hw (to_u32 (size >>> 2 : Nat)) w
    match hbicap_write_loop hw drvdata buf (buf.length + 1) 0 size w with
    | none => none
    | some (LoopExit.error status _, w) =>
      some (to_int status, { w with sem := mutex_unlock w.sem })
    | some (LoopExit.finished written, w) =>
      match hbicap_busy_wait hw (XHI_MAX_RETRIES + 1) 0 w with
      | none => none
      | some (true, w) => some (-42, w)
      | some (false, w) =>
        some (to_int ((size : Int) - written), { w with sem := mutex_unlock w.sem })

/-! ## hwicap-fpga.c -/

/-- The `struct hwicap_driver_config`: the operations on the HWICAP core that the
driver reaches through `drvdata->config`, acting on the device state `σ`.
`set_configuration` gets the `NumWords` words of the frame buffer and returns
its status; `get_configuration` gets `NumWords` and returns status and words. -/
structure hwicap_driver_config (σ : Type) where
  get_configuration : σ → Nat → Int × List Nat × σ
  set_configuration : σ → List Nat → Int × σ
  get_status : σ → Nat × σ
  reset : σ → σ

/-- Packet constants and helpers of `hwicap-fpga.h`, which the driver includes. -/
structure hwicap_packets where
  XHI_DUMMY_PACKET : Nat
  XHI_NOOP_PACKET : Nat
  XHI_SYNC_PACKET : Nat
  XHI_CMD_DESYNCH : Nat
  hwicap_type_1_read : Nat → Nat
  hwicap_type_1_write : Nat → Nat

/-- The entries of `zynq_usp_config_registers` that the driver uses. -/
def config_regs_CMD : Nat := 4
def config_regs_IDCODE : Nat := 12

/-- Observable actions of the HWICAP driver, in program order. -/
inductive FifoEvent where
  /-- The call `drvdata->config->reset(drvdata)`. -/
  | reset
  /-- The call `drvdata->config->set_configuration(drvdata, buffer, NumWords)` with the
  words it was handed and the status it returned. -/
  | set_configuration (words : List Nat) (status : Int)
  /-- The call `drvdata->config->get_configuration(drvdata, buffer, NumWords)`. -/
  | get_configuration (num_words : Nat) (status : Int)
  /-- The copy `memcpy(kbuf, drvdata->write_buffer, count)`. -/
  | memcpy_kbuf_carry (count : Int)
  /-- The copy `memcpy((char *)kbuf + dst_off, buf + src_off, count)`. -/
  | memcpy_kbuf_buf (dst_off : Int) (src_off : Int) (count : Int)
  /-- The copy `memcpy(drvdata->write_buffer, buf + src_off, count)`. -/
  | memcpy_carry_buf (src_off : Int) (count : Int)
  deriving DecidableEq, Repr

/-- Everything `hwicap_fpga_ops_*` can change: the device, the trace, the mutex
`drvdata->sem`, `mgr->state`, `priv->flags` and the carry buffer
`drvdata->write_buffer` with `drvdata->write_buffer_in_use`. -/
structure FifoWorld (σ : Type) where
  dev : σ
  trace : List FifoEvent
  sem : Bool
  state : fpga_mgr_states
  flags : Nat
  write_buffer : List Nat
  write_buffer_in_use : Nat
  deriving DecidableEq, Repr

def fifo_reset (cfg : hwicap_driver_config σ) (w : FifoWorld σ) : FifoWorld σ :=
  { w with dev := cfg.reset w.dev, trace := w.trace ++ [FifoEvent.reset] }

def fifo_set_configuration (cfg : hwicap_driver_config σ) (words : List Nat)
    (w : FifoWorld σ) : Int × FifoWorld σ :=
  let r := cfg.set_configuration w.dev words
  (r.1, { w with dev := r.2, trace := w.trace ++ [FifoEvent.set_configuration words r.1] })

def fifo_get_configuration (cfg : hwicap_driver_config σ) (num_words : Nat)
    (w : FifoWorld σ) : Int × List Nat × FifoWorld σ :=
  let r := cfg.get_configuration w.dev num_words
  (r.1, r.2.1,
    { w with dev := r.2.2, trace := w.trace ++ [FifoEvent.get_configuration num_words r.1] })

def hwicap_command_desync (cfg : hwicap_driver_config σ) (pk : hwicap_packets)
    (w : FifoWorld σ) : Int × FifoWorld σ :=
  let buffer := [pk.hwicap_type_1_write config_regs_CMD ||| 1, pk.XHI_CMD_DESYNCH,
    pk.XHI_NOOP_PACKET, pk.XHI_NOOP_PACKET]
  fifo_set_configuration cfg buffer w

def hwicap_get_configuration_register (cfg : hwicap_driver_config σ) (pk : hwicap_packets)
    (reg : Nat) (w : FifoWorld σ) : Int × Option Nat × FifoWorld σ :=
  let buffer := [pk.XHI_DUMMY_PACKET, pk.XHI_NOOP_PACKET, pk.XHI_SYNC_PACKET,
    pk.XHI_NOOP_PACKET, pk.XHI_NOOP_PACKET]
  let r := fifo_set_configuration cfg buffer w
  if r.1 ≠ 0 then (r.1, none, r.2)
  else
    let buffer := [pk.hwicap_type_1_read reg ||| 1, pk.XHI_NOOP_PACKET, pk.XHI_NOOP_PACKET]
    let r := fifo_set_configuration cfg buffer r.2
    if r.1 ≠ 0 then (r.1, none, r.2)
    else
      let g := fifo_get_configuration cfg 1 r.2
      if g.1 ≠ 0 then (g.1, none, g.2.2)
      else (0, g.2.1.head?, g.2.2)

/-- Function `hwicap_fpga_ops_write_init(mgr, info, buf, size)`. -/
def hwicap_fpga_ops_write_init (cfg : hwicap_driver_config σ) (pk : hwicap_packets)
    (k : FlagBits) (feature_list : Nat) (info_flags : Nat) (w : FifoWorld σ) :
    Int × FifoWorld σ :=
  let w := { w with state := FPGA_MGR_STATE_WRITE_INIT }
  let w := { w with flags := info_flags }
  let eemi := eemi_flags k w.flags
  if feature_list &&& eemi ≠ eemi then
    (-EINVAL, { w with state := FPGA_MGR_STATE_WRITE_INIT_ERR })
  else
    let w := fifo_reset cfg w
    let r := hwicap_command_desync cfg pk w
    if r.1 ≠ 0 then
      (r.1, { r.2 with state := FPGA_MGR_STATE_WRITE_INIT_ERR })
    else
      let g := hwicap_get_configuration_register cfg pk config_regs_IDCODE r.2
      if g.1 ≠ 0 then
        (g.1, { g.2.2 with state := FPGA_MGR_STATE_WRITE_INIT_ERR })
      else
        let r := hwicap_command_desync cfg pk g.2.2
        if r.1 ≠ 0 then
          (r.1, { r.2 with state := FPGA_MGR_STATE_WRITE_INIT_ERR })
        else
          (0, r.2)

/-- The copy `memcpy(dst + off, src, n)` on byte lists: `n` bytes of `src` replace the
bytes of `dst` from offset `off` on. -/
def memcpy (dst : List Nat) (off : Nat) (src : List Nat) (n : Int) : List Nat :=
  dst.take off ++ src.take n.toNat ++ dst.drop (off + n.toNat)

/-- The `u32` at the start of a byte sequence, as the little-endian CPU of the
driver's platform reads it. -/
def le32 (b0 b1 b2 b3 : Nat) : Nat :=
  b0 % 256 + 256 * (b1 % 256) + 65536 * (b2 % 256) + 16777216 * (b3 % 256)

/-- The bytes of a buffer read as an array of `u32`. -/
def bytes_to_words : List Nat → List Nat
  | b0 :: b1 :: b2 :: b3 :: rest => le32 b0 b1 b2 b3 :: bytes_to_words rest
  | _ => []

/-- The first `num_words` words of the page `kbuf`, which is what
`set_configuration(drvdata, kbuf, num_words)` is handed. -/
def load_words (kbuf : List Nat) (num_words : Nat) : List Nat :=
  (bytes_to_words kbuf).take num_words

/-- How the chunk loop `while (left > 3)` of `hwicap_fpga_ops_write` is left:
through `goto error` after a failed `set_configuration` (with the status that
call returned), or normally with the final `written` and `left`. -/
inductive FifoExit where
  | error (status : Int)
  | finished (written : Int) (left : Int)
  deriving DecidableEq, Repr

/-- The chunk loop of `hwicap_fpga_ops_write`; `kbuf` is the scratch page. -/
def hwicap_write_loop (cfg : hwicap_driver_config σ) (PAGE_SIZE : Nat) (buf : List Nat) :
    Nat → Int → Int → List Nat → FifoWorld σ → Option (FifoExit × FifoWorld σ)
  | 0, _, _, _, _ => none
  | fuel + 1, written, left, kbuf, w =>
    if left > 3 then
      let len := left
      let len := if len > PAGE_SIZE then (PAGE_SIZE : Int) else len
      let len := 4 * (len / 4)
      let in_use : Int := w.write_buffer_in_use
      let c :=
        if w.write_buffer_in_use ≠ 0 then
          (memcpy (memcpy kbuf 0 w.write_buffer in_use) w.write_buffer_in_use
              (buf.drop written.toNat) (len - in_use),
            [FifoEvent.memcpy_kbuf_carry in_use,
              FifoEvent.memcpy_kbuf_buf in_use written (len - in_use)])
        else
          (memcpy kbuf 0 (buf.drop written.toNat) len, [FifoEvent.memcpy_kbuf_buf 0 written len])
      let kbuf := c.1
      let w := { w with trace := w.trace ++ c.2 }
      let r := fifo_set_configuration cfg (load_words kbuf (to_u32 (len / 4))) w
      if r.1 ≠ 0 then
        some (FifoExit.error r.1, { r.2 with state := FPGA_MGR_STATE_WRITE_ERR })
      else
        let w := r.2
        let len' := if w.write_buffer_in_use ≠ 0 then len - in_use else len
        let left' := if w.write_buffer_in_use ≠ 0 then left - in_use else left
        let w := if w.write_buffer_in_use ≠ 0 then { w with write_buffer_in_use := 0 } else w
        hwicap_write_loop cfg PAGE_SIZE buf fuel (written + len') (left' - len') kbuf w
    else
      some (FifoExit.finished written left, w)

/-- Function `hwicap_fpga_ops_write(mgr, buf, size)` with `size = buf.length`.
`interrupted` says whether the wait for the mutex is interrupted; `page` is
what `__get_free_page` returns: the bytes of a free page, or `none`. -/
def hwicap_fpga_ops_write (cfg : hwicap_driver_config σ) (PAGE_SIZE : Nat)
    (interrupted : Bool) (page : Option (List Nat)) (buf : List Nat) (w : FifoWorld σ) :
    Option (Int × FifoWorld σ) :=
  let size : Nat := buf.length
  let w := { w with state := FPGA_MGR_STATE_WRITE }
  let l := mutex_lock_interruptible interrupted w.sem
  let w := { w with sem := l.2 }
  if l.1 ≠ 0 then
    let w := { w with state := FPGA_MGR_STATE_WRITE_ERR }
    some (to_int l.1, { w with sem := mutex_unlock w.sem })
  else
    let left : Int := size
    let left := left + w.write_buffer_in_use
    if left < 4 then
      let w := { w with state := FPGA_MGR_STATE_WRITE_ERR }
      some (to_int (-EINVAL), { w with sem := mutex_unlock w.sem })
    else
      match page with
      | none =>
        let w := { w with state := FPGA_MGR_STATE_WRITE_ERR }
        some (to_int (-ENOMEM), { w with sem := mutex_unlock w.sem })
      | some kbuf =>
        match hwicap_write_loop cfg PAGE_SIZE buf (left.toNat + 1) 0 left kbuf w with
        | none => none
        | some (FifoExit.error _, w) =>
          some (to_int (-EFAULT), { w with sem := mutex_unlock w.sem })
        | some (FifoExit.finished written left, w) =>
          let t :=
            if left > 0 ∧ left < 4 then
              ({ w with
                  write_buffer := memcpy w.write_buffer 0 (buf.drop written.toNat) left
                  write_buffer_in_use := left.toNat
                  trace := w.trace ++ [FifoEvent.memcpy_carry_buf written left] },
                written + left)
            else (w, written)
          let w := t.1
          let written := t.2
          some (to_int ((size : Int) - written), { w with sem := mutex_unlock w.sem })

/-! ## Reading a trace -/

/-- The staging copies of a trace: source offset, byte count and bytes copied. -/
def staged (tr : List Event) : List (Int × Int × List Nat) :=
  tr.filterMap fun e =>
    match e with
    | Event.stage off count data => some (off, count, data)
    | _ => none

/-- The values written to the engine's `BYTES_TO_TRANSFER` register. -/
def btt_writes (tr : List Event) : List Nat :=
  tr.filterMap fun e =>
    match e with
    | Event.wr Base.cdma off v => if off = XAXICDMA_BTT_OFFSET then some v else none
    | _ => none

/-- An access (read or write) to a register of the transfer engine. -/
def Event.on_cdma : Event → Bool
  | Event.rd Base.cdma _ _ => true
  | Event.wr Base.cdma _ _ => true
  | _ => false

/-- An access to a register of the configuration port. -/
def Event.on_axi_lite : Event → Bool
  | Event.rd Base.axi_lite _ _ => true
  | Event.wr Base.axi_lite _ _ => true
  | _ => false

/-- A register write. -/
def Event.is_wr : Event → Bool
  | Event.wr _ _ _ => true
  | _ => false

/-- A register read. -/
def Event.is_rd : Event → Bool
  | Event.rd _ _ _ => true
  | _ => false

/-- The register accesses of `axi_cdma_write` up to and including the write of
the byte count, when the engine is idle: `v` is the status word read by the
idle check and `c` the control word read by `axi_cdma_set_interrupts`. -/
def cdma_program_events (v c a b a' b' n : Nat) : List Event :=
  [Event.rd Base.cdma XAXICDMA_SR_OFFSET v,
   Event.rd Base.cdma XAXICDMA_CR_OFFSET c,
   Event.wr Base.cdma XAXICDMA_CR_OFFSET (c ||| XAXICDMA_SIMPLE_IRQ),
   Event.wr Base.cdma XAXICDMA_SRCADDR_HIGHER_OFFSET a,
   Event.wr Base.cdma XAXICDMA_SRCADDR_LOWER_OFFSET b,
   Event.wr Base.cdma XAXICDMA_DSTADDR_HIGHER_OFFSET a',
   Event.wr Base.cdma XAXICDMA_DSTADDR_LOWER_OFFSET b',
   Event.wr Base.cdma XAXICDMA_BTT_OFFSET n]

/-- Chunk `k` of a request: the offset and byte count of the staging copy and
the bytes staged, i.e. the bytes `[4096*k, min(4096*(k+1), L))` of the buffer. -/
def dma_chunk (buf : List Nat) (k : Nat) : Int × Int × List Nat :=
  (((4096 * k : Nat) : Int), ((min 4096 (buf.length - 4096 * k) : Nat) : Int),
    (buf.drop (4096 * k)).take 4096)

/-- The number of chunks of a request of `L` bytes: `⌈L / 4096⌉`. -/
def dma_chunk_count (L : Nat) : Nat := (L + 4095) / 4096

/-- The world in which the chunk loop of `hbicap_fpga_ops_write` starts when the
mutex was acquired: state WRITE, mutex held, size register written. -/
def hbicap_write_entry (hw : Hw σ) (buf : List Nat) (w : World σ) : World σ :=
  axi_hbicap_set_size_register hw (to_u32 ((buf.length >>> 2 : Nat) : Int))
    { w with state := FPGA_MGR_STATE_WRITE, sem := true }

/-- A device on which every register read returns `0x1003`: engine idle,
transfer complete without error, configuration done. -/
def hw_ready : Hw Unit := { rd := fun _ _ s => (0x1003, s), wr := fun _ _ _ s => s }

/-- An idle driver: nothing traced yet, mutex free, state OPERATING. -/
def world0 : World Unit :=
  { dev := (), trace := [], sem := false, state := FPGA_MGR_STATE_OPERATING, flags := 0 }

def drvdata0 : hbicap_drvdata :=
  { axi_data_phys_base_lower := 0xA0000000, axi_data_phys_base_higher := 0,
    ddr_phys_base_addr := 0x70000000 }

/-! ## Reading a trace of the HWICAP driver -/

/-- The 32-bit words handed to `set_configuration`, concatenated over all calls
of a trace, in order. -/
def fifo_words (tr : List FifoEvent) : List Nat :=
  tr.flatMap fun e =>
    match e with
    | FifoEvent.set_configuration words _ => words
    | _ => []

/-- The number of `set_configuration` calls of a trace. -/
def fifo_calls (tr : List FifoEvent) : Nat :=
  (tr.filter fun e =>
    match e with
    | FifoEvent.set_configuration _ _ => true
    | _ => false).length

/-- The bytes held in the carry buffer: the first `write_buffer_in_use` bytes of
`write_buffer`. -/
def carry (w : FifoWorld σ) : List Nat := w.write_buffer.take w.write_buffer_in_use

/-- A HWICAP core on which every operation succeeds. -/
def cfg_ok : hwicap_driver_config Unit :=
  { get_configuration := fun s n => (0, List.replicate n 0, s)
    set_configuration := fun s _ => (0, s)
    get_status := fun s => (0, s)
    reset := fun s => s }

/-- An idle HWICAP driver with an empty carry buffer. -/
def fifo_world0 : FifoWorld Unit :=
  { dev := (), trace := [], sem := false, state := FPGA_MGR_STATE_OPERATING, flags := 0,
    write_buffer := [0, 0, 0, 0], write_buffer_in_use := 0 }

/-- The driver `fifo_world0` after a write of the 5 bytes `1, 2, 3, 4, 5`. -/
def fifo_world1 : FifoWorld Unit :=
  { fifo_world0 with
    trace := [FifoEvent.memcpy_kbuf_buf 0 0 4, FifoEvent.set_configuration [0x04030201] 0,
      FifoEvent.memcpy_carry_buf 4 1]
    state := FPGA_MGR_STATE_WRITE, write_buffer := [5, 0, 0, 0], write_buffer_in_use := 1 }

/-- The driver `fifo_world1` after a further write of the 3 bytes `6, 7, 8`. -/
def fifo_world2 : FifoWorld Unit :=
  { fifo_world1 with
    trace := fifo_world1.trace ++ [FifoEvent.memcpy_kbuf_carry 1, FifoEvent.memcpy_kbuf_buf 1 0 3,
      FifoEvent.set_configuration [0x08070605] 0]
    write_buffer_in_use := 0 }

/-- Successive calls of `hwicap_fpga_ops_write`, one per piece of a byte stream;
each call comes with what `__get_free_page` returns to it.  The result is the
list of return values and the world after the last call. -/
def hwicap_write_seq (cfg : hwicap_driver_config σ) (PAGE_SIZE : Nat) :
    List (Option (List Nat) × List Nat) → FifoWorld σ → Option (List Int × FifoWorld σ)
  | [], w => some ([], w)
  | (page, piece) :: rest, w =>
    match hwicap_fpga_ops_write cfg PAGE_SIZE false page piece w with
    | none => none
    | some (ret, w1) =>
      match hwicap_write_seq cfg PAGE_SIZE rest w1 with
      | none => none
      | some (rets, w2) => some (ret :: rets, w2)

/-- A split every call of which is accepted: each piece, together with the `c`
bytes carried into its call, has at least 4 bytes. -/
def split_ok : Nat → List (List Nat) → Prop
  | _, [] => True
  | c, piece :: rest => 4 ≤ c + piece.length ∧ split_ok ((c + piece.length) % 4) rest

/-- The bitmask `a` is a subset of the bitmask `b`: every bit set in `a` is set
in `b`. -/
def flags_subset (a b : Nat) : Prop := ∀ i, a.testBit i = true → b.testBit i = true

/-- An assignment of distinct single bits to the flag constants. -/
def flag_bits0 : FlagBits :=
  { FPGA_MGR_PARTIAL_RECONFIG := 0x1
    FPGA_MGR_ENCRYPTED_BITSTREAM := 0x4
    FPGA_MGR_USERKEY_ENCRYPTED_BITSTREAM := 0x20
    FPGA_MGR_DDR_MEM_AUTH_BITSTREAM := 0x40
    FPGA_MGR_SECURE_MEM_AUTH_BITSTREAM := 0x80
    XILINX_ZYNQMP_PM_FPGA_PARTIAL := 0x1
    XILINX_ZYNQMP_PM_FPGA_AUTHENTICATION_DDR := 0x2
    XILINX_ZYNQMP_PM_FPGA_AUTHENTICATION_OCM := 0x4
    XILINX_ZYNQMP_PM_FPGA_ENCRYPTION_USERKEY := 0x8
    XILINX_ZYNQMP_PM_FPGA_ENCRYPTION_DEVKEY := 0x10 }

/-- Sample packet constants for the HWICAP handshake. -/
def packets0 : hwicap_packets :=
  { XHI_DUMMY_PACKET := 0xFFFFFFFF
    XHI_NOOP_PACKET := 0x20000000
    XHI_SYNC_PACKET := 0xAA995566
    XHI_CMD_DESYNCH := 13
    hwicap_type_1_read := fun reg => 0x28000000 ||| (reg <<< 13)
    hwicap_type_1_write := fun reg => 0x30000000 ||| (reg <<< 13) }

/-- A device whose transfer engine is always idle and complete without error,
but whose configuration port never shows DONE: every read returns `0x1002`. -/
def hw_never_done : Hw Unit := { rd := fun _ _ s => (0x1002, s), wr := fun _ _ _ s => s }

/-- The world at the start of chunk `k` in a run of the chunk loop that starts
in `w` and in which the chunks `0 .. k-1` were all transferred successfully;
`none` when one of these transfers failed. -/
def hbicap_chunks_done (hw : Hw σ) (drvdata : hbicap_drvdata) (buf : List Nat) :
    Nat → World σ → Option (World σ)
  | 0, w => some w
  | k + 1, w =>
    match hbicap_chunks_done hw drvdata buf k w with
    | none => none
    | some wk =>
      match hbicap_write_chunk hw drvdata buf ((4096 * k : Nat) : Int)
          ((buf.length : Int) - ((4096 * k : Nat) : Int)) wk with
      | none => none
      | some (status, w') => if status = 0 then some w' else none

/-- A device whose transfer engine is never idle: every register read returns 0. -/
def hw_not_idle : Hw Unit := { rd := fun _ _ s => (0, s), wr := fun _ _ _ s => s }

/-- A device whose transfer engine is idle and completes every transfer at once
with the error flag set: every register read returns `0x5002`. -/
def hw_error : Hw Unit := { rd := fun _ _ s => (0x5002, s), wr := fun _ _ _ s => s }

/-- A HWICAP core whose `set_configuration` always fails with `-EIO = -5`. -/
def cfg_eio : hwicap_driver_config Unit :=
  { get_configuration := fun s n => (0, List.replicate n 0, s)
    set_configuration := fun s _ => (-5, s)
    get_status := fun s => (0, s)
    reset := fun s => s }

/-- The values the status register of the transfer engine delivers to `n`
successive reads, starting with the device in state `s`. -/
def cdma_status_reads (hw : Hw σ) : Nat → σ → List Nat
  | 0, _ => []
  | n + 1, s =>
    let r := hw.rd Base.cdma XAXICDMA_SR_OFFSET s
    (r.1 % 4294967296) :: cdma_status_reads hw n r.2

/-- Function `hbicap_fpga_ops_state(mgr)`: returns `mgr->state`. -/
def hbicap_fpga_ops_state (w : World σ) : fpga_mgr_states := w.state

/-- Function `hwicap_fpga_ops_state(mgr)`: returns `mgr->state`. -/
def hwicap_fpga_ops_state (w : FifoWorld σ) : fpga_mgr_states := w.state

/-- The values written to the size register of the configuration port. -/
def size_writes (tr : List Event) : List Nat :=
  tr.filterMap fun e =>
    match e with
    | Event.wr Base.axi_lite off v => if off = XHI_SZ_OFFSET then some v else none
    | _ => none

/-- The events of chunk `k` of a request when its transfer completes: the
staging copy, the programming of the engine (`v` is the status word read by the
idle check, `c` the control word read by `axi_cdma_set_interrupts`), the status
words `vals` read by the completion poll, and the write-back of the completion
flag.  The record `r` is `(v, c, vals)`. -/
def dma_chunk_events (drvdata : hbicap_drvdata) (buf : List Nat) (k : Nat)
    (r : Nat × Nat × List Nat) : List Event :=
  Event.stage ((4096 * k : Nat) : Int) ((min 4096 (buf.length - 4096 * k) : Nat) : Int)
      ((buf.drop (4096 * k)).take 4096) ::
    (cdma_program_events r.1 r.2.1 0 (drvdata.ddr_phys_base_addr % 4294967296)
        drvdata.axi_data_phys_base_higher drvdata.axi_data_phys_base_lower
        (min 4096 (buf.length - 4096 * k)) ++
      r.2.2.map (Event.rd Base.cdma XAXICDMA_SR_OFFSET) ++
      [Event.wr Base.cdma XAXICDMA_SR_OFFSET XACDMA_IOC_IRQ])

/-- The events of the consecutive chunks `k, k+1, ...`, one per record. -/
def dma_chunks_events (drvdata : hbicap_drvdata) (buf : List Nat) :
    Nat → List (Nat × Nat × List Nat) → List Event
  | _, [] => []
  | k, r :: rs => dma_chunk_events drvdata buf k r ++ dma_chunks_events drvdata buf (k + 1) rs

/-- The bounds of one copy of `hwicap_fpga_ops_write`, for a scratch page of
`PAGE_SIZE` bytes, a caller buffer of `L` bytes and a carry buffer of 4 bytes.
A copy from the carry buffer moves 1 to 3 bytes.  A copy of `n` bytes from
offset `s` of the caller buffer to offset `d` of the scratch page reads inside
`[0, L)`, has `n ≥ 0`, and completes a chunk of `d + n` bytes that is a positive
multiple of 4 and at most `PAGE_SIZE`, where `d ≤ 3` is the number of carried
bytes before it.  A copy of the tail into the carry buffer moves 1 to 3 bytes
read inside `[0, L)`. -/
def copy_in_bounds (PAGE_SIZE L : Nat) : FifoEvent → Bool
  | FifoEvent.memcpy_kbuf_carry n => decide (0 < n ∧ n ≤ 3)
  | FifoEvent.memcpy_kbuf_buf d s n =>
    decide (0 ≤ d ∧ d ≤ 3 ∧ 0 ≤ n ∧ 0 ≤ s ∧ s + n ≤ (L : Int) ∧ 0 < d + n ∧
      d + n ≤ (PAGE_SIZE : Int) ∧ (d + n) % 4 = 0)
  | FifoEvent.memcpy_carry_buf s n => decide (0 < n ∧ n ≤ 3 ∧ 0 ≤ s ∧ s + n ≤ (L : Int))
  | _ => true

/-! # Theorems -/

theorem staged_append (a b : List Event) : staged (a ++ b) = staged a ++ staged b := by
  simp [staged, List.filterMap_append]

theorem btt_writes_append (a b : List Event) :
    btt_writes (a ++ b) = btt_writes a ++ btt_writes b := by
  simp [btt_writes, List.filterMap_append]

theorem staged_of_on_cdma (evs : List Event) (h : ∀ e ∈ evs, e.on_cdma = true) :
    staged evs = [] := by
  induction evs with
  | nil => rfl
  | cons e t ih =>
    have he := h e (List.mem_cons_self _ _)
    have ht : ∀ x ∈ t, x.on_cdma = true := fun x hx => h x (List.mem_cons_of_mem _ hx)
    have := ih ht
    cases e <;> simp_all [staged, Event.on_cdma]

/-- The status polls of `axi_cdma_busy` terminate within the retry ceiling and
only read the engine's status register. -/
theorem axi_cdma_busy_poll_spec (hw : Hw σ) :
    ∀ (fuel retries : Nat) (w : World σ), retries ≤ XACDMA_MAX_RETRIES →
      XACDMA_MAX_RETRIES + 1 ≤ fuel + retries →
      ∃ o w' vals, axi_cdma_busy_poll hw fuel retries w = some (o, w') ∧
        w'.sem = w.sem ∧ w'.state = w.state ∧ w'.flags = w.flags ∧
        w'.trace = w.trace ++ vals.map (Event.rd Base.cdma XAXICDMA_SR_OFFSET) ∧
        vals ≠ [] ∧ retries + vals.length ≤ XACDMA_MAX_RETRIES + 1 ∧
        (∀ v ∈ vals.dropLast, v &&& XACDMA_IOC_IRQ = 0) ∧
        (o = none → retries + vals.length = XACDMA_MAX_RETRIES + 1) ∧
        (∀ sr, o = some sr → vals.getLast? = some sr ∧ sr &&& XACDMA_IOC_IRQ ≠ 0 ∧
          retries + vals.length ≤ XACDMA_MAX_RETRIES) := by
  intro fuel
  induction fuel with
  | zero => intro retries w h1 h2; omega
  | succ n ih =>
    intro retries w h1 h2
    unfold axi_cdma_busy_poll
    simp only []
    by_cases hto : retries + 1 > XACDMA_MAX_RETRIES
    · rw [if_pos hto]
      refine ⟨none, _, [(ioread32le hw Base.cdma XAXICDMA_SR_OFFSET w).1], rfl, rfl, rfl, rfl,
        ?_, ?_, ?_, ?_, ?_, ?_⟩
      · simp [ioread32le]
      · simp
      · simp; omega
      · simp
      · intro _; simp; omega
      · intro sr h; cases h
    · rw [if_neg hto]
      by_cases hioc : (ioread32le hw Base.cdma XAXICDMA_SR_OFFSET w).1 &&& XACDMA_IOC_IRQ = 0
      · rw [if_pos hioc]
        obtain ⟨o, w', vals, he, hs, hst, hf, htr, hne, hlen, hdl, hnone, hsome⟩ :=
          ih (retries + 1) (ioread32le hw Base.cdma XAXICDMA_SR_OFFSET w).2 (by omega) (by omega)
        refine ⟨o, w', (ioread32le hw Base.cdma XAXICDMA_SR_OFFSET w).1 :: vals, he, ?_, ?_, ?_,
          ?_, ?_, ?_, ?_, ?_, ?_⟩
        · rw [hs]; rfl
        · rw [hst]; rfl
        · rw [hf]; rfl
        · rw [htr]; simp [ioread32le]
        · simp
        · simp; omega
        · intro v hv
          rw [List.dropLast_cons_of_ne_nil hne] at hv
          rcases List.mem_cons.mp hv with h | h
          · rw [h]; exact hioc
          · exact hdl v h
        · intro h; have := hnone h; simp; omega
        · intro sr h
          obtain ⟨h1, h2, h3⟩ := hsome sr h
          refine ⟨?_, h2, ?_⟩
          · obtain ⟨a, t, rfl⟩ := List.exists_cons_of_ne_nil hne
            rw [List.getLast?_cons_cons]; exact h1
          · simp; omega
      · rw [if_neg hioc]
        refine ⟨some _, _, [(ioread32le hw Base.cdma XAXICDMA_SR_OFFSET w).1], rfl, rfl, rfl, rfl,
          ?_, ?_, ?_, ?_, ?_, ?_⟩
        · simp [ioread32le]
        · simp
        · simp; omega
        · simp
        · intro h; cases h
        · intro sr h
          simp only [Option.some.injEq] at h
          subst h
          refine ⟨by simp, hioc, ?_⟩
          simp; omega

/-- What `axi_cdma_busy` does: it always returns; it reads the status register
`vals.length` times, at most `XACDMA_MAX_RETRIES + 1` times, and either times out
without a write or writes the completion flag back once. -/
theorem axi_cdma_busy_spec (hw : Hw σ) (w : World σ) :
    ∃ st w' vals, axi_cdma_busy hw w = some (st, w') ∧
      w'.sem = w.sem ∧ w'.state = w.state ∧ w'.flags = w.flags ∧
      vals ≠ [] ∧ vals.length ≤ XACDMA_MAX_RETRIES + 1 ∧
      (∀ v ∈ vals.dropLast, v &&& XACDMA_IOC_IRQ = 0) ∧
      ((st = to_u32 XACDMA_WRITE_TIMEOUT ∧ vals.length = XACDMA_MAX_RETRIES + 1 ∧
          w'.trace = w.trace ++ vals.map (Event.rd Base.cdma XAXICDMA_SR_OFFSET)) ∨
        (∃ sr, vals.getLast? = some sr ∧ sr &&& XACDMA_IOC_IRQ ≠ 0 ∧
          vals.length ≤ XACDMA_MAX_RETRIES ∧
          w'.trace = w.trace ++ vals.map (Event.rd Base.cdma XAXICDMA_SR_OFFSET) ++
            [Event.wr Base.cdma XAXICDMA_SR_OFFSET XACDMA_IOC_IRQ] ∧
          st = if sr &&& XAXICDMA_ERR_IRQ ≠ 0 then to_u32 XACDMA_WRITE_ERROR else 0)) := by
  obtain ⟨o, w1, vals, he, hs, hst, hf, htr, hne, hlen, hdl, hnone, hsome⟩ :=
    axi_cdma_busy_poll_spec hw (XACDMA_MAX_RETRIES + 1) 0 w (Nat.zero_le _) (by omega)
  unfold axi_cdma_busy
  rw [he]
  cases o with
  | none =>
    refine ⟨_, _, vals, rfl, hs, hst, hf, hne, by omega, hdl, Or.inl ⟨rfl, ?_, htr⟩⟩
    have := hnone rfl
    omega
  | some sr =>
    obtain ⟨h1, h2, h3⟩ := hsome sr rfl
    by_cases herr : sr &&& XAXICDMA_ERR_IRQ ≠ 0
    · simp only [if_pos herr]
      refine ⟨_, _, vals, rfl, hs, hst, hf, hne, by omega, hdl, Or.inr ⟨sr, h1, h2, by omega, ?_, ?_⟩⟩
      · simp [iowrite32le, htr]
      · rw [if_pos herr]
    · simp only [if_neg herr]
      refine ⟨_, _, vals, rfl, hs, hst, hf, hne, by omega, hdl, Or.inr ⟨sr, h1, h2, by omega, ?_, ?_⟩⟩
      · simp [iowrite32le, htr]
      · rw [if_neg herr]

/-- What `axi_cdma_write` does: it always returns; either the idle check fails
and it returns `XACDMA_NOT_IDLE` after that one status read, or it programs the
engine and returns the result of the completion poll. -/
theorem axi_cdma_write_spec (hw : Hw σ) (a b a' b' n : Nat) (w : World σ) :
    ∃ st w', axi_cdma_write hw a b a' b' n w = some (st, w') ∧
      w'.sem = w.sem ∧ w'.state = w.state ∧ w'.flags = w.flags ∧
      (((ioread32le hw Base.cdma XAXICDMA_SR_OFFSET w).1 &&& XAXICDMA_IDLE = 0 ∧
          st = XACDMA_NOT_IDLE ∧
          w' = (ioread32le hw Base.cdma XAXICDMA_SR_OFFSET w).2) ∨
        ((ioread32le hw Base.cdma XAXICDMA_SR_OFFSET w).1 &&& XAXICDMA_IDLE ≠ 0 ∧
          ∃ c vals, vals ≠ [] ∧ vals.length ≤ XACDMA_MAX_RETRIES + 1 ∧
            (∀ v ∈ vals.dropLast, v &&& XACDMA_IOC_IRQ = 0) ∧
            ((st = XACDMA_WRITE_TIMEOUT ∧ vals.length = XACDMA_MAX_RETRIES + 1 ∧
                w'.trace = w.trace ++
                  cdma_program_events (ioread32le hw Base.cdma XAXICDMA_SR_OFFSET w).1 c a b a' b' n ++
                  vals.map (Event.rd Base.cdma XAXICDMA_SR_OFFSET)) ∨
              (∃ sr, vals.getLast? = some sr ∧ sr &&& XACDMA_IOC_IRQ ≠ 0 ∧
                vals.length ≤ XACDMA_MAX_RETRIES ∧
                w'.trace = w.trace ++
                  cdma_program_events (ioread32le hw Base.cdma XAXICDMA_SR_OFFSET w).1 c a b a' b' n ++
                  vals.map (Event.rd Base.cdma XAXICDMA_SR_OFFSET) ++
                  [Event.wr Base.cdma XAXICDMA_SR_OFFSET XACDMA_IOC_IRQ] ∧
                st = if sr &&& XAXICDMA_ERR_IRQ ≠ 0 then XACDMA_WRITE_ERROR else 0)))) := by
  unfold axi_cdma_write axi_cdma_check_IDLE
  simp only []
  by_cases hidle : (ioread32le hw Base.cdma XAXICDMA_SR_OFFSET w).1 &&& XAXICDMA_IDLE = 0
  · refine ⟨XACDMA_NOT_IDLE, (ioread32le hw Base.cdma XAXICDMA_SR_OFFSET w).2, ?_, rfl, rfl, rfl,
      Or.inl ⟨hidle, rfl, rfl⟩⟩
    simp [hidle]
  · have hne : (if (ioread32le hw Base.cdma XAXICDMA_SR_OFFSET w).1 &&& XAXICDMA_IDLE ≠ 0
        then 1 else 0) ≠ 0 := by simp [hidle]
    rw [if_neg hne]
    obtain ⟨st, w', vals, he, hs, hst, hf, hvne, hlen, hdl, hcase⟩ :=
      axi_cdma_busy_spec hw (axi_cdma_set_size hw n (axi_cdma_set_destination_addr hw a' b'
        (axi_cdma_set_source_addr hw a b
          (axi_cdma_set_interrupts hw (ioread32le hw Base.cdma XAXICDMA_SR_OFFSET w).2))))
    rw [he]
    refine ⟨_, _, rfl, ?_, ?_, ?_, Or.inr ⟨hidle,
      (ioread32le hw Base.cdma XAXICDMA_CR_OFFSET
        (ioread32le hw Base.cdma XAXICDMA_SR_OFFSET w).2).1, vals, hvne, hlen, hdl, ?_⟩⟩
    · rw [hs]; rfl
    · rw [hst]; rfl
    · rw [hf]; rfl
    · rcases hcase with ⟨h1, h2, h3⟩ | ⟨sr, h1, h2, h3, h4, h5⟩
      · left
        refine ⟨?_, h2, ?_⟩
        · rw [h1]; decide
        · rw [h3]
          simp [axi_cdma_set_size, axi_cdma_set_destination_addr, axi_cdma_set_source_addr,
            axi_cdma_set_interrupts, iowrite32le, ioread32le, cdma_program_events]
      · right
        refine ⟨sr, h1, h2, h3, ?_, ?_⟩
        · rw [h4]
          simp [axi_cdma_set_size, axi_cdma_set_destination_addr, axi_cdma_set_source_addr,
            axi_cdma_set_interrupts, iowrite32le, ioread32le, cdma_program_events]
        · rw [h5]
          by_cases herr : sr &&& XAXICDMA_ERR_IRQ ≠ 0
          · rw [if_pos herr, if_pos herr]; decide
          · rw [if_neg herr, if_neg herr]; decide

theorem staged_map_rd (b : Base) (off : Nat) (vals : List Nat) :
    staged (vals.map (Event.rd b off)) = [] := by
  induction vals with
  | nil => rfl
  | cons v t ih => simp [staged]

theorem btt_writes_map_rd (b : Base) (off : Nat) (vals : List Nat) :
    btt_writes (vals.map (Event.rd b off)) = [] := by
  induction vals with
  | nil => rfl
  | cons v t ih => simp [btt_writes]

/-- A successful `axi_cdma_write` stages nothing and arms the engine exactly
once, with the byte count it was given. -/
theorem axi_cdma_write_ok (hw : Hw σ) (a b a' b' n : Nat) (w w' : World σ)
    (h : axi_cdma_write hw a b a' b' n w = some (0, w')) :
    w'.sem = w.sem ∧ w'.state = w.state ∧ w'.flags = w.flags ∧
      staged w'.trace = staged w.trace ∧ btt_writes w'.trace = btt_writes w.trace ++ [n] := by
  obtain ⟨st, w2, he, hs, hst, hf, hcase⟩ := axi_cdma_write_spec hw a b a' b' n w
  rw [h] at he
  simp only [Option.some.injEq, Prod.mk.injEq] at he
  obtain ⟨rfl, rfl⟩ := he
  refine ⟨hs, hst, hf, ?_⟩
  rcases hcase with ⟨_, h0, _⟩ | ⟨_, c, vals, _, _, _, hc⟩
  · exact absurd h0 (by decide)
  · rcases hc with ⟨h0, _, _⟩ | ⟨sr, _, _, _, htr, hst0⟩
    · exact absurd h0 (by decide)
    · rw [htr]
      constructor
      · simp [staged_append, staged_map_rd]
        simp [staged, cdma_program_events]
      · simp [btt_writes_append, btt_writes_map_rd]
        simp [btt_writes, cdma_program_events, XAXICDMA_CR_OFFSET, XAXICDMA_SR_OFFSET,
          XAXICDMA_SRCADDR_LOWER_OFFSET, XAXICDMA_SRCADDR_HIGHER_OFFSET,
          XAXICDMA_DSTADDR_LOWER_OFFSET, XAXICDMA_DSTADDR_HIGHER_OFFSET, XAXICDMA_BTT_OFFSET]

/-- The chunk loop always returns when the fuel exceeds the bytes left. -/
theorem hbicap_write_loop_total (hw : Hw σ) (drvdata : hbicap_drvdata) (buf : List Nat) :
    ∀ (fuel : Nat) (written left : Int) (w : World σ), left.toNat < fuel →
      ∃ r, hbicap_write_loop hw drvdata buf fuel written left w = some r := by
  intro fuel
  induction fuel with
  | zero => intro written left w h; omega
  | succ n ih =>
    intro written left w h
    unfold hbicap_write_loop hbicap_write_chunk
    by_cases hl : left > 0
    · simp only [if_pos hl]
      obtain ⟨st, w2, he, -⟩ := axi_cdma_write_spec hw 0 (drvdata.ddr_phys_base_addr % 4294967296)
        drvdata.axi_data_phys_base_higher drvdata.axi_data_phys_base_lower
        (to_u32 (if left < 4096 then left else 4096))
        { w with trace := w.trace ++ [Event.stage written (if left < 4096 then left else 4096)
          (buf_read buf written (if left < 4096 then left else 4096))] }
      rw [he]
      by_cases hst : st ≠ 0
      · simp only [if_pos hst]; exact ⟨_, rfl⟩
      · simp only [if_neg hst]
        apply ih
        clear he
        by_cases h4 : left < 4096
        · rw [if_pos h4]; omega
        · rw [if_neg h4]; omega
    · simp only [if_neg hl]; exact ⟨_, rfl⟩

theorem hbicap_write_loop_finished (hw : Hw σ) (drvdata : hbicap_drvdata) (buf : List Nat) :
    ∀ (fuel j : Nat) (written left : Int) (w w' : World σ) (wr : Int),
      written + left = buf.length → 0 ≤ left →
      (0 < left → written = ((4096 * j : Nat) : Int)) →
      (left = 0 → dma_chunk_count buf.length ≤ j) →
      hbicap_write_loop hw drvdata buf fuel written left w =
        some (LoopExit.finished wr, w') →
      wr = buf.length ∧ w'.sem = w.sem ∧ w'.state = w.state ∧ w'.flags = w.flags ∧
        staged w'.trace = staged w.trace ++
          (List.range' j (dma_chunk_count buf.length - j)).map (dma_chunk buf) ∧
        btt_writes w'.trace = btt_writes w.trace ++
          (List.range' j (dma_chunk_count buf.length - j)).map
            (fun k => min 4096 (buf.length - 4096 * k)) := by
  intro fuel
  induction fuel with
  | zero => intro j written left w w' wr _ _ _ _ h; simp [hbicap_write_loop] at h
  | succ n ih =>
    intro j written left w w' wr hsum hleft hwr hend h
    unfold hbicap_write_loop hbicap_write_chunk at h
    by_cases hl : left > 0
    · simp only [if_pos hl] at h
      have hwj := hwr hl
      subst hwj
      obtain ⟨st, w2, he, -⟩ := axi_cdma_write_spec hw 0 (drvdata.ddr_phys_base_addr % 4294967296)
        drvdata.axi_data_phys_base_higher drvdata.axi_data_phys_base_lower
        (to_u32 (if left < 4096 then left else 4096))
        { w with trace := w.trace ++ [Event.stage ((4096 * j : Nat) : Int)
          (if left < 4096 then left else 4096)
          (buf_read buf ((4096 * j : Nat) : Int) (if left < 4096 then left else 4096))] }
      rw [he] at h
      by_cases hst : st ≠ 0
      · simp only [if_pos hst] at h
        simp at h
      · simp only [if_neg hst] at h
        have hst0 : st = 0 := by simpa using hst
        subst hst0
        have hlen : (if left < 4096 then left else 4096) =
            ((min 4096 (buf.length - 4096 * j) : Nat) : Int) := by
          clear h he ih hwr hend
          by_cases h4 : left < 4096
          · rw [if_pos h4]; omega
          · rw [if_neg h4]; omega
        rw [hlen] at h he
        obtain ⟨hs1, hst1, hf1, hsg1, hbt1⟩ := axi_cdma_write_ok hw _ _ _ _ _ _ _ he
        have hcnt : j < dma_chunk_count buf.length := by
          unfold dma_chunk_count; clear h he ih hwr hend hs1 hst1 hf1 hsg1 hbt1; omega
        obtain ⟨r1, r2, r3, r4, r5, r6⟩ := ih (j + 1) _ _ w2 w' wr
          (by clear h he ih hwr hend hs1 hst1 hf1 hsg1 hbt1; omega)
          (by clear h he ih hwr hend hs1 hst1 hf1 hsg1 hbt1; omega)
          (by clear h he ih hwr hend hs1 hst1 hf1 hsg1 hbt1; omega)
          (by unfold dma_chunk_count; clear h he ih hwr hend hs1 hst1 hf1 hsg1 hbt1; omega) h
        have hrange : List.range' j (dma_chunk_count buf.length - j) =
            j :: List.range' (j + 1) (dma_chunk_count buf.length - (j + 1)) := by
          have : dma_chunk_count buf.length - j =
              (dma_chunk_count buf.length - (j + 1)) + 1 := by
            clear h he ih hwr hend hs1 hst1 hf1 hsg1 hbt1; omega
          rw [this, List.range'_succ]
        have hdata : buf_read buf ((4096 * j : Nat) : Int)
            ((min 4096 (buf.length - 4096 * j) : Nat) : Int) =
            (buf.drop (4096 * j)).take 4096 := by
          unfold buf_read
          simp only [Int.toNat_ofNat]
          by_cases hm : buf.length - 4096 * j ≤ 4096
          · rw [Nat.min_eq_right hm, List.take_of_length_le (by simp),
              List.take_of_length_le (by simp; omega)]
          · rw [Nat.min_eq_left (by omega)]
        have hu : to_u32 ((min 4096 (buf.length - 4096 * j) : Nat) : Int) =
            min 4096 (buf.length - 4096 * j) := by
          unfold to_u32; clear h he ih hwr hend hs1 hst1 hf1 hsg1 hbt1; omega
        refine ⟨r1, ?_, ?_, ?_, ?_, ?_⟩
        · rw [r2, hs1]
        · rw [r3, hst1]
        · rw [r4, hf1]
        · rw [hdata] at hsg1
          rw [r5, hsg1, hrange, staged_append]
          simp only [List.map_cons, List.append_assoc]
          congr 1
        · rw [r6, hbt1, hrange, btt_writes_append, hu]
          simp [btt_writes]
    · simp only [if_neg hl] at h
      simp only [Option.some.injEq, Prod.mk.injEq, LoopExit.finished.injEq] at h
      obtain ⟨rfl, rfl⟩ := h
      have hl0 : left = 0 := by omega
      have hcnt : dma_chunk_count buf.length - j = 0 := by
        have := hend hl0
        omega
      refine ⟨by omega, rfl, rfl, rfl, ?_, ?_⟩
      · rw [hcnt]; simp
      · rw [hcnt]; simp

/-- The final busy poll of `hbicap_fpga_ops_write` always returns; it reads the
status register of the configuration port `vals.length` times and nothing else.
It is left through `return -42` exactly when `XHI_MAX_RETRIES + 1` reads in a row
show the DONE bit clear. -/
theorem hbicap_busy_wait_spec (hw : Hw σ) :
    ∀ (fuel retries : Nat) (w : World σ), retries ≤ XHI_MAX_RETRIES →
      XHI_MAX_RETRIES + 1 ≤ fuel + retries →
      ∃ t w' vals, hbicap_busy_wait hw fuel retries w = some (t, w') ∧
        w'.sem = w.sem ∧ w'.state = w.state ∧ w'.flags = w.flags ∧
        w'.trace = w.trace ++ vals.map (Event.rd Base.axi_lite XHI_SR_OFFSET) ∧
        vals ≠ [] ∧ retries + vals.length ≤ XHI_MAX_RETRIES + 1 ∧
        (∀ v ∈ vals.dropLast, v &&& XHI_SR_DONE_MASK = 0) ∧
        (t = true → retries + vals.length = XHI_MAX_RETRIES + 1 ∧
          ∀ v ∈ vals, v &&& XHI_SR_DONE_MASK = 0) ∧
        (t = false → ∃ sr, vals.getLast? = some sr ∧ sr &&& XHI_SR_DONE_MASK ≠ 0) ∧
        (∀ v ∈ vals, ∃ s, v = (hw.rd Base.axi_lite XHI_SR_OFFSET s).1 % 4294967296) := by
  intro fuel
  induction fuel with
  | zero => intro retries w h1 h2; omega
  | succ n ih =>
    intro retries w h1 h2
    unfold hbicap_busy_wait axi_hbicap_busy
    simp only []
    have hprov1 : ∀ v ∈ [(ioread32le hw Base.axi_lite XHI_SR_OFFSET w).1],
        ∃ s, v = (hw.rd Base.axi_lite XHI_SR_OFFSET s).1 % 4294967296 := by
      intro v hv
      simp only [List.mem_singleton] at hv
      exact ⟨w.dev, by rw [hv]; rfl⟩
    by_cases hdone : (ioread32le hw Base.axi_lite XHI_SR_OFFSET w).1 &&& XHI_SR_DONE_MASK = 0
    · have hb : (if (ioread32le hw Base.axi_lite XHI_SR_OFFSET w).1 &&& XHI_SR_DONE_MASK ≠ 0
          then 0 else 1) ≠ 0 := by simp [hdone]
      rw [if_pos hb]
      by_cases hto : retries + 1 > XHI_MAX_RETRIES
      · rw [if_pos hto]
        refine ⟨true, _, [(ioread32le hw Base.axi_lite XHI_SR_OFFSET w).1], rfl, rfl, rfl, rfl,
          ?_, ?_, ?_, ?_, ?_, ?_, hprov1⟩
        · simp [ioread32le]
        · simp
        · simp; omega
        · simp
        · intro _
          refine ⟨by simp; omega, ?_⟩
          intro v hv
          simp only [List.mem_singleton] at hv
          rw [hv]; exact hdone
        · intro h; cases h
      · rw [if_neg hto]
        obtain ⟨t, w', vals, he, hs, hst, hf, htr, hne, hlen, hdl, htrue, hfalse, hprov⟩ :=
          ih (retries + 1) (ioread32le hw Base.axi_lite XHI_SR_OFFSET w).2 (by omega) (by omega)
        refine ⟨t, w', (ioread32le hw Base.axi_lite XHI_SR_OFFSET w).1 :: vals, he, ?_, ?_, ?_,
          ?_, ?_, ?_, ?_, ?_, ?_, ?_⟩
        · rw [hs]; rfl
        · rw [hst]; rfl
        · rw [hf]; rfl
        · rw [htr]; simp [ioread32le]
        · simp
        · simp; omega
        · intro v hv
          rw [List.dropLast_cons_of_ne_nil hne] at hv
          rcases List.mem_cons.mp hv with h | h
          · rw [h]; exact hdone
          · exact hdl v h
        · intro h
          obtain ⟨h1, h2⟩ := htrue h
          refine ⟨by simp; omega, ?_⟩
          intro v hv
          rcases List.mem_cons.mp hv with h | h
          · rw [h]; exact hdone
          · exact h2 v h
        · intro h
          obtain ⟨sr, h1, h2⟩ := hfalse h
          refine ⟨sr, ?_, h2⟩
          obtain ⟨a, t, rfl⟩ := List.exists_cons_of_ne_nil hne
          rw [List.getLast?_cons_cons]; exact h1
        · intro v hv
          rcases List.mem_cons.mp hv with h | h
          · exact hprov1 v (by rw [h]; simp)
          · exact hprov v h
    · have hb : ¬ (if (ioread32le hw Base.axi_lite XHI_SR_OFFSET w).1 &&& XHI_SR_DONE_MASK ≠ 0
          then 0 else 1) ≠ 0 := by simp [hdone]
      rw [if_neg hb]
      refine ⟨false, _, [(ioread32le hw Base.axi_lite XHI_SR_OFFSET w).1], rfl, rfl, rfl, rfl,
        ?_, ?_, ?_, ?_, ?_, ?_, hprov1⟩
      · simp [ioread32le]
      · simp
      · simp; omega
      · simp
      · intro h; cases h
      · intro _
        exact ⟨_, by simp, hdone⟩

theorem staged_hbicap_write_entry (hw : Hw σ) (buf : List Nat) (w : World σ) :
    staged (hbicap_write_entry hw buf w).trace = staged w.trace ∧
      btt_writes (hbicap_write_entry hw buf w).trace = btt_writes w.trace := by
  simp [hbicap_write_entry, axi_hbicap_set_size_register, iowrite32le, staged_append,
    btt_writes_append]
  simp [staged, btt_writes]

theorem fifo_words_append (a b : List FifoEvent) :
    fifo_words (a ++ b) = fifo_words a ++ fifo_words b := by
  simp [fifo_words, List.flatMap_append]

theorem bytes_to_words_append (a b : List Nat) (h : a.length % 4 = 0) :
    bytes_to_words (a ++ b) = bytes_to_words a ++ bytes_to_words b := by
  induction a using bytes_to_words.induct with
  | case1 b0 b1 b2 b3 rest ih =>
    have hr : rest.length % 4 = 0 := by simp at h; omega
    simp [bytes_to_words, ih hr]
  | case2 l hl =>
    match l, hl, h with
    | [], _, _ => simp [bytes_to_words]
    | [_], _, h => simp at h
    | [_, _], _, h => simp at h
    | [_, _, _], _, h => simp at h
    | b0 :: b1 :: b2 :: b3 :: rest, hl, _ => exact absurd rfl (hl b0 b1 b2 b3 rest)

theorem bytes_to_words_take (l : List Nat) :
    ∀ n, (bytes_to_words l).take n = bytes_to_words (l.take (4 * n)) := by
  induction l using bytes_to_words.induct with
  | case1 b0 b1 b2 b3 rest ih =>
    intro n
    cases n with
    | zero => simp [bytes_to_words]
    | succ m =>
      have h4 : 4 * (m + 1) = 4 * m + 1 + 1 + 1 + 1 := by ring
      rw [h4]
      simp only [bytes_to_words, List.take_succ_cons, ih m]
  | case2 l hl =>
    intro n
    match l, hl with
    | [], _ => simp [bytes_to_words]
    | [a], _ => cases n <;> simp [bytes_to_words]
    | [a, b], _ =>
      rcases n with _ | _ | n <;> simp [bytes_to_words]
    | [a, b, c], _ =>
      rcases n with _ | _ | n <;> simp [bytes_to_words]
    | b0 :: b1 :: b2 :: b3 :: rest, hl => exact absurd rfl (hl b0 b1 b2 b3 rest)

theorem bytes_to_words_length (l : List Nat) : (bytes_to_words l).length = l.length / 4 := by
  induction l using bytes_to_words.induct with
  | case1 b0 b1 b2 b3 rest ih =>
    simp only [bytes_to_words, List.length_cons, ih]; omega
  | case2 l hl =>
    match l, hl with
    | [], _ => simp [bytes_to_words]
    | [a], _ => simp [bytes_to_words]
    | [a, b], _ => simp [bytes_to_words]
    | [a, b, c], _ => simp [bytes_to_words]
    | b0 :: b1 :: b2 :: b3 :: rest, hl => exact absurd rfl (hl b0 b1 b2 b3 rest)

theorem length_memcpy (dst src : List Nat) (off n : Nat) (h1 : n ≤ src.length)
    (h2 : off + n ≤ dst.length) : (memcpy dst off src n).length = dst.length := by
  simp [memcpy, List.length_append, List.length_take, List.length_drop]
  omega

/-- The scratch page after the copies of one loop iteration starts with the
first `len` bytes of carry ++ rest of the caller buffer. -/
theorem kbuf_fill (kbuf wb src : List Nat) (c len : Nat) (hc : c ≤ wb.length) (hcl : c ≤ len)
    (hsrc : len - c ≤ src.length) (hk : len ≤ kbuf.length) :
    ((if c ≠ 0 then memcpy (memcpy kbuf 0 wb (c : Int)) c src ((len : Int) - (c : Int))
        else memcpy kbuf 0 src (len : Int)).take len = (wb.take c ++ src).take len) ∧
      (if c ≠ 0 then memcpy (memcpy kbuf 0 wb (c : Int)) c src ((len : Int) - (c : Int))
        else memcpy kbuf 0 src (len : Int)).length = kbuf.length := by
  have hsub : ((len : Int) - (c : Int)).toNat = len - c := by omega
  by_cases h0 : c ≠ 0
  · rw [if_pos h0]
    have hl1 : (memcpy kbuf 0 wb (c : Int)).length = kbuf.length := by
      have := length_memcpy kbuf wb 0 c hc (by omega)
      simpa using this
    constructor
    · unfold memcpy
      simp only [Int.toNat_ofNat, hsub, List.take_zero, List.nil_append, Nat.zero_add]
      have ht : List.take c (List.take c wb ++ List.drop c kbuf) = List.take c wb := by
        rw [List.take_append_of_le_length (by simp [List.length_take]; omega)]
        simp
      rw [ht]
      rw [List.append_assoc, List.take_append_eq_append_take, List.take_append_eq_append_take]
      simp only [List.length_take]
      have e1 : min c wb.length = c := by omega
      have e2 : min (len - c) src.length = len - c := by omega
      rw [e1, e2]
      rw [List.take_append_eq_append_take]
      simp only [List.length_take, e1]
      congr 1
      have e3 : len - c - (len - c) = 0 := by omega
      rw [e3]
      simp [List.take_take]
    · unfold memcpy
      simp only [Int.toNat_ofNat, hsub, List.take_zero, List.nil_append, Nat.zero_add,
        List.length_append, List.length_take, List.length_drop]
      omega
  · rw [if_neg h0]
    have hc0 : c = 0 := by omega
    subst hc0
    constructor
    · unfold memcpy
      simp only [Int.toNat_ofNat, List.take_zero, List.nil_append, Nat.zero_add]
      rw [List.take_append_eq_append_take]
      simp only [List.length_take]
      have e2 : min len src.length = len := by omega
      rw [e2]
      simp [List.take_take]
    · have := length_memcpy kbuf src 0 len (by omega) (by omega)
      simpa using this

/-- Invariant of the chunk loop of `hwicap_fpga_ops_write`, for a run that is
left normally: with `ln` bytes of carry ++ rest of the buffer outstanding, the
loop hands `set_configuration` the first `4 * (ln / 4)` of these bytes as words,
ends with `ln % 4` bytes left, and clears the carry length as soon as one chunk
has been transferred. -/
theorem hwicap_write_loop_finished (cfg : hwicap_driver_config σ) (PAGE_SIZE : Nat)
    (buf : List Nat) (hP : 4 ≤ PAGE_SIZE) (hP32 : PAGE_SIZE < 4294967296) :
    ∀ (fuel wn ln : Nat) (kbuf : List Nat) (w w' : FifoWorld σ) (wr' l' : Int),
      ln = w.write_buffer_in_use + (buf.length - wn) → wn ≤ buf.length →
      w.write_buffer_in_use ≤ 3 → w.write_buffer_in_use ≤ w.write_buffer.length →
      PAGE_SIZE ≤ kbuf.length →
      hwicap_write_loop cfg PAGE_SIZE buf fuel (wn : Int) (ln : Int) kbuf w =
        some (FifoExit.finished wr' l', w') →
      l' = ((ln % 4 : Nat) : Int) ∧
        (∃ wn' : Nat, wr' = (wn' : Int) ∧ wn' ≤ buf.length ∧
          ln % 4 = w'.write_buffer_in_use + (buf.length - wn')) ∧
        w'.write_buffer_in_use = (if 3 < ln then 0 else w.write_buffer_in_use) ∧
        w'.write_buffer = w.write_buffer ∧
        w'.sem = w.sem ∧ w'.state = w.state ∧ w'.flags = w.flags ∧
        fifo_words w'.trace = fifo_words w.trace ++
          bytes_to_words ((carry w ++ buf.drop wn).take (4 * (ln / 4))) := by
  intro fuel
  induction fuel with
  | zero => intro wn ln kbuf w w' wr' l' _ _ _ _ _ h; simp [hwicap_write_loop] at h
  | succ n ih =>
    intro wn ln kbuf w w' wr' l' hln hwn hc3 hcl hk h
    unfold hwicap_write_loop at h
    by_cases hgt : (ln : Int) > 3
    · simp only [if_pos hgt] at h
      have hgt' : 3 < ln := by omega
      -- the chunk length
      obtain ⟨len, hlen4, hlenle, hlenP, hlendiv, hlen⟩ : ∃ len : Nat, 4 ≤ len ∧ len ≤ ln ∧
          len ≤ PAGE_SIZE ∧ len % 4 = 0 ∧
          (4 * ((if (ln : Int) > (PAGE_SIZE : Int) then (PAGE_SIZE : Int) else (ln : Int)) / 4)
            = (len : Int)) := by
        by_cases hp : (ln : Int) > (PAGE_SIZE : Int)
        · refine ⟨4 * (PAGE_SIZE / 4), by omega, by omega, by omega, by omega, ?_⟩
          rw [if_pos hp]; omega
        · refine ⟨4 * (ln / 4), by omega, by omega, by omega, by omega, ?_⟩
          rw [if_neg hp]; omega
      rw [hlen] at h
      have hu : to_u32 ((len : Int) / 4) = len / 4 := by unfold to_u32; omega
      rw [hu] at h
      have hwnat : ((wn : Int)).toNat = wn := by simp
      rw [hwnat] at h
      have hfill := kbuf_fill kbuf w.write_buffer (buf.drop wn) w.write_buffer_in_use len hcl
        (by omega) (by simp [List.length_drop]; omega) (by omega)
      -- name the page after the copies and the events of the copies
      generalize hc : (if w.write_buffer_in_use ≠ 0 then
          (memcpy (memcpy kbuf 0 w.write_buffer (w.write_buffer_in_use : Int))
              w.write_buffer_in_use (buf.drop wn)
              ((len : Int) - (w.write_buffer_in_use : Int)),
            [FifoEvent.memcpy_kbuf_carry (w.write_buffer_in_use : Int),
              FifoEvent.memcpy_kbuf_buf (w.write_buffer_in_use : Int) (wn : Int)
                ((len : Int) - (w.write_buffer_in_use : Int))])
        else
          (memcpy kbuf 0 (buf.drop wn) (len : Int),
            [FifoEvent.memcpy_kbuf_buf 0 (wn : Int) (len : Int)])) = c at h
      have hc1 : c.1 = (if w.write_buffer_in_use ≠ 0 then
          memcpy (memcpy kbuf 0 w.write_buffer (w.write_buffer_in_use : Int))
              w.write_buffer_in_use (buf.drop wn)
              ((len : Int) - (w.write_buffer_in_use : Int))
          else memcpy kbuf 0 (buf.drop wn) (len : Int)) := by
        rw [← hc]; split <;> rfl
      have hc2 : fifo_words c.2 = [] := by
        rw [← hc]; split <;> simp [fifo_words]
      rw [← hc1] at hfill
      obtain ⟨hfill1, hfill2⟩ := hfill
      by_cases hst : (fifo_set_configuration cfg (load_words c.1 (len / 4))
          { w with trace := w.trace ++ c.2 }).1 ≠ 0
      · simp only [if_pos hst] at h
        simp at h
      · simp only [if_neg hst] at h
        have hwords : load_words c.1 (len / 4) =
            bytes_to_words ((carry w ++ buf.drop wn).take len) := by
          unfold load_words carry
          rw [bytes_to_words_take, ← hfill1]
          have : 4 * (len / 4) = len := by omega
          rw [this]
        -- the state after the iteration
        have hstep : ∃ w2 : FifoWorld σ, w2.write_buffer_in_use = 0 ∧
            w2.write_buffer = w.write_buffer ∧ w2.sem = w.sem ∧ w2.state = w.state ∧
            w2.flags = w.flags ∧
            fifo_words w2.trace = fifo_words w.trace ++
              bytes_to_words ((carry w ++ buf.drop wn).take len) ∧
            hwicap_write_loop cfg PAGE_SIZE buf n
              ((wn + len - w.write_buffer_in_use : Nat) : Int) ((ln - len : Nat) : Int) c.1 w2 =
              some (FifoExit.finished wr' l', w') := by
          by_cases h0 : w.write_buffer_in_use ≠ 0
          · have h0' : (fifo_set_configuration cfg (load_words c.1 (len / 4))
                { w with trace := w.trace ++ c.2 }).2.write_buffer_in_use ≠ 0 := h0
            simp only [if_pos h0'] at h
            refine ⟨{ (fifo_set_configuration cfg (load_words c.1 (len / 4))
                { w with trace := w.trace ++ c.2 }).2 with write_buffer_in_use := 0 },
              rfl, rfl, rfl, rfl, rfl, ?_, ?_⟩
            · simp [fifo_set_configuration, fifo_words_append, hc2, hwords]
              simp [fifo_words]
            · have e1 : (wn : Int) + ((len : Int) - (w.write_buffer_in_use : Int)) =
                  ((wn + len - w.write_buffer_in_use : Nat) : Int) := by omega
              have e2 : (ln : Int) - (w.write_buffer_in_use : Int) -
                  ((len : Int) - (w.write_buffer_in_use : Int)) = ((ln - len : Nat) : Int) := by
                omega
              rw [e1, e2] at h
              exact h
          · have h0' : ¬ (fifo_set_configuration cfg (load_words c.1 (len / 4))
                { w with trace := w.trace ++ c.2 }).2.write_buffer_in_use ≠ 0 := h0
            simp only [if_neg h0'] at h
            have h00 : w.write_buffer_in_use = 0 := by omega
            refine ⟨(fifo_set_configuration cfg (load_words c.1 (len / 4))
                { w with trace := w.trace ++ c.2 }).2, h00, rfl, rfl, rfl, rfl, ?_, ?_⟩
            · simp [fifo_set_configuration, fifo_words_append, hc2, hwords]
              simp [fifo_words]
            · have e1 : (wn : Int) + (len : Int) =
                  ((wn + len - w.write_buffer_in_use : Nat) : Int) := by omega
              have e2 : (ln : Int) - (len : Int) = ((ln - len : Nat) : Int) := by omega
              rw [e1, e2] at h
              exact h
        obtain ⟨w2, s1, s2, s3, s4, s5, s6, s7⟩ := hstep
        obtain ⟨r1, ⟨wn', r2a, r2b, r2c⟩, r3, r4, r5, r6, r7, r8⟩ :=
          ih (wn + len - w.write_buffer_in_use) (ln - len) c.1 w2 w' wr' l'
            (by rw [s1]; omega) (by omega) (by rw [s1]; omega) (by rw [s1]; omega)
            (by rw [hfill2]; exact hk) s7
        have hmod : (ln - len) % 4 = ln % 4 := by omega
        refine ⟨by rw [r1, hmod], ⟨wn', r2a, r2b, by rw [← hmod]; exact r2c⟩, ?_, ?_, ?_, ?_, ?_, ?_⟩
        · rw [if_pos hgt', r3, s1]; simp
        · rw [r4, s2]
        · rw [r5, s3]
        · rw [r6, s4]
        · rw [r7, s5]
        · rw [r8, s6, List.append_assoc]
          congr 1
          have hcarry2 : carry w2 = [] := by simp [carry, s1]
          have hcl' : (carry w).length = w.write_buffer_in_use := by
            simp [carry, List.length_take]; omega
          have hX : (carry w ++ buf.drop wn).length = ln := by
            simp [hcl', List.length_drop]; omega
          have hsplit : 4 * (ln / 4) = len + 4 * ((ln - len) / 4) := by omega
          rw [hcarry2, List.nil_append, hsplit, List.take_add, bytes_to_words_append]
          · congr 2
            rw [List.drop_append_eq_append_drop, hcl']
            have : List.drop len (carry w) = [] := by
              apply List.drop_eq_nil_of_le; omega
            rw [this, List.nil_append, List.drop_drop]
            have e : wn + (len - w.write_buffer_in_use) = wn + len - w.write_buffer_in_use := by
              omega
            rw [e]
          · rw [List.length_take, hX]; omega
    · simp only [if_neg hgt] at h
      simp only [Option.some.injEq, Prod.mk.injEq, FifoExit.finished.injEq] at h
      obtain ⟨⟨rfl, rfl⟩, rfl⟩ := h
      have hle : ln ≤ 3 := by omega
      have hz : ln / 4 = 0 := by omega
      have hm : ln % 4 = ln := by omega
      refine ⟨by rw [hm], ⟨wn, rfl, hwn, by rw [hm]; exact hln⟩, ?_, rfl, rfl, rfl, rfl, ?_⟩
      · rw [if_neg (by omega)]
      · rw [hz]; simp [bytes_to_words]

/-- The chunk loop of `hwicap_fpga_ops_write` always returns when the fuel
exceeds the bytes left.  It only appends to the trace; it is left through
`goto error` exactly when the last event is a `set_configuration` call that
returned a nonzero status, and every earlier call returned `0`. -/
theorem hwicap_write_loop_total (cfg : hwicap_driver_config σ) (PAGE_SIZE : Nat)
    (buf : List Nat) (hP : 4 ≤ PAGE_SIZE) :
    ∀ (fuel : Nat) (written left : Int) (kbuf : List Nat) (w : FifoWorld σ),
      left.toNat < fuel →
      ∃ ex w' evs, hwicap_write_loop cfg PAGE_SIZE buf fuel written left kbuf w = some (ex, w') ∧
        w'.trace = w.trace ++ evs ∧ w'.sem = w.sem ∧ w'.flags = w.flags ∧
        (∀ ws st, FifoEvent.set_configuration ws st ∈ evs →
          ∃ s, (cfg.set_configuration s ws).1 = st) ∧
        (∀ st, ex = FifoExit.error st → st ≠ 0 ∧ w'.state = FPGA_MGR_STATE_WRITE_ERR ∧
          ∃ evs0 ws, evs = evs0 ++ [FifoEvent.set_configuration ws st] ∧
            ∀ ws' st', FifoEvent.set_configuration ws' st' ∈ evs0 → st' = 0) ∧
        (∀ wr l, ex = FifoExit.finished wr l → w'.state = w.state ∧
          ∀ ws' st', FifoEvent.set_configuration ws' st' ∈ evs → st' = 0) := by
  intro fuel
  induction fuel with
  | zero => intro written left kbuf w h; omega
  | succ n ih =>
    intro written left kbuf w hfuel
    unfold hwicap_write_loop
    by_cases hgt : left > 3
    · simp only [if_pos hgt]
      generalize hlen : (4 * ((if left > (PAGE_SIZE : Int) then (PAGE_SIZE : Int) else left) / 4))
        = len
      have hlen4 : 4 ≤ len := by
        rw [← hlen]
        by_cases hp : left > (PAGE_SIZE : Int)
        · rw [if_pos hp]; omega
        · rw [if_neg hp]; omega
      generalize hc : (if w.write_buffer_in_use ≠ 0 then
          (memcpy (memcpy kbuf 0 w.write_buffer (w.write_buffer_in_use : Int))
              w.write_buffer_in_use (buf.drop written.toNat)
              (len - (w.write_buffer_in_use : Int)),
            [FifoEvent.memcpy_kbuf_carry (w.write_buffer_in_use : Int),
              FifoEvent.memcpy_kbuf_buf (w.write_buffer_in_use : Int) written
                (len - (w.write_buffer_in_use : Int))])
        else
          (memcpy kbuf 0 (buf.drop written.toNat) len,
            [FifoEvent.memcpy_kbuf_buf 0 written len])) = c
      have hc2 : ∀ ws' st', FifoEvent.set_configuration ws' st' ∉ c.2 := by
        intro ws' st'
        rw [← hc]; split <;> simp
      by_cases hst : (fifo_set_configuration cfg (load_words c.1 (to_u32 (len / 4)))
          { w with trace := w.trace ++ c.2 }).1 ≠ 0
      · simp only [if_pos hst]
        refine ⟨_, _, c.2 ++ [FifoEvent.set_configuration (load_words c.1 (to_u32 (len / 4)))
          (fifo_set_configuration cfg (load_words c.1 (to_u32 (len / 4)))
            { w with trace := w.trace ++ c.2 }).1], rfl, ?_, rfl, rfl, ?_, ?_, ?_⟩
        · simp [fifo_set_configuration]
        · intro ws' st' hmem
          simp only [List.mem_append, List.mem_singleton] at hmem
          rcases hmem with hmem | hmem
          · exact absurd hmem (hc2 ws' st')
          · simp only [FifoEvent.set_configuration.injEq] at hmem
            exact ⟨w.dev, by rw [hmem.1, hmem.2]; rfl⟩
        · intro st hex
          simp only [FifoExit.error.injEq] at hex
          subst hex
          refine ⟨hst, rfl, c.2, _, rfl, ?_⟩
          intro ws' st' hmem
          exact absurd hmem (hc2 ws' st')
        · intro wr l hex; cases hex
      · simp only [if_neg hst]
        have hst0 : (fifo_set_configuration cfg (load_words c.1 (to_u32 (len / 4)))
            { w with trace := w.trace ++ c.2 }).1 = 0 := by simpa using hst
        -- the state after the iteration, in both cases of the carry test
        have hstep : ∃ (w2 : FifoWorld σ) (wr2 l2 : Int), l2 = left - len ∧
            w2.trace = w.trace ++ c.2 ++ [FifoEvent.set_configuration
              (load_words c.1 (to_u32 (len / 4))) 0] ∧
            w2.sem = w.sem ∧ w2.flags = w.flags ∧ w2.state = w.state ∧
            hwicap_write_loop cfg PAGE_SIZE buf (n + 1) written left kbuf w =
              hwicap_write_loop cfg PAGE_SIZE buf n wr2 l2 c.1 w2 := by
          by_cases h0 : w.write_buffer_in_use ≠ 0
          · refine ⟨{ (fifo_set_configuration cfg (load_words c.1 (to_u32 (len / 4)))
                { w with trace := w.trace ++ c.2 }).2 with write_buffer_in_use := 0 },
              written + (len - w.write_buffer_in_use),
              left - w.write_buffer_in_use - (len - w.write_buffer_in_use), by omega, ?_, rfl, rfl,
              rfl, ?_⟩
            · have hst1 : (cfg.set_configuration w.dev (load_words c.1 (to_u32 (len / 4)))).1 = 0 :=
                hst0
              simp [fifo_set_configuration, hst1]
            · have h0' : (fifo_set_configuration cfg (load_words c.1 (to_u32 (len / 4)))
                  { w with trace := w.trace ++ c.2 }).2.write_buffer_in_use ≠ 0 := h0
              rw [hwicap_write_loop]
              simp only [if_pos hgt, hlen, hc, if_neg hst, if_pos h0']
          · refine ⟨(fifo_set_configuration cfg (load_words c.1 (to_u32 (len / 4)))
                { w with trace := w.trace ++ c.2 }).2, written + len, left - len, rfl, ?_, rfl, rfl,
              rfl, ?_⟩
            · have hst1 : (cfg.set_configuration w.dev (load_words c.1 (to_u32 (len / 4)))).1 = 0 :=
                hst0
              simp [fifo_set_configuration, hst1]
            · have h0' : ¬ (fifo_set_configuration cfg (load_words c.1 (to_u32 (len / 4)))
                  { w with trace := w.trace ++ c.2 }).2.write_buffer_in_use ≠ 0 := h0
              rw [hwicap_write_loop]
              simp only [if_pos hgt, hlen, hc, if_neg hst, if_neg h0']
        obtain ⟨w2, wr2, l2, hl2, htr2, hs2, hf2, hstate2, heq⟩ := hstep
        rw [hwicap_write_loop] at heq
        simp only [if_pos hgt, hlen, hc, if_neg hst] at heq
        rw [heq]
        obtain ⟨ex, w', evs, he, htr, hs, hf, hprov, herr, hfin⟩ := ih wr2 l2 c.1 w2 (by omega)
        refine ⟨ex, w', c.2 ++ [FifoEvent.set_configuration
          (load_words c.1 (to_u32 (len / 4))) 0] ++ evs, he, ?_, ?_, ?_, ?_, ?_, ?_⟩
        · rw [htr, htr2]; simp
        · rw [hs, hs2]
        · rw [hf, hf2]
        · intro ws' st' hmem
          simp only [List.mem_append, List.mem_singleton] at hmem
          rcases hmem with (hmem | hmem) | hmem
          · exact absurd hmem (hc2 ws' st')
          · simp only [FifoEvent.set_configuration.injEq] at hmem
            exact ⟨w.dev, by rw [hmem.1, hmem.2]; exact hst0⟩
          · exact hprov ws' st' hmem
        · intro st hex
          obtain ⟨h1, h2, evs0, ws, h3, h4⟩ := herr st hex
          refine ⟨h1, h2, c.2 ++ [FifoEvent.set_configuration
            (load_words c.1 (to_u32 (len / 4))) 0] ++ evs0, ws, ?_, ?_⟩
          · rw [h3]; simp
          · intro ws' st' hmem
            simp only [List.mem_append, List.mem_singleton] at hmem
            rcases hmem with (hmem | hmem) | hmem
            · exact absurd hmem (hc2 ws' st')
            · simp only [FifoEvent.set_configuration.injEq] at hmem
              exact hmem.2
            · exact h4 ws' st' hmem
        · intro wr l hex
          obtain ⟨h1, h2⟩ := hfin wr l hex
          refine ⟨by rw [h1, hstate2], ?_⟩
          intro ws' st' hmem
          simp only [List.mem_append, List.mem_singleton] at hmem
          rcases hmem with (hmem | hmem) | hmem
          · exact absurd hmem (hc2 ws' st')
          · simp only [FifoEvent.set_configuration.injEq] at hmem
            exact hmem.2
          · exact h2 ws' st' hmem
    · simp only [if_neg hgt]
      refine ⟨_, _, [], rfl, by simp, rfl, rfl, by simp, ?_, ?_⟩
      · intro st hex; cases hex
      · intro wr l _
        exact ⟨rfl, by simp⟩

/-- What one call of `hwicap_fpga_ops_write` does when the mutex is acquired, the
call is accepted (`c + L ≥ 4`) and the scratch page is allocated: it returns, it
only appends events, and either a `set_configuration` call failed and it returns
`-EFAULT`, or every call returned `0` and the words handed over are the first
`4 * ⌊(c+L)/4⌋` bytes of carry ++ buffer, the carry buffer afterwards holds the
last `(c+L) mod 4` bytes of the buffer, and it returns `0`. -/
theorem hwicap_fpga_ops_write_spec (cfg : hwicap_driver_config σ) (PAGE_SIZE : Nat)
    (buf kbuf : List Nat) (w : FifoWorld σ) (hP : 4 ≤ PAGE_SIZE) (hP32 : PAGE_SIZE < 4294967296)
    (hk : PAGE_SIZE ≤ kbuf.length) (hc : w.write_buffer_in_use ≤ 3)
    (hcl : w.write_buffer_in_use ≤ w.write_buffer.length)
    (h4 : 4 ≤ w.write_buffer_in_use + buf.length) :
    ∃ ret wf evs, hwicap_fpga_ops_write cfg PAGE_SIZE false (some kbuf) buf w = some (ret, wf) ∧
      wf.trace = w.trace ++ evs ∧ wf.sem = false ∧ wf.flags = w.flags ∧
      (∀ ws st, FifoEvent.set_configuration ws st ∈ evs →
        ∃ s, (cfg.set_configuration s ws).1 = st) ∧
      ((ret = -EFAULT ∧ wf.state = FPGA_MGR_STATE_WRITE_ERR ∧
          ∃ evs0 ws st, st ≠ 0 ∧ evs = evs0 ++ [FifoEvent.set_configuration ws st] ∧
            ∀ ws' st', FifoEvent.set_configuration ws' st' ∈ evs0 → st' = 0) ∨
        (ret = 0 ∧ wf.state = FPGA_MGR_STATE_WRITE ∧
          (∀ ws' st', FifoEvent.set_configuration ws' st' ∈ evs → st' = 0) ∧
          fifo_words evs = bytes_to_words
            ((carry w ++ buf).take (4 * ((w.write_buffer_in_use + buf.length) / 4))) ∧
          wf.write_buffer_in_use = (w.write_buffer_in_use + buf.length) % 4 ∧
          carry wf = buf.drop (buf.length - (w.write_buffer_in_use + buf.length) % 4) ∧
          (carry wf).length = (w.write_buffer_in_use + buf.length) % 4)) := by
  unfold hwicap_fpga_ops_write
  simp only [mutex_lock_interruptible, Bool.false_eq_true, if_false, ne_eq, not_true_eq_false]
  have hnot : ¬ ((buf.length : Int) + (w.write_buffer_in_use : Int) < 4) := by omega
  simp only [if_neg hnot]
  have hfuel : ((buf.length : Int) + (w.write_buffer_in_use : Int)).toNat <
      ((buf.length : Int) + (w.write_buffer_in_use : Int)).toNat + 1 := Nat.lt_succ_self _
  obtain ⟨ex, w', evs, he, htr, hs, hf, hprov, herr, hfin⟩ :=
    hwicap_write_loop_total cfg PAGE_SIZE buf hP
    (((buf.length : Int) + (w.write_buffer_in_use : Int)).toNat + 1) 0
    ((buf.length : Int) + (w.write_buffer_in_use : Int)) kbuf
    { w with state := FPGA_MGR_STATE_WRITE, sem := true } hfuel
  rw [he]
  cases ex with
  | error st =>
    obtain ⟨h1, h2, evs0, ws, h3, h4'⟩ := herr st rfl
    refine ⟨_, _, evs, rfl, htr, rfl, hf, hprov, Or.inl ⟨?_, h2, evs0, ws, st, h1, h3, h4'⟩⟩
    decide
  | finished wr l =>
    obtain ⟨hstate, hall⟩ := hfin wr l rfl
    have he' : hwicap_write_loop cfg PAGE_SIZE buf
        (((buf.length : Int) + (w.write_buffer_in_use : Int)).toNat + 1) ((0 : Nat) : Int)
        ((w.write_buffer_in_use + buf.length : Nat) : Int) kbuf
        { w with state := FPGA_MGR_STATE_WRITE, sem := true } =
        some (FifoExit.finished wr l, w') := by
      have e1 : ((w.write_buffer_in_use + buf.length : Nat) : Int) =
          (buf.length : Int) + (w.write_buffer_in_use : Int) := by omega
      rw [e1]; exact he
    obtain ⟨r1, ⟨wn', r2a, r2b, r2c⟩, r3, r4, -, -, -, r8⟩ :=
      hwicap_write_loop_finished cfg PAGE_SIZE buf hP hP32 _ 0
        (w.write_buffer_in_use + buf.length) kbuf
        { w with state := FPGA_MGR_STATE_WRITE, sem := true } w' wr l (by simp) (by omega) hc hcl
        hk he'
    rw [if_pos (by omega)] at r3
    rw [r3] at r2c
    have hwords : fifo_words evs = bytes_to_words
        ((carry w ++ buf).take (4 * ((w.write_buffer_in_use + buf.length) / 4))) := by
      rw [htr, fifo_words_append] at r8
      have := List.append_cancel_left r8
      simpa [carry] using this
    subst r2a
    subst r1
    by_cases hrem : (w.write_buffer_in_use + buf.length) % 4 = 0
    · have hif : ¬ ((((w.write_buffer_in_use + buf.length) % 4 : Nat) : Int) > 0 ∧
          (((w.write_buffer_in_use + buf.length) % 4 : Nat) : Int) < 4) := by omega
      simp only [if_neg hif]
      have hwn : wn' = buf.length := by omega
      refine ⟨_, _, evs, rfl, htr, rfl, hf, hprov,
        Or.inr ⟨?_, hstate, hall, hwords, ?_, ?_, ?_⟩⟩
      · subst hwn; simp [to_int]
      · show w'.write_buffer_in_use = _
        rw [r3, hrem]
      · show carry w' = _
        simp [carry, r3, hrem]
      · show (carry w').length = _
        simp [carry, r3, hrem]
    · have hif : ((((w.write_buffer_in_use + buf.length) % 4 : Nat) : Int) > 0 ∧
          (((w.write_buffer_in_use + buf.length) % 4 : Nat) : Int) < 4) := by omega
      simp only [if_pos hif]
      have hwn : wn' + (w.write_buffer_in_use + buf.length) % 4 = buf.length := by omega
      have hcarry : List.take ((w.write_buffer_in_use + buf.length) % 4)
          (memcpy w'.write_buffer 0 (List.drop wn' buf)
            (((w.write_buffer_in_use + buf.length) % 4 : Nat) : Int)) =
          buf.drop (buf.length - (w.write_buffer_in_use + buf.length) % 4) := by
        unfold memcpy
        simp only [Int.toNat_ofNat, List.take_zero, List.nil_append]
        rw [List.take_append_of_le_length (by simp [List.length_take, List.length_drop]; omega)]
        rw [List.take_take, Nat.min_self]
        have : buf.length - (w.write_buffer_in_use + buf.length) % 4 = wn' := by omega
        rw [this]
        apply List.take_of_length_le
        simp [List.length_drop]; omega
      refine ⟨_, _, evs ++ [FifoEvent.memcpy_carry_buf (wn' : Int)
          (((w.write_buffer_in_use + buf.length) % 4 : Nat) : Int)], rfl, ?_, rfl, hf, ?_,
        Or.inr ⟨?_, hstate, ?_, ?_, ?_, ?_, ?_⟩⟩
      · simp [htr]
      · intro ws' st' hmem
        simp only [List.mem_append, List.mem_singleton] at hmem
        rcases hmem with hmem | hmem
        · exact hprov ws' st' hmem
        · cases hmem
      · have : (buf.length : Int) - ((wn' : Int) +
            (((w.write_buffer_in_use + buf.length) % 4 : Nat) : Int)) = 0 := by omega
        simp only [this]; decide
      · intro ws' st' hmem
        simp only [List.mem_append, List.mem_singleton] at hmem
        rcases hmem with hmem | hmem
        · exact hall ws' st' hmem
        · cases hmem
      · rw [fifo_words_append, hwords]; simp [fifo_words]
      · show (((w.write_buffer_in_use + buf.length) % 4 : Nat) : Int).toNat = _
        simp only [Int.toNat_ofNat]
      · simpa [carry] using hcarry
      · have := congrArg List.length hcarry
        simp only [List.length_drop] at this
        simp only [carry, Int.toNat_ofNat]
        rw [this]; omega

/-- C3. FIFO variant: for every call of `hwicap_fpga_ops_write` that reaches the
chunk loop (mutex acquired, scratch page allocated) with a carry buffer holding
`c ≤ 3` bytes and a caller buffer of `L` bytes, `c + L ≥ 4`: the call returns,
and if every `set_configuration` call of it returned `0`, then the words handed
to `set_configuration`, concatenated, are the first `4 * ⌊(c+L)/4⌋` bytes of
carry ++ buffer, the carry buffer afterwards holds exactly the last
`(c+L) mod 4` bytes of the caller buffer, and the call returns `0`. -/
theorem C3_fifo_write_words_and_carry (cfg : hwicap_driver_config σ) (PAGE_SIZE : Nat)
    (buf kbuf : List Nat) (w : FifoWorld σ) (hP : 4 ≤ PAGE_SIZE) (hP32 : PAGE_SIZE < 4294967296)
    (hk : PAGE_SIZE ≤ kbuf.length) (hc : w.write_buffer_in_use ≤ 3)
    (hcl : w.write_buffer_in_use ≤ w.write_buffer.length)
    (h4 : 4 ≤ w.write_buffer_in_use + buf.length) :
    ∃ ret wf evs, hwicap_fpga_ops_write cfg PAGE_SIZE false (some kbuf) buf w = some (ret, wf) ∧
      wf.trace = w.trace ++ evs ∧
      ((∀ ws st, FifoEvent.set_configuration ws st ∈ evs → st = 0) →
        ret = 0 ∧
        fifo_words evs = bytes_to_words
          ((carry w ++ buf).take (4 * ((w.write_buffer_in_use + buf.length) / 4))) ∧
        wf.write_buffer_in_use = (w.write_buffer_in_use + buf.length) % 4 ∧
        carry wf = buf.drop (buf.length - (w.write_buffer_in_use + buf.length) % 4) ∧
        (carry wf).length = (w.write_buffer_in_use + buf.length) % 4) := by
  obtain ⟨ret, wf, evs, hrun, htr, -, -, -, hcase⟩ :=
    hwicap_fpga_ops_write_spec cfg PAGE_SIZE buf kbuf w hP hP32 hk hc hcl h4
  refine ⟨ret, wf, evs, hrun, htr, ?_⟩
  intro hall
  rcases hcase with ⟨-, -, evs0, ws, st, hst, hev, -⟩ | ⟨h0, -, -, hw, hu, hcar, hlen⟩
  · exact absurd (hall ws st (by rw [hev]; simp)) hst
  · exact ⟨h0, hw, hu, hcar, hlen⟩

theorem C3_fifo_write_words_and_carry_witness :
    ∃ wf, hwicap_fpga_ops_write cfg_ok 4096 false (some (List.replicate 4096 0))
        [1, 2, 3, 4, 5] fifo_world0 = some (0, wf) ∧
      fifo_words wf.trace = [0x04030201] ∧ carry wf = [5] ∧
      ∃ wf2 evs, hwicap_fpga_ops_write cfg_ok 4096 false (some (List.replicate 4096 0))
          [6, 7, 8] wf = some (0, wf2) ∧
        wf2.trace = wf.trace ++ evs ∧ fifo_words evs = [0x08070605] ∧ fifo_calls evs = 1 ∧
        wf2.write_buffer_in_use = 0 := by
  have e1 : hwicap_fpga_ops_write cfg_ok 4096 false (some (List.replicate 4096 0))
      [1, 2, 3, 4, 5] fifo_world0 = some (0, fifo_world1) := rfl
  have e2 : hwicap_fpga_ops_write cfg_ok 4096 false (some (List.replicate 4096 0))
      [6, 7, 8] fifo_world1 = some (0, fifo_world2) := rfl
  obtain ⟨ret, wf, evs, hrun, htr, himp⟩ := C3_fifo_write_words_and_carry cfg_ok 4096
    [1, 2, 3, 4, 5] (List.replicate 4096 0) fifo_world0 (by decide) (by decide)
    (List.length_replicate 4096 0).ge (by decide) (by decide) (by decide)
  rw [e1] at hrun
  simp only [Option.some.injEq, Prod.mk.injEq] at hrun
  obtain ⟨rfl, rfl⟩ := hrun
  have hevs : evs = fifo_world1.trace := by
    have : fifo_world0.trace = [] := rfl
    rw [this, List.nil_append] at htr
    exact htr.symm
  subst hevs
  obtain ⟨-, hw1, -, hc1, -⟩ := himp (by
    intro ws st h
    simp [fifo_world1, fifo_world0] at h
    exact h.2)
  obtain ⟨ret2, wf2, evs2, hrun2, htr2, himp2⟩ := C3_fifo_write_words_and_carry cfg_ok 4096
    [6, 7, 8] (List.replicate 4096 0) fifo_world1 (by decide) (by decide)
    (List.length_replicate 4096 0).ge (by decide) (by decide) (by decide)
  rw [e2] at hrun2
  simp only [Option.some.injEq, Prod.mk.injEq] at hrun2
  obtain ⟨rfl, rfl⟩ := hrun2
  have hevs2 : evs2 = [FifoEvent.memcpy_kbuf_carry 1, FifoEvent.memcpy_kbuf_buf 1 0 3,
      FifoEvent.set_configuration [0x08070605] 0] := by
    have h1 : fifo_world2.trace = fifo_world1.trace ++ [FifoEvent.memcpy_kbuf_carry 1,
      FifoEvent.memcpy_kbuf_buf 1 0 3, FifoEvent.set_configuration [0x08070605] 0] := rfl
    rw [h1] at htr2
    exact (List.append_cancel_left htr2).symm
  subst hevs2
  obtain ⟨-, hw2, hu2, -, -⟩ := himp2 (by
    intro ws st h
    simp at h
    exact h.2)
  exact ⟨fifo_world1, e1, hw1, hc1, fifo_world2, _, e2, htr2, hw2, rfl, hu2⟩

/-- Successive accepted calls transfer, in total, the first `4 * ⌊(c+L)/4⌋` bytes
of carry ++ stream and leave the rest in the carry buffer. -/
theorem hwicap_write_seq_spec (cfg : hwicap_driver_config σ) (PAGE_SIZE : Nat)
    (hP : 4 ≤ PAGE_SIZE) (hP32 : PAGE_SIZE < 4294967296)
    (hset : ∀ s ws, (cfg.set_configuration s ws).1 = 0) :
    ∀ (calls : List (List Nat × List Nat)) (w : FifoWorld σ),
      (∀ c ∈ calls, PAGE_SIZE ≤ c.1.length) → w.write_buffer_in_use ≤ 3 →
      w.write_buffer_in_use ≤ w.write_buffer.length →
      split_ok w.write_buffer_in_use (calls.map (·.2)) →
      ∃ rets wf evs,
        hwicap_write_seq cfg PAGE_SIZE (calls.map fun c => (some c.1, c.2)) w = some (rets, wf) ∧
        rets.length = calls.length ∧ (∀ r ∈ rets, r = 0) ∧ wf.trace = w.trace ++ evs ∧
        fifo_words evs = bytes_to_words ((carry w ++ (calls.map (·.2)).flatten).take
          (4 * ((w.write_buffer_in_use + (calls.map (·.2)).flatten.length) / 4))) ∧
        wf.write_buffer_in_use =
          (w.write_buffer_in_use + (calls.map (·.2)).flatten.length) % 4 ∧
        wf.write_buffer_in_use ≤ wf.write_buffer.length ∧
        carry wf = (carry w ++ (calls.map (·.2)).flatten).drop
          (4 * ((w.write_buffer_in_use + (calls.map (·.2)).flatten.length) / 4)) := by
  intro calls
  induction calls with
  | nil =>
    intro w _ hc hcl _
    refine ⟨[], w, [], rfl, rfl, by simp, by simp, ?_, ?_, hcl, ?_⟩
    · have : w.write_buffer_in_use / 4 = 0 := by omega
      simp [this, fifo_words, bytes_to_words]
    · simp; omega
    · have : w.write_buffer_in_use / 4 = 0 := by omega
      simp [this]
  | cons call rest ih =>
    intro w hpages hc hcl hsplit
    obtain ⟨kbuf, piece⟩ := call
    simp only [List.map_cons, split_ok] at hsplit
    obtain ⟨h4, hrest⟩ := hsplit
    obtain ⟨ret, w1, evs1, hrun, htr1, -, -, hprov, hcase⟩ :=
      hwicap_fpga_ops_write_spec cfg PAGE_SIZE piece kbuf w hP hP32
        (hpages (kbuf, piece) (List.mem_cons_self _ _)) hc hcl h4
    rcases hcase with ⟨-, -, evs0, ws, st, hst, hev, -⟩ | ⟨h0, -, -, hw, hu, hcar, hlen⟩
    · obtain ⟨s, hs⟩ := hprov ws st (by rw [hev]; simp)
      rw [hset] at hs
      exact absurd hs.symm hst
    · have hcl1 : w1.write_buffer_in_use ≤ w1.write_buffer.length := by
        have : (carry w1).length ≤ w1.write_buffer.length := by
          simp [carry, List.length_take]
        omega
      obtain ⟨rets, wf, evs2, hseq, hrl, hrets, htr2, hw2, hu2, hcl2, hcar2⟩ :=
        ih w1 (fun c hc => hpages c (List.mem_cons_of_mem _ hc)) (by omega) hcl1
          (by rw [hu]; exact hrest)
      have hcw : (carry w).length = w.write_buffer_in_use := by
        simp [carry, List.length_take]; omega
      have hX : (carry w ++ piece).length = w.write_buffer_in_use + piece.length := by
        simp [hcw]
      -- the carry after the first call, as a suffix of carry ++ piece
      have hcar1 : carry w1 = (carry w ++ piece).drop
          (4 * ((w.write_buffer_in_use + piece.length) / 4)) := by
        rw [hcar, List.drop_append_eq_append_drop, hcw]
        have e1 : List.drop (4 * ((w.write_buffer_in_use + piece.length) / 4)) (carry w) = [] := by
          apply List.drop_eq_nil_of_le; omega
        rw [e1, List.nil_append]
        congr 1
        omega
      have hsum : (w.write_buffer_in_use + (piece ++ (rest.map (·.2)).flatten).length) =
          4 * ((w.write_buffer_in_use + piece.length) / 4) +
            (w1.write_buffer_in_use + (rest.map (·.2)).flatten.length) := by
        rw [hu, List.length_append]; omega
      have hdiv : 4 * ((w.write_buffer_in_use + (piece ++ (rest.map (·.2)).flatten).length) / 4) =
          4 * ((w.write_buffer_in_use + piece.length) / 4) +
            4 * ((w1.write_buffer_in_use + (rest.map (·.2)).flatten.length) / 4) := by
        rw [hsum]; omega
      have hdrop : List.drop (4 * ((w.write_buffer_in_use + piece.length) / 4))
          (carry w ++ (piece ++ (rest.map (·.2)).flatten)) =
          carry w1 ++ (rest.map (·.2)).flatten := by
        rw [← List.append_assoc, List.drop_append_of_le_length (by rw [hX]; omega), hcar1]
      refine ⟨ret :: rets, wf, evs1 ++ evs2, ?_, ?_, ?_, ?_, ?_, ?_, hcl2, ?_⟩
      · simp only [List.map_cons, hwicap_write_seq, hrun, hseq]
      · simp [hrl]
      · intro r hr
        rcases List.mem_cons.mp hr with h | h
        · rw [h, h0]
        · exact hrets r h
      · rw [htr2, htr1, List.append_assoc]
      · simp only [List.map_cons, List.flatten_cons]
        have htake : List.take (4 * ((w.write_buffer_in_use + piece.length) / 4))
            (carry w ++ (piece ++ (rest.map (·.2)).flatten)) =
            List.take (4 * ((w.write_buffer_in_use + piece.length) / 4)) (carry w ++ piece) := by
          rw [← List.append_assoc, List.take_append_of_le_length (by rw [hX]; omega)]
        rw [fifo_words_append, hw, hw2, hdiv, List.take_add, hdrop, htake, bytes_to_words_append]
        rw [List.length_take, hX]
        omega
      · simp only [List.map_cons, List.flatten_cons]
        rw [hu2, hsum]; omega
      · simp only [List.map_cons, List.flatten_cons]
        rw [hcar2, hdiv, ← List.drop_drop, hdrop]

/-- C2 (amended). FIFO variant, carry-merge associativity for accepted splits:
take a byte stream whose length `L` is not a multiple of 4 and a split of it into
consecutive pieces such that every call is accepted, i.e. each piece together
with the bytes carried into its call has at least 4 bytes.  Starting from an
empty carry buffer, with every call acquiring the mutex and getting its scratch
page and with `set_configuration` always succeeding, one `write` call per piece
hands `set_configuration` the same concatenated sequence of 32-bit words as one
`write` call with the whole stream; all these calls return 0 and both ways leave
the same bytes in the carry buffer. -/
theorem C2_fifo_accepted_splits_same_words (cfg : hwicap_driver_config σ) (PAGE_SIZE : Nat)
    (calls : List (List Nat × List Nat)) (kbuf : List Nat) (w : FifoWorld σ)
    (hP : 4 ≤ PAGE_SIZE) (hP32 : PAGE_SIZE < 4294967296)
    (hset : ∀ s ws, (cfg.set_configuration s ws).1 = 0)
    (hw0 : w.write_buffer_in_use = 0)
    (hpages : ∀ c ∈ calls, PAGE_SIZE ≤ c.1.length) (hk : PAGE_SIZE ≤ kbuf.length)
    (hL : (calls.map (·.2)).flatten.length % 4 ≠ 0)
    (hsplit : split_ok 0 (calls.map (·.2))) :
    ∃ rets wf ret' wf' evs evs',
      hwicap_write_seq cfg PAGE_SIZE (calls.map fun c => (some c.1, c.2)) w = some (rets, wf) ∧
      hwicap_fpga_ops_write cfg PAGE_SIZE false (some kbuf) (calls.map (·.2)).flatten w =
        some (ret', wf') ∧
      rets.length = calls.length ∧ (∀ r ∈ rets, r = 0) ∧ ret' = 0 ∧
      wf.trace = w.trace ++ evs ∧ wf'.trace = w.trace ++ evs' ∧
      fifo_words evs = fifo_words evs' ∧ carry wf = carry wf' := by
  have hL4 : 4 ≤ w.write_buffer_in_use + (calls.map (·.2)).flatten.length := by
    cases calls with
    | nil => simp at hL
    | cons c rest =>
      simp only [List.map_cons, split_ok] at hsplit
      simp only [List.map_cons, List.flatten_cons, List.length_append]
      omega
  obtain ⟨rets, wf, evs, hseq, hrl, hrets, htr, hwords, -, -, hcar⟩ :=
    hwicap_write_seq_spec cfg PAGE_SIZE hP hP32 hset calls w hpages (by omega) (by omega)
      (by rw [hw0]; exact hsplit)
  obtain ⟨ret', wf', evs', hrun, htr', -, -, hprov, hcase⟩ :=
    hwicap_fpga_ops_write_spec cfg PAGE_SIZE (calls.map (·.2)).flatten kbuf w hP hP32 hk
      (by omega) (by omega) hL4
  rcases hcase with ⟨-, -, evs0, ws, st, hst, hev, -⟩ | ⟨h0, -, -, hw', -, hcar', -⟩
  · obtain ⟨s, hs⟩ := hprov ws st (by rw [hev]; simp)
    rw [hset] at hs
    exact absurd hs.symm hst
  · refine ⟨rets, wf, ret', wf', evs, evs', hseq, hrun, hrl, hrets, h0, htr, htr', ?_, ?_⟩
    · rw [hwords, hw']
    · rw [hcar, hcar']
      have hcw : carry w = [] := by simp [carry, hw0]
      rw [hcw, List.nil_append, hw0]
      congr 1
      omega

theorem C2_fifo_accepted_splits_same_words_witness :
    ∃ rets wf ret' wf' evs evs',
      hwicap_write_seq cfg_ok 4096
        [(some (List.replicate 4096 0), [1, 2, 3, 4, 5]), (some (List.replicate 4096 0), [6, 7, 8]),
          (some (List.replicate 4096 0), [9, 10, 11, 12, 13])] fifo_world0 = some (rets, wf) ∧
      hwicap_fpga_ops_write cfg_ok 4096 false (some (List.replicate 4096 0))
        [1, 2, 3, 4, 5, 6, 7, 8, 9, 10, 11, 12, 13] fifo_world0 = some (ret', wf') ∧
      rets.length = 3 ∧ (∀ r ∈ rets, r = 0) ∧ ret' = 0 ∧
      wf.trace = fifo_world0.trace ++ evs ∧ wf'.trace = fifo_world0.trace ++ evs' ∧
      fifo_words evs = fifo_words evs' ∧ carry wf = carry wf' :=
  C2_fifo_accepted_splits_same_words cfg_ok 4096
    [(List.replicate 4096 0, [1, 2, 3, 4, 5]), (List.replicate 4096 0, [6, 7, 8]),
      (List.replicate 4096 0, [9, 10, 11, 12, 13])] (List.replicate 4096 0) fifo_world0
    (by decide) (by decide) (fun _ _ => rfl) rfl
    (by
      intro c hc
      simp only [List.mem_cons, List.mem_singleton, List.not_mem_nil, or_false] at hc
      rcases hc with rfl | rfl | rfl <;> exact (List.length_replicate 4096 0).ge)
    (List.length_replicate 4096 0).ge (by decide)
    ⟨by decide, by decide, by decide, trivial⟩

/-- A 5-byte stream cut into pieces of 2 and 3 bytes: both calls are rejected
with `-EINVAL` and hand no word to `set_configuration`, while one call with the
whole stream hands it one word. -/
theorem C2_short_piece_counterexample :
    (hwicap_write_seq cfg_ok 4096
        [(some (List.replicate 4096 0), [1, 2]), (some (List.replicate 4096 0), [3, 4, 5])]
        fifo_world0).map (fun r => (r.1, fifo_words r.2.trace)) = some ([-22, -22], []) ∧
      (hwicap_fpga_ops_write cfg_ok 4096 false (some (List.replicate 4096 0)) [1, 2, 3, 4, 5]
        fifo_world0).map (fun r => (r.1, fifo_words r.2.trace)) = some (0, [0x04030201]) := by
  constructor <;> rfl

theorem and_eq_iff_flags_subset (a b : Nat) : b &&& a = a ↔ flags_subset a b := by
  constructor
  · intro h i hi
    have h1 : (b &&& a).testBit i = a.testBit i := by rw [h]
    rw [Nat.testBit_and, hi] at h1
    simpa using h1
  · intro h
    apply Nat.eq_of_testBit_eq
    intro i
    rw [Nat.testBit_and]
    cases ha : a.testBit i with
    | false => simp
    | true => simp [h i ha]

/-- Function `hwicap_command_desync` is one `set_configuration` call. -/
theorem hwicap_command_desync_spec (cfg : hwicap_driver_config σ) (pk : hwicap_packets)
    (w : FifoWorld σ) :
    ∃ ws, hwicap_command_desync cfg pk w = fifo_set_configuration cfg ws w ∧
      (hwicap_command_desync cfg pk w).2.trace = w.trace ++
        [FifoEvent.set_configuration ws (hwicap_command_desync cfg pk w).1] ∧
      (hwicap_command_desync cfg pk w).1 = (cfg.set_configuration w.dev ws).1 ∧
      (hwicap_command_desync cfg pk w).2.state = w.state :=
  ⟨_, rfl, rfl, rfl, rfl⟩

/-- Function `hwicap_get_configuration_register` only appends to the trace, and its status
is `0` or the status of one of its `set_configuration` / `get_configuration` calls. -/
theorem hwicap_get_configuration_register_spec (cfg : hwicap_driver_config σ)
    (pk : hwicap_packets) (reg : Nat) (w : FifoWorld σ) :
    (∃ evs, (hwicap_get_configuration_register cfg pk reg w).2.2.trace = w.trace ++ evs) ∧
      (hwicap_get_configuration_register cfg pk reg w).2.2.state = w.state ∧
      ((hwicap_get_configuration_register cfg pk reg w).1 = 0 ∨
        (∃ s ws, (hwicap_get_configuration_register cfg pk reg w).1 =
          (cfg.set_configuration s ws).1) ∨
        (∃ s n, (hwicap_get_configuration_register cfg pk reg w).1 =
          (cfg.get_configuration s n).1)) := by
  unfold hwicap_get_configuration_register
  simp only []
  by_cases h1 : (fifo_set_configuration cfg [pk.XHI_DUMMY_PACKET, pk.XHI_NOOP_PACKET,
      pk.XHI_SYNC_PACKET, pk.XHI_NOOP_PACKET, pk.XHI_NOOP_PACKET] w).1 ≠ 0
  · rw [if_pos h1]
    exact ⟨⟨_, rfl⟩, rfl, Or.inr (Or.inl ⟨_, _, rfl⟩)⟩
  · rw [if_neg h1]
    by_cases h2 : (fifo_set_configuration cfg [pk.hwicap_type_1_read reg ||| 1,
        pk.XHI_NOOP_PACKET, pk.XHI_NOOP_PACKET]
        (fifo_set_configuration cfg [pk.XHI_DUMMY_PACKET, pk.XHI_NOOP_PACKET,
          pk.XHI_SYNC_PACKET, pk.XHI_NOOP_PACKET, pk.XHI_NOOP_PACKET] w).2).1 ≠ 0
    · rw [if_pos h2]
      refine ⟨?_, rfl, Or.inr (Or.inl ⟨_, _, rfl⟩)⟩
      simp only [fifo_set_configuration, List.append_assoc]
      exact ⟨_, rfl⟩
    · rw [if_neg h2]
      by_cases h3 : (fifo_get_configuration cfg 1
          (fifo_set_configuration cfg [pk.hwicap_type_1_read reg ||| 1,
            pk.XHI_NOOP_PACKET, pk.XHI_NOOP_PACKET]
            (fifo_set_configuration cfg [pk.XHI_DUMMY_PACKET, pk.XHI_NOOP_PACKET,
              pk.XHI_SYNC_PACKET, pk.XHI_NOOP_PACKET, pk.XHI_NOOP_PACKET] w).2).2).1 ≠ 0
      · rw [if_pos h3]
        refine ⟨?_, rfl, Or.inr (Or.inr ⟨_, _, rfl⟩)⟩
        simp only [fifo_get_configuration, fifo_set_configuration, List.append_assoc]
        exact ⟨_, rfl⟩
      · rw [if_neg h3]
        refine ⟨?_, rfl, Or.inl rfl⟩
        simp only [fifo_get_configuration, fifo_set_configuration, List.append_assoc]
        exact ⟨_, rfl⟩

/-- With a supported capability mask `hwicap_fpga_ops_write_init` performs the
reset first, and returns `0` or the status of one of its handshake operations. -/
theorem hwicap_fpga_ops_write_init_supported (cfg : hwicap_driver_config σ)
    (pk : hwicap_packets) (k : FlagBits) (feature_list info_flags : Nat) (fw : FifoWorld σ)
    (h : feature_list &&& eemi_flags k info_flags = eemi_flags k info_flags) :
    (∃ evs, (hwicap_fpga_ops_write_init cfg pk k feature_list info_flags fw).2.trace =
        fw.trace ++ FifoEvent.reset :: evs) ∧
      ((hwicap_fpga_ops_write_init cfg pk k feature_list info_flags fw).1 = 0 ∨
        (∃ s ws, (hwicap_fpga_ops_write_init cfg pk k feature_list info_flags fw).1 =
          (cfg.set_configuration s ws).1) ∨
        (∃ s n, (hwicap_fpga_ops_write_init cfg pk k feature_list info_flags fw).1 =
          (cfg.get_configuration s n).1)) := by
  unfold hwicap_fpga_ops_write_init
  simp only [h, ne_eq, not_true_eq_false, if_false]
  generalize hw1 : fifo_reset cfg
    { fw with state := FPGA_MGR_STATE_WRITE_INIT, flags := info_flags } = w1
  have ht1 : w1.trace = fw.trace ++ [FifoEvent.reset] := by rw [← hw1]; rfl
  obtain ⟨ws1, -, hd1, hp1, -⟩ := hwicap_command_desync_spec cfg pk w1
  by_cases h1 : ¬ (hwicap_command_desync cfg pk w1).1 = 0
  · rw [if_pos h1]
    refine ⟨?_, Or.inr (Or.inl ⟨_, _, hp1⟩)⟩
    show ∃ evs, (hwicap_command_desync cfg pk w1).2.trace = _
    rw [hd1, ht1]
    simp only [List.append_assoc, List.singleton_append]
    exact ⟨_, rfl⟩
  · rw [if_neg h1]
    obtain ⟨⟨evs2, hg⟩, -, hgp⟩ := hwicap_get_configuration_register_spec cfg pk config_regs_IDCODE
      (hwicap_command_desync cfg pk w1).2
    by_cases h2 : ¬ (hwicap_get_configuration_register cfg pk config_regs_IDCODE
        (hwicap_command_desync cfg pk w1).2).1 = 0
    · rw [if_pos h2]
      refine ⟨?_, ?_⟩
      · show ∃ evs, (hwicap_get_configuration_register cfg pk config_regs_IDCODE _).2.2.trace = _
        rw [hg, hd1, ht1]
        simp only [List.append_assoc, List.singleton_append]
        exact ⟨_, rfl⟩
      · rcases hgp with h0 | h0 | h0
        · exact absurd h0 h2
        · exact Or.inr (Or.inl h0)
        · exact Or.inr (Or.inr h0)
    · rw [if_neg h2]
      obtain ⟨ws3, -, hd3, hp3, -⟩ := hwicap_command_desync_spec cfg pk
        (hwicap_get_configuration_register cfg pk config_regs_IDCODE
          (hwicap_command_desync cfg pk w1).2).2.2
      by_cases h3 : ¬ (hwicap_command_desync cfg pk
          (hwicap_get_configuration_register cfg pk config_regs_IDCODE
            (hwicap_command_desync cfg pk w1).2).2.2).1 = 0
      · rw [if_pos h3]
        refine ⟨?_, Or.inr (Or.inl ⟨_, _, hp3⟩)⟩
        show ∃ evs, (hwicap_command_desync cfg pk _).2.trace = _
        rw [hd3, hg, hd1, ht1]
        simp only [List.append_assoc, List.singleton_append]
        exact ⟨_, rfl⟩
      · rw [if_neg h3]
        refine ⟨?_, Or.inl rfl⟩
        show ∃ evs, (hwicap_command_desync cfg pk _).2.trace = _
        rw [hd3, hg, hd1, ht1]
        simp only [List.append_assoc, List.singleton_append]
        exact ⟨_, rfl⟩

/-- C4. `write_init` rejects unsupported flags before any hardware access.
DMA variant: `hbicap_fpga_ops_write_init` returns `-EINVAL` if and only if the
capability mask derived from the requested flags is not a subset of the
supported-feature mask, and then the device and the trace of register accesses
are untouched (no reset) and the state is the write-init-error state.
FIFO variant: `hwicap_fpga_ops_write_init` returns `-EINVAL` without any call
of `reset`, `set_configuration` or `get_configuration` if and only if the mask is
not a subset; with a supported mask it performs the reset, and whatever it then
returns is `0` or the status a handshake operation returned, so that it returns
`-EINVAL` if and only if the mask is not a subset whenever the handshake
operations themselves never return `-EINVAL`. -/
theorem C4_write_init_invalid_flags (hw : Hw σ) (cfg : hwicap_driver_config σ)
    (pk : hwicap_packets) (k : FlagBits) (feature_list info_flags : Nat)
    (w : World σ) (fw : FifoWorld σ) :
    (((hbicap_fpga_ops_write_init hw k feature_list info_flags w).1 = -EINVAL ↔
        ¬ flags_subset (eemi_flags k info_flags) feature_list) ∧
      (¬ flags_subset (eemi_flags k info_flags) feature_list →
        (hbicap_fpga_ops_write_init hw k feature_list info_flags w).2.trace = w.trace ∧
        (hbicap_fpga_ops_write_init hw k feature_list info_flags w).2.dev = w.dev ∧
        (hbicap_fpga_ops_write_init hw k feature_list info_flags w).2.state =
          FPGA_MGR_STATE_WRITE_INIT_ERR)) ∧
    ((((hwicap_fpga_ops_write_init cfg pk k feature_list info_flags fw).1 = -EINVAL ∧
          (hwicap_fpga_ops_write_init cfg pk k feature_list info_flags fw).2.trace = fw.trace) ↔
        ¬ flags_subset (eemi_flags k info_flags) feature_list) ∧
      (¬ flags_subset (eemi_flags k info_flags) feature_list →
        (hwicap_fpga_ops_write_init cfg pk k feature_list info_flags fw).1 = -EINVAL ∧
        (hwicap_fpga_ops_write_init cfg pk k feature_list info_flags fw).2.trace = fw.trace ∧
        (hwicap_fpga_ops_write_init cfg pk k feature_list info_flags fw).2.dev = fw.dev ∧
        (hwicap_fpga_ops_write_init cfg pk k feature_list info_flags fw).2.state =
          FPGA_MGR_STATE_WRITE_INIT_ERR) ∧
      (flags_subset (eemi_flags k info_flags) feature_list →
        (∃ evs, (hwicap_fpga_ops_write_init cfg pk k feature_list info_flags fw).2.trace =
          fw.trace ++ FifoEvent.reset :: evs) ∧
        ((hwicap_fpga_ops_write_init cfg pk k feature_list info_flags fw).1 = 0 ∨
          (∃ s ws, (hwicap_fpga_ops_write_init cfg pk k feature_list info_flags fw).1 =
            (cfg.set_configuration s ws).1) ∨
          (∃ s n, (hwicap_fpga_ops_write_init cfg pk k feature_list info_flags fw).1 =
            (cfg.get_configuration s n).1))) ∧
      ((∀ s ws, (cfg.set_configuration s ws).1 ≠ -EINVAL) →
        (∀ s n, (cfg.get_configuration s n).1 ≠ -EINVAL) →
        ((hwicap_fpga_ops_write_init cfg pk k feature_list info_flags fw).1 = -EINVAL ↔
          ¬ flags_subset (eemi_flags k info_flags) feature_list))) := by
  have hsub := and_eq_iff_flags_subset (eemi_flags k info_flags) feature_list
  by_cases h : feature_list &&& eemi_flags k info_flags = eemi_flags k info_flags
  · have hs : flags_subset (eemi_flags k info_flags) feature_list := hsub.mp h
    have hfifo := hwicap_fpga_ops_write_init_supported cfg pk k feature_list info_flags fw h
    refine ⟨⟨?_, fun hn => absurd hs hn⟩, ?_, fun hn => absurd hs hn, fun _ => hfifo, ?_⟩
    · simp [hbicap_fpga_ops_write_init, h, hs, EINVAL]
    · constructor
      · rintro ⟨-, htr⟩
        obtain ⟨evs, he⟩ := hfifo.1
        rw [he] at htr
        simp at htr
      · intro hn; exact absurd hs hn
    · intro h1 h2
      constructor
      · intro he
        rcases hfifo.2 with h0 | ⟨s, ws, h0⟩ | ⟨s, n, h0⟩
        · rw [h0] at he; simp [EINVAL] at he
        · rw [h0] at he; exact absurd he (h1 s ws)
        · rw [h0] at he; exact absurd he (h2 s n)
      · intro hn; exact absurd hs hn
  · have hs : ¬ flags_subset (eemi_flags k info_flags) feature_list := fun hs => h (hsub.mpr hs)
    have hd : hbicap_fpga_ops_write_init hw k feature_list info_flags w =
        (-EINVAL, { w with flags := info_flags, state := FPGA_MGR_STATE_WRITE_INIT_ERR }) := by
      simp [hbicap_fpga_ops_write_init, h]
    have hf : hwicap_fpga_ops_write_init cfg pk k feature_list info_flags fw =
        (-EINVAL, { fw with flags := info_flags, state := FPGA_MGR_STATE_WRITE_INIT_ERR }) := by
      simp [hwicap_fpga_ops_write_init, h]
    rw [hd, hf]
    refine ⟨⟨⟨fun _ => hs, fun _ => rfl⟩, fun _ => ⟨rfl, rfl, rfl⟩⟩,
      ⟨fun _ => hs, fun _ => ⟨rfl, rfl⟩⟩, fun _ => ⟨rfl, rfl, rfl, rfl⟩, fun hn => absurd hn hs,
      fun _ _ => ⟨fun _ => hs, fun _ => rfl⟩⟩

theorem C4_write_init_invalid_flags_witness :
    ¬ flags_subset (eemi_flags flag_bits0 0x4) 0x1 ∧
      (hbicap_fpga_ops_write_init hw_ready flag_bits0 0x1 0x4 world0).1 = -EINVAL ∧
      (hbicap_fpga_ops_write_init hw_ready flag_bits0 0x1 0x4 world0).2.trace = world0.trace ∧
      (hwicap_fpga_ops_write_init cfg_ok packets0 flag_bits0 0x1 0x4 fifo_world0).1 = -EINVAL ∧
      (hwicap_fpga_ops_write_init cfg_ok packets0 flag_bits0 0x1 0x4 fifo_world0).2.trace =
        fifo_world0.trace := by
  have h := C4_write_init_invalid_flags hw_ready cfg_ok packets0 flag_bits0 0x1 0x4 world0
    fifo_world0
  have hn : ¬ flags_subset (eemi_flags flag_bits0 0x4) 0x1 := fun hs =>
    absurd ((and_eq_iff_flags_subset _ _).mpr hs) (by decide)
  exact ⟨hn, h.1.1.mpr hn, (h.1.2 hn).1, (h.2.2.1 hn).1, (h.2.2.1 hn).2.1⟩

/-- After a chunk loop that was left normally, `hbicap_fpga_ops_write` only polls
the status register of the configuration port: it returns `-42` with the mutex
still held after `XHI_MAX_RETRIES + 1` reads without DONE, and the remainder
`size - written` with the mutex released as soon as a read shows DONE. -/
theorem hbicap_fpga_ops_write_after_loop (hw : Hw σ) (drvdata : hbicap_drvdata)
    (buf : List Nat) (w w2 : World σ) (written : Int)
    (hok : hbicap_write_loop hw drvdata buf (buf.length + 1) 0 buf.length
      (hbicap_write_entry hw buf w) = some (LoopExit.finished written, w2)) :
    ∃ ret wf vals, hbicap_fpga_ops_write hw drvdata false buf w = some (ret, wf) ∧
      wf.trace = w2.trace ++ vals.map (Event.rd Base.axi_lite XHI_SR_OFFSET) ∧
      wf.state = FPGA_MGR_STATE_WRITE ∧
      vals ≠ [] ∧ vals.length ≤ XHI_MAX_RETRIES + 1 ∧
      (∀ v ∈ vals.dropLast, v &&& XHI_SR_DONE_MASK = 0) ∧
      (∀ v ∈ vals, ∃ s, v = (hw.rd Base.axi_lite XHI_SR_OFFSET s).1 % 4294967296) ∧
      ((ret = -42 ∧ wf.sem = true ∧ vals.length = XHI_MAX_RETRIES + 1 ∧
          ∀ v ∈ vals, v &&& XHI_SR_DONE_MASK = 0) ∨
        (ret = 0 ∧ wf.sem = false ∧
          ∃ sr, vals.getLast? = some sr ∧ sr &&& XHI_SR_DONE_MASK ≠ 0)) := by
  obtain ⟨r1, r2, r3, -, -, -⟩ := hbicap_write_loop_finished hw drvdata buf (buf.length + 1) 0
    0 buf.length _ w2 written (by simp) (by simp) (by intro _; simp)
    (by intro h; unfold dma_chunk_count; omega) hok
  obtain ⟨t, w3, vals, he, hs, hst, -, htr, hne, hlen, hdl, htrue, hfalse, hprov⟩ :=
    hbicap_busy_wait_spec hw (XHI_MAX_RETRIES + 1) 0 w2 (Nat.zero_le _) (by omega)
  have hentry : axi_hbicap_set_size_register hw (to_u32 ((buf.length >>> 2 : Nat) : Int))
      { w with state := FPGA_MGR_STATE_WRITE, sem := true } = hbicap_write_entry hw buf w := rfl
  have hsem : w2.sem = true := by rw [r2]; rfl
  have hstate : w2.state = FPGA_MGR_STATE_WRITE := by rw [r3]; rfl
  unfold hbicap_fpga_ops_write
  simp only [mutex_lock_interruptible, Bool.false_eq_true, if_false, ne_eq, not_true_eq_false]
  rw [hentry, hok]
  simp only [he]
  cases t with
  | true =>
    obtain ⟨h1, h2⟩ := htrue rfl
    refine ⟨_, _, vals, rfl, htr, by rw [hst, hstate], hne, by omega, hdl, hprov,
      Or.inl ⟨rfl, by rw [hs, hsem], by omega, h2⟩⟩
  | false =>
    refine ⟨_, _, vals, rfl, htr, by show w3.state = _; rw [hst, hstate], hne, by omega, hdl,
      hprov, Or.inr ⟨?_, rfl, hfalse rfl⟩⟩
    rw [r1]; simp [to_int]

theorem hw_never_done_busy (s : Unit) :
    (hw_never_done.rd Base.axi_lite XHI_SR_OFFSET s).1 % 4294967296 &&& XHI_SR_DONE_MASK = 0 := by
  show 0x1002 % 4294967296 &&& 1 = 0
  decide

/-- The code `-42` of the busy-poll timeout is a literal of its own: with a
configuration port that never shows DONE, a write of 5 bytes returns `-42`, not
the value `-3` of the engine's `XACDMA_WRITE_TIMEOUT`. -/
theorem hbicap_busy_timeout_code_is_a_literal :
    (∃ wf, hbicap_fpga_ops_write hw_never_done drvdata0 false [1, 2, 3, 4, 5] world0 =
        some (-42, wf)) ∧
      ¬ (∃ wf, hbicap_fpga_ops_write hw_never_done drvdata0 false [1, 2, 3, 4, 5] world0 =
        some (XACDMA_WRITE_TIMEOUT, wf)) := by
  obtain ⟨ret, wf, vals, hrun, -, -, -, -, -, hprov, hcase⟩ :=
    hbicap_fpga_ops_write_after_loop hw_never_done drvdata0 [1, 2, 3, 4, 5] world0 _ _ rfl
  have hret : ret = -42 := by
    rcases hcase with ⟨h1, -⟩ | ⟨-, -, sr, h2, h3⟩
    · exact h1
    · obtain ⟨s, hs⟩ := hprov sr (List.mem_of_getLast?_eq_some h2)
      rw [hs] at h3
      exact absurd (hw_never_done_busy s) h3
  subst hret
  refine ⟨⟨wf, hrun⟩, ?_⟩
  rintro ⟨wf', h'⟩
  rw [hrun] at h'
  simp only [Option.some.injEq, Prod.mk.injEq] at h'
  exact absurd h'.1 (by decide)

/-- Function `axi_cdma_write` only accesses registers of the transfer engine, and its
status is `0` or one of the three error codes. -/
theorem axi_cdma_write_frame (hw : Hw σ) (a b a' b' n : Nat) (w w' : World σ) (st : Int)
    (h : axi_cdma_write hw a b a' b' n w = some (st, w')) :
    w'.sem = w.sem ∧ w'.state = w.state ∧ w'.flags = w.flags ∧
      (∃ evs, w'.trace = w.trace ++ evs ∧ ∀ e ∈ evs, e.on_cdma = true) ∧
      (st = 0 ∨ st = XACDMA_NOT_IDLE ∨ st = XACDMA_WRITE_ERROR ∨ st = XACDMA_WRITE_TIMEOUT) := by
  obtain ⟨st2, w2, he, hs, hst, hf, hcase⟩ := axi_cdma_write_spec hw a b a' b' n w
  rw [h] at he
  simp only [Option.some.injEq, Prod.mk.injEq] at he
  obtain ⟨rfl, rfl⟩ := he
  refine ⟨hs, hst, hf, ?_⟩
  have hmap : ∀ (vals : List Nat), ∀ e ∈ vals.map (Event.rd Base.cdma XAXICDMA_SR_OFFSET),
      e.on_cdma = true := by
    intro vals e he
    obtain ⟨v, -, rfl⟩ := List.mem_map.mp he
    rfl
  have hprog : ∀ v c, ∀ e ∈ cdma_program_events v c a b a' b' n, e.on_cdma = true := by
    intro v c e he
    simp only [cdma_program_events, List.mem_cons, List.mem_singleton, List.not_mem_nil,
      or_false] at he
    rcases he with rfl | rfl | rfl | rfl | rfl | rfl | rfl | rfl <;> rfl
  rcases hcase with ⟨_, h0, hwd⟩ | ⟨_, c, vals, _, _, _, hc⟩
  · refine ⟨⟨[Event.rd Base.cdma XAXICDMA_SR_OFFSET
      (ioread32le hw Base.cdma XAXICDMA_SR_OFFSET w).1], ?_, ?_⟩, Or.inr (Or.inl h0)⟩
    · rw [hwd]; rfl
    · intro e he
      simp only [List.mem_singleton] at he
      rw [he]; rfl
  · rcases hc with ⟨h0, _, htr⟩ | ⟨sr, _, _, _, htr, hst0⟩
    · refine ⟨⟨_, by rw [htr, List.append_assoc], ?_⟩, Or.inr (Or.inr (Or.inr h0))⟩
      intro e he
      rcases List.mem_append.mp he with h1 | h1
      · exact hprog _ _ e h1
      · exact hmap vals e h1
    · refine ⟨⟨_, by rw [htr, List.append_assoc, List.append_assoc], ?_⟩, ?_⟩
      · intro e he
        rcases List.mem_append.mp he with h1 | h1
        · exact hprog _ _ e h1
        · rcases List.mem_append.mp h1 with h2 | h2
          · exact hmap vals e h2
          · simp only [List.mem_singleton] at h2
            rw [h2]; rfl
      · by_cases herr : sr &&& XAXICDMA_ERR_IRQ ≠ 0
        · rw [if_pos herr] at hst0; exact Or.inr (Or.inr (Or.inl hst0))
        · rw [if_neg herr] at hst0; exact Or.inl hst0

/-- After `k` successful chunks the loop continues at offset `4096 * k`. -/
theorem hbicap_write_loop_unroll (hw : Hw σ) (drvdata : hbicap_drvdata) (buf : List Nat)
    (w0 : World σ) :
    ∀ (k : Nat) (wk : World σ), 4096 * k ≤ buf.length →
      hbicap_chunks_done hw drvdata buf k w0 = some wk →
      (∀ n, hbicap_write_loop hw drvdata buf (n + k) 0 buf.length w0 =
        hbicap_write_loop hw drvdata buf n ((4096 * k : Nat) : Int)
          ((buf.length : Int) - ((4096 * k : Nat) : Int)) wk) ∧
      wk.sem = w0.sem ∧ wk.state = w0.state ∧ wk.flags = w0.flags ∧
      staged wk.trace = staged w0.trace ++ (List.range k).map (dma_chunk buf) := by
  intro k
  induction k with
  | zero =>
    intro wk _ h
    simp only [hbicap_chunks_done, Option.some.injEq] at h
    subst h
    refine ⟨?_, rfl, rfl, rfl, by simp⟩
    intro n
    simp
  | succ k ih =>
    intro w' hk h
    simp only [hbicap_chunks_done] at h
    cases hd : hbicap_chunks_done hw drvdata buf k w0 with
    | none => rw [hd] at h; simp at h
    | some wk =>
      rw [hd] at h
      simp only [] at h
      cases hc : hbicap_write_chunk hw drvdata buf ((4096 * k : Nat) : Int)
          ((buf.length : Int) - ((4096 * k : Nat) : Int)) wk with
      | none => rw [hc] at h; simp at h
      | some r =>
        obtain ⟨st, w2⟩ := r
        rw [hc] at h
        simp only [] at h
        by_cases hst : st = 0
        · rw [if_pos hst] at h
          simp only [Option.some.injEq] at h
          subst h
          subst hst
          obtain ⟨hloop, hs, hstate, hf, hsg⟩ := ih wk (by omega) hd
          have hleft : ¬ ((buf.length : Int) - ((4096 * k : Nat) : Int) < 4096) := by omega
          have hc' := hc
          unfold hbicap_write_chunk at hc'
          simp only [if_neg hleft] at hc'
          obtain ⟨f1, f2, f3, f4, -⟩ := axi_cdma_write_ok hw _ _ _ _ _ _ _ hc'
          refine ⟨?_, by rw [f1, ← hs], by rw [f2, ← hstate], by rw [f3, ← hf], ?_⟩
          · intro n
            have e : n + (k + 1) = (n + 1) + k := by omega
            rw [e, hloop (n + 1), hbicap_write_loop]
            have hpos : (buf.length : Int) - ((4096 * k : Nat) : Int) > 0 := by omega
            simp only [if_pos hpos, hc, if_neg hleft, ne_eq, not_true_eq_false, if_false]
            congr 1 <;> omega
          · have hmin : min 4096 (buf.length - 4096 * k) = 4096 := by omega
            have hdata : buf_read buf ((4096 * k : Nat) : Int) 4096 =
                (buf.drop (4096 * k)).take 4096 := by
              show List.take (4096 : Int).toNat (List.drop ((4096 * k : Nat) : Int).toNat buf) = _
              rw [Int.toNat_ofNat]
              rfl
            rw [hdata] at f4
            rw [f4, staged_append, hsg, List.range_succ, List.map_append, List.append_assoc]
            congr 1
            simp [staged, dma_chunk, hmin]
        · rw [if_neg hst] at h
          simp at h

/-- When the chunks `0 .. k-1` succeeded and the transfer of chunk `k` fails with
status `st`, the chunk loop is left at once with `written = 4096 * k`, and
`hbicap_fpga_ops_write` releases the mutex and returns `st`. -/
theorem hbicap_write_fails_at_chunk (hw : Hw σ) (drvdata : hbicap_drvdata) (buf : List Nat)
    (w wk w' : World σ) (k : Nat) (st : Int) (hk : 4096 * k < buf.length)
    (hdone : hbicap_chunks_done hw drvdata buf k (hbicap_write_entry hw buf w) = some wk)
    (hfail : hbicap_write_chunk hw drvdata buf ((4096 * k : Nat) : Int)
      ((buf.length : Int) - ((4096 * k : Nat) : Int)) wk = some (st, w'))
    (hst : st ≠ 0) :
    hbicap_write_loop hw drvdata buf (buf.length + 1) 0 buf.length (hbicap_write_entry hw buf w) =
        some (LoopExit.error st ((4096 * k : Nat) : Int), w') ∧
      hbicap_fpga_ops_write hw drvdata false buf w = some (st, { w' with sem := false }) ∧
      (st = XACDMA_NOT_IDLE ∨ st = XACDMA_WRITE_ERROR ∨ st = XACDMA_WRITE_TIMEOUT) ∧
      staged w'.trace = staged w.trace ++ (List.range (k + 1)).map (dma_chunk buf) ∧
      (∃ evs, w'.trace = wk.trace ++ Event.stage ((4096 * k : Nat) : Int)
          ((min 4096 (buf.length - 4096 * k) : Nat) : Int) ((buf.drop (4096 * k)).take 4096) ::
          evs ∧ ∀ e ∈ evs, e.on_cdma = true) ∧
      w'.state = FPGA_MGR_STATE_WRITE := by
  obtain ⟨hloop, hs, hstate, -, hsg⟩ :=
    hbicap_write_loop_unroll hw drvdata buf (hbicap_write_entry hw buf w) k wk (by omega) hdone
  have hl : hbicap_write_loop hw drvdata buf (buf.length + 1) 0 buf.length
      (hbicap_write_entry hw buf w) = some (LoopExit.error st ((4096 * k : Nat) : Int), w') := by
    have e : buf.length + 1 = (buf.length - k) + 1 + k := by omega
    rw [e, hloop, hbicap_write_loop]
    have hpos : (buf.length : Int) - ((4096 * k : Nat) : Int) > 0 := by omega
    simp only [if_pos hpos, hfail, if_pos hst]
  have hlen : (if (buf.length : Int) - ((4096 * k : Nat) : Int) < 4096
      then (buf.length : Int) - ((4096 * k : Nat) : Int) else 4096) =
      ((min 4096 (buf.length - 4096 * k) : Nat) : Int) := by
    by_cases h4 : (buf.length : Int) - ((4096 * k : Nat) : Int) < 4096
    · rw [if_pos h4]; omega
    · rw [if_neg h4]; omega
  have hdata : buf_read buf ((4096 * k : Nat) : Int)
      ((min 4096 (buf.length - 4096 * k) : Nat) : Int) = (buf.drop (4096 * k)).take 4096 := by
    unfold buf_read
    simp only [Int.toNat_ofNat]
    by_cases hm : buf.length - 4096 * k ≤ 4096
    · rw [Nat.min_eq_right hm, List.take_of_length_le (by simp),
        List.take_of_length_le (by simp; omega)]
    · rw [Nat.min_eq_left (by omega)]
  have hfail' := hfail
  unfold hbicap_write_chunk at hfail'
  simp only [] at hfail'
  rw [hlen, hdata] at hfail'
  obtain ⟨f1, f2, -, ⟨evs, f4, f5⟩, f6⟩ := axi_cdma_write_frame hw _ _ _ _ _ _ _ _ hfail'
  have hst3 : st = XACDMA_NOT_IDLE ∨ st = XACDMA_WRITE_ERROR ∨ st = XACDMA_WRITE_TIMEOUT := by
    rcases f6 with h | h
    · exact absurd h hst
    · exact h
  have hentry : axi_hbicap_set_size_register hw (to_u32 ((buf.length >>> 2 : Nat) : Int))
      { w with state := FPGA_MGR_STATE_WRITE, sem := true } = hbicap_write_entry hw buf w := rfl
  refine ⟨hl, ?_, hst3, ?_, ⟨evs, by rw [f4]; simp, f5⟩, ?_⟩
  · unfold hbicap_fpga_ops_write
    simp only [mutex_lock_interruptible, Bool.false_eq_true, if_false, ne_eq, not_true_eq_false]
    rw [hentry, hl]
    have hti : to_int st = st := by
      rcases hst3 with h | h | h <;> rw [h] <;> decide
    simp only [hti, mutex_unlock]
  · have e1 : staged [Event.stage ((4096 * k : Nat) : Int)
        ((min 4096 (buf.length - 4096 * k) : Nat) : Int) ((buf.drop (4096 * k)).take 4096)] =
        [dma_chunk buf k] := rfl
    rw [f4]
    simp only [staged_append, staged_of_on_cdma evs f5, List.append_nil, e1, hsg,
      (staged_hbicap_write_entry hw buf w).1, List.range_succ, List.map_append,
      List.append_assoc, List.map_cons, List.map_nil]
  · rw [f2]
    show wk.state = _
    rw [hstate]; rfl

/-- C7. DMA variant: if the chunks `0 .. k-1` were transferred successfully and
the engine transfer of chunk `k` fails with status `st` (`XACDMA_NOT_IDLE`,
`XACDMA_WRITE_ERROR` or `XACDMA_WRITE_TIMEOUT`), then the chunk loop is left with
`written = 4096 * k` (not advanced past chunk `k-1`), `hbicap_fpga_ops_write`
returns exactly `st`, and the world it returns is the one `axi_cdma_write` of
chunk `k` left behind, with the mutex released: no register is accessed and no
chunk is staged after the failed transfer, so only the chunks `0 .. k` were ever
staged. -/
theorem C7_dma_abort_on_transfer_failure (hw : Hw σ) (drvdata : hbicap_drvdata)
    (buf : List Nat) (w wk w' : World σ) (k : Nat) (st : Int) (hk : 4096 * k < buf.length)
    (hdone : hbicap_chunks_done hw drvdata buf k (hbicap_write_entry hw buf w) = some wk)
    (hfail : hbicap_write_chunk hw drvdata buf ((4096 * k : Nat) : Int)
      ((buf.length : Int) - ((4096 * k : Nat) : Int)) wk = some (st, w'))
    (hst : st ≠ 0) :
    hbicap_write_loop hw drvdata buf (buf.length + 1) 0 buf.length (hbicap_write_entry hw buf w) =
        some (LoopExit.error st ((4096 * k : Nat) : Int), w') ∧
      hbicap_fpga_ops_write hw drvdata false buf w = some (st, { w' with sem := false }) ∧
      (st = XACDMA_NOT_IDLE ∨ st = XACDMA_WRITE_ERROR ∨ st = XACDMA_WRITE_TIMEOUT) ∧
      staged w'.trace = staged w.trace ++ (List.range (k + 1)).map (dma_chunk buf) := by
  obtain ⟨h1, h2, h3, h4, -, -⟩ :=
    hbicap_write_fails_at_chunk hw drvdata buf w wk w' k st hk hdone hfail hst
  exact ⟨h1, h2, h3, h4⟩

/-- C6. DMA variant: when the engine status register read by the idle check has
the idle bit (0x2) clear, `axi_cdma_write` returns `XACDMA_NOT_IDLE = -1` and all
it did is that one status read (no register write); and when this happens at the
start of chunk `k` of a request, after the chunks `0 .. k-1` succeeded,
`hbicap_fpga_ops_write` returns `-1`, having done nothing for chunk `k` but the
staging copy and that status read. -/
theorem C6_dma_not_idle (hw : Hw σ) (drvdata : hbicap_drvdata) (buf : List Nat)
    (a b a' b' n k : Nat) (w1 w wk : World σ) :
    ((hw.rd Base.cdma XAXICDMA_SR_OFFSET w1.dev).1 % 4294967296 &&& XAXICDMA_IDLE = 0 →
      axi_cdma_write hw a b a' b' n w1 = some (XACDMA_NOT_IDLE,
        { w1 with
          dev := (hw.rd Base.cdma XAXICDMA_SR_OFFSET w1.dev).2
          trace := w1.trace ++ [Event.rd Base.cdma XAXICDMA_SR_OFFSET
            ((hw.rd Base.cdma XAXICDMA_SR_OFFSET w1.dev).1 % 4294967296)] }) ∧
      XACDMA_NOT_IDLE = -1) ∧
    (4096 * k < buf.length →
      hbicap_chunks_done hw drvdata buf k (hbicap_write_entry hw buf w) = some wk →
      (hw.rd Base.cdma XAXICDMA_SR_OFFSET wk.dev).1 % 4294967296 &&& XAXICDMA_IDLE = 0 →
      ∃ wf, hbicap_fpga_ops_write hw drvdata false buf w = some (-1, wf) ∧
        wf.sem = false ∧
        wf.trace = wk.trace ++
          [Event.stage ((4096 * k : Nat) : Int) ((min 4096 (buf.length - 4096 * k) : Nat) : Int)
            ((buf.drop (4096 * k)).take 4096),
           Event.rd Base.cdma XAXICDMA_SR_OFFSET
            ((hw.rd Base.cdma XAXICDMA_SR_OFFSET wk.dev).1 % 4294967296)]) := by
  have hA : ∀ (a b a' b' n : Nat) (w1 : World σ),
      (hw.rd Base.cdma XAXICDMA_SR_OFFSET w1.dev).1 % 4294967296 &&& XAXICDMA_IDLE = 0 →
      axi_cdma_write hw a b a' b' n w1 = some (XACDMA_NOT_IDLE,
        { w1 with
          dev := (hw.rd Base.cdma XAXICDMA_SR_OFFSET w1.dev).2
          trace := w1.trace ++ [Event.rd Base.cdma XAXICDMA_SR_OFFSET
            ((hw.rd Base.cdma XAXICDMA_SR_OFFSET w1.dev).1 % 4294967296)] }) := by
    intro a b a' b' n w1 hidle
    unfold axi_cdma_write axi_cdma_check_IDLE
    have hi : (ioread32le hw Base.cdma XAXICDMA_SR_OFFSET w1).1 &&& XAXICDMA_IDLE = 0 := hidle
    simp only [hi, ne_eq, not_true_eq_false, if_false, if_true]
    rfl
  refine ⟨fun hidle => ⟨hA a b a' b' n w1 hidle, rfl⟩, ?_⟩
  intro hk hdone hidle
  have hlen : (if (buf.length : Int) - ((4096 * k : Nat) : Int) < 4096
      then (buf.length : Int) - ((4096 * k : Nat) : Int) else 4096) =
      ((min 4096 (buf.length - 4096 * k) : Nat) : Int) := by
    by_cases h4 : (buf.length : Int) - ((4096 * k : Nat) : Int) < 4096
    · rw [if_pos h4]; omega
    · rw [if_neg h4]; omega
  have hdata : buf_read buf ((4096 * k : Nat) : Int)
      ((min 4096 (buf.length - 4096 * k) : Nat) : Int) = (buf.drop (4096 * k)).take 4096 := by
    unfold buf_read
    simp only [Int.toNat_ofNat]
    by_cases hm : buf.length - 4096 * k ≤ 4096
    · rw [Nat.min_eq_right hm, List.take_of_length_le (by simp),
        List.take_of_length_le (by simp; omega)]
    · rw [Nat.min_eq_left (by omega)]
  have hfail : hbicap_write_chunk hw drvdata buf ((4096 * k : Nat) : Int)
      ((buf.length : Int) - ((4096 * k : Nat) : Int)) wk = some (XACDMA_NOT_IDLE,
        { wk with
          dev := (hw.rd Base.cdma XAXICDMA_SR_OFFSET wk.dev).2
          trace := wk.trace ++ [Event.stage ((4096 * k : Nat) : Int)
              ((min 4096 (buf.length - 4096 * k) : Nat) : Int) ((buf.drop (4096 * k)).take 4096),
            Event.rd Base.cdma XAXICDMA_SR_OFFSET
              ((hw.rd Base.cdma XAXICDMA_SR_OFFSET wk.dev).1 % 4294967296)] }) := by
    unfold hbicap_write_chunk
    simp only []
    rw [hlen, hdata]
    rw [hA _ _ _ _ _ { wk with trace := wk.trace ++ [Event.stage ((4096 * k : Nat) : Int)
      ((min 4096 (buf.length - 4096 * k) : Nat) : Int) ((buf.drop (4096 * k)).take 4096)] } hidle]
    simp
  obtain ⟨-, h2, -⟩ := hbicap_write_fails_at_chunk hw drvdata buf w wk _ k XACDMA_NOT_IDLE hk hdone
    hfail (by decide)
  exact ⟨_, h2, rfl, rfl⟩

theorem C6_dma_not_idle_witness :
    axi_cdma_write hw_not_idle 0 0x70000000 0 0xA0000000 5 world0 =
        some (-1, { world0 with trace := [Event.rd Base.cdma 0x04 0] }) ∧
      ∃ wf, hbicap_fpga_ops_write hw_not_idle drvdata0 false [1, 2, 3, 4, 5] world0 =
          some (-1, wf) ∧
        wf.sem = false ∧
        wf.trace = [Event.wr Base.axi_lite 0x108 1, Event.stage 0 5 [1, 2, 3, 4, 5],
          Event.rd Base.cdma 0x04 0] := by
  have h := C6_dma_not_idle hw_not_idle drvdata0 [1, 2, 3, 4, 5] 0 0x70000000 0 0xA0000000 5 0
    world0 world0 (hbicap_write_entry hw_not_idle [1, 2, 3, 4, 5] world0)
  exact ⟨(h.1 (by decide)).1, h.2 (by decide) rfl (by decide)⟩

theorem C7_dma_abort_on_transfer_failure_witness :
    ∃ w' : World Unit, hbicap_fpga_ops_write hw_error drvdata0 false [1, 2, 3, 4, 5] world0 =
        some (XACDMA_WRITE_ERROR, { w' with sem := false }) ∧
      w'.trace = [Event.wr Base.axi_lite 0x108 1, Event.stage 0 5 [1, 2, 3, 4, 5],
        Event.rd Base.cdma 0x04 0x5002, Event.rd Base.cdma 0x00 0x5002,
        Event.wr Base.cdma 0x00 0x5002, Event.wr Base.cdma 0x1C 0,
        Event.wr Base.cdma 0x18 0x70000000, Event.wr Base.cdma 0x24 0,
        Event.wr Base.cdma 0x20 0xA0000000, Event.wr Base.cdma 0x28 5,
        Event.rd Base.cdma 0x04 0x5002, Event.wr Base.cdma 0x04 0x1000] ∧
      staged w'.trace = [(0, 5, [1, 2, 3, 4, 5])] := by
  obtain ⟨-, h2, -, h4⟩ := C7_dma_abort_on_transfer_failure hw_error drvdata0
    [1, 2, 3, 4, 5] world0 (hbicap_write_entry hw_error [1, 2, 3, 4, 5] world0) _ 0
    XACDMA_WRITE_ERROR (by decide) rfl rfl (by decide)
  exact ⟨_, h2, rfl, h4⟩

/-- C8 (amended). FIFO variant: in a call of `hwicap_fpga_ops_write` that reaches
the chunk loop, when `set_configuration` fails on a chunk with a nonzero status
`e`, the call aborts the chunk loop: that call is the last event of the trace
(no further `set_configuration` call, no further copy) and every earlier
`set_configuration` call returned 0; the state becomes the write-error state and
the call returns `-EFAULT`, whatever `e` is. -/
theorem C8_fifo_set_configuration_failure (cfg : hwicap_driver_config σ) (PAGE_SIZE : Nat)
    (buf kbuf : List Nat) (w : FifoWorld σ) (hP : 4 ≤ PAGE_SIZE)
    (h4 : 4 ≤ w.write_buffer_in_use + buf.length) :
    ∃ ret wf evs, hwicap_fpga_ops_write cfg PAGE_SIZE false (some kbuf) buf w = some (ret, wf) ∧
      wf.trace = w.trace ++ evs ∧
      ∀ ws e, FifoEvent.set_configuration ws e ∈ evs → e ≠ 0 →
        ret = -EFAULT ∧ wf.state = FPGA_MGR_STATE_WRITE_ERR ∧
        ∃ evs0, evs = evs0 ++ [FifoEvent.set_configuration ws e] ∧
          ∀ ws' st', FifoEvent.set_configuration ws' st' ∈ evs0 → st' = 0 := by
  unfold hwicap_fpga_ops_write
  simp only [mutex_lock_interruptible, Bool.false_eq_true, if_false, ne_eq, not_true_eq_false]
  have hnot : ¬ ((buf.length : Int) + (w.write_buffer_in_use : Int) < 4) := by omega
  simp only [if_neg hnot]
  obtain ⟨ex, w', evs, he, htr, -, -, -, herr, hfin⟩ :=
    hwicap_write_loop_total cfg PAGE_SIZE buf hP
      (((buf.length : Int) + (w.write_buffer_in_use : Int)).toNat + 1) 0
      ((buf.length : Int) + (w.write_buffer_in_use : Int)) kbuf
      { w with state := FPGA_MGR_STATE_WRITE, sem := true } (Nat.lt_succ_self _)
  rw [he]
  cases ex with
  | error st =>
    obtain ⟨h1, h2, evs0, ws0, h3, h5⟩ := herr st rfl
    refine ⟨_, _, evs, rfl, htr, ?_⟩
    intro ws e hmem hne
    rw [h3] at hmem
    rcases List.mem_append.mp hmem with hm | hm
    · exact absurd (h5 ws e hm) hne
    · simp only [List.mem_singleton, FifoEvent.set_configuration.injEq] at hm
      obtain ⟨rfl, rfl⟩ := hm
      exact ⟨by decide, h2, evs0, h3, h5⟩
  | finished wr l =>
    obtain ⟨-, hall⟩ := hfin wr l rfl
    by_cases hif : l > 0 ∧ l < 4
    · simp only [if_pos hif]
      refine ⟨_, _, evs ++ [FifoEvent.memcpy_carry_buf wr l], rfl, by simp [htr], ?_⟩
      intro ws e hmem hne
      rcases List.mem_append.mp hmem with hm | hm
      · exact absurd (hall ws e hm) hne
      · simp at hm
    · simp only [if_neg hif]
      refine ⟨_, _, evs, rfl, htr, ?_⟩
      intro ws e hmem hne
      exact absurd (hall ws e hmem) hne

theorem C8_fifo_set_configuration_failure_witness :
    ∃ wf, hwicap_fpga_ops_write cfg_eio 4096 false (some (List.replicate 4096 0))
        [1, 2, 3, 4, 5, 6, 7, 8, 9] fifo_world0 = some (-EFAULT, wf) ∧
      wf.state = FPGA_MGR_STATE_WRITE_ERR ∧
      wf.trace = [FifoEvent.memcpy_kbuf_buf 0 0 8,
        FifoEvent.set_configuration [0x04030201, 0x08070605] (-5)] := by
  obtain ⟨ret, wf, evs, hrun, htr, himp⟩ := C8_fifo_set_configuration_failure cfg_eio 4096
    [1, 2, 3, 4, 5, 6, 7, 8, 9] (List.replicate 4096 0) fifo_world0 (by decide) (by decide)
  have e1 : hwicap_fpga_ops_write cfg_eio 4096 false (some (List.replicate 4096 0))
      [1, 2, 3, 4, 5, 6, 7, 8, 9] fifo_world0 = some (-EFAULT, { fifo_world0 with
        state := FPGA_MGR_STATE_WRITE_ERR
        trace := [FifoEvent.memcpy_kbuf_buf 0 0 8,
          FifoEvent.set_configuration [0x04030201, 0x08070605] (-5)] }) := rfl
  rw [e1] at hrun
  simp only [Option.some.injEq, Prod.mk.injEq] at hrun
  obtain ⟨rfl, rfl⟩ := hrun
  have hevs : evs = [FifoEvent.memcpy_kbuf_buf 0 0 8,
      FifoEvent.set_configuration [0x04030201, 0x08070605] (-5)] := by
    have h0 : fifo_world0.trace = [] := rfl
    rw [h0, List.nil_append] at htr
    exact htr.symm
  obtain ⟨-, h2, -⟩ := himp [0x04030201, 0x08070605] (-5) (by rw [hevs]; simp) (by decide)
  exact ⟨_, e1, h2, rfl⟩

/-- A `set_configuration` that fails with `-5` makes `hwicap_fpga_ops_write`
return `-EFAULT = -14`, not the `-5` the transfer reported. -/
theorem C8_underlying_error_counterexample :
    (hwicap_fpga_ops_write cfg_eio 4096 false (some (List.replicate 4096 0)) [1, 2, 3, 4, 5]
        fifo_world0).map (fun r => (r.1, r.2.trace)) =
      some (-14, [FifoEvent.memcpy_kbuf_buf 0 0 4, FifoEvent.set_configuration [0x04030201] (-5)]) :=
  rfl

/-- C9 (failing input). DMA variant: with a configuration port that never shows
DONE, `hbicap_fpga_ops_write` acquires the mutex, transfers the 5 bytes, times
out in the final busy poll and returns `-42` with the mutex still held. -/
theorem C9_dma_timeout_leaves_mutex_held :
    ∃ wf : World Unit,
      hbicap_fpga_ops_write hw_never_done drvdata0 false [1, 2, 3, 4, 5] world0 = some (-42, wf) ∧
      world0.sem = false ∧ wf.sem = true := by
  obtain ⟨ret, wf, vals, hrun, -, -, -, -, -, hprov, hcase⟩ :=
    hbicap_fpga_ops_write_after_loop hw_never_done drvdata0 [1, 2, 3, 4, 5] world0 _ _ rfl
  rcases hcase with ⟨h1, h2, -⟩ | ⟨-, -, sr, h2, h3⟩
  · subst h1
    exact ⟨wf, hrun, rfl, h2⟩
  · obtain ⟨s, hs⟩ := hprov sr (List.mem_of_getLast?_eq_some h2)
    rw [hs] at h3
    exact absurd (hw_never_done_busy s) h3

/-- C10. In both variants, when `mutex_lock_interruptible` reports that the wait
was interrupted, `write` returns that error, `-EINTR`, and has touched neither
the device nor any buffer: the device state and the trace (register accesses,
staging copies, `set_configuration` calls, copies into the scratch page or the
carry buffer) are unchanged, and so are the carry buffer and its length. -/
theorem C10_lock_interrupted (hw : Hw σ) (drvdata : hbicap_drvdata)
    (cfg : hwicap_driver_config σ) (PAGE_SIZE : Nat) (page : Option (List Nat))
    (buf : List Nat) (w : World σ) (fw : FifoWorld σ) :
    (∃ wf, hbicap_fpga_ops_write hw drvdata true buf w = some (-EINTR, wf) ∧
      wf.dev = w.dev ∧ wf.trace = w.trace ∧ wf.state = FPGA_MGR_STATE_WRITE_ERR) ∧
    (∃ wf, hwicap_fpga_ops_write cfg PAGE_SIZE true page buf fw = some (-EINTR, wf) ∧
      wf.dev = fw.dev ∧ wf.trace = fw.trace ∧ wf.write_buffer = fw.write_buffer ∧
      wf.write_buffer_in_use = fw.write_buffer_in_use ∧
      wf.state = FPGA_MGR_STATE_WRITE_ERR) ∧
    -EINTR = -4 := by
  refine ⟨⟨{ w with state := FPGA_MGR_STATE_WRITE_ERR, sem := mutex_unlock w.sem }, ?_, rfl, rfl,
    rfl⟩, ⟨{ fw with state := FPGA_MGR_STATE_WRITE_ERR, sem := mutex_unlock fw.sem }, ?_, rfl,
    rfl, rfl, rfl, rfl⟩, rfl⟩
  · unfold hbicap_fpga_ops_write
    simp [mutex_lock_interruptible, EINTR, to_int]
  · unfold hwicap_fpga_ops_write
    simp [mutex_lock_interruptible, EINTR, to_int]

/-- C11 (amended). DMA variant: a request of `L = 0` bytes that acquires the
mutex always returns.  It copies nothing into the staging buffer and accesses
no register of the transfer engine, but it does write the configuration port:
its one register write is the value `0` to the size register (0x108), made
before the chunk loop is skipped.  It then only reads the status register of
the configuration port, and returns success (`0` bytes remaining, mutex
released) as soon as a read shows DONE, and `-42` when `XHI_MAX_RETRIES + 1`
reads in a row do not. -/
theorem C11_dma_empty_request (hw : Hw σ) (drvdata : hbicap_drvdata) (w : World σ) :
    ∃ ret wf vals, hbicap_fpga_ops_write hw drvdata false [] w = some (ret, wf) ∧
      wf.trace = w.trace ++ Event.wr Base.axi_lite XHI_SZ_OFFSET 0 ::
        vals.map (Event.rd Base.axi_lite XHI_SR_OFFSET) ∧
      vals ≠ [] ∧ vals.length ≤ XHI_MAX_RETRIES + 1 ∧
      (∀ v ∈ vals.dropLast, v &&& XHI_SR_DONE_MASK = 0) ∧
      ((ret = 0 ∧ wf.sem = false ∧
          ∃ sr, vals.getLast? = some sr ∧ sr &&& XHI_SR_DONE_MASK ≠ 0) ∨
        (ret = -42 ∧ wf.sem = true ∧ vals.length = XHI_MAX_RETRIES + 1 ∧
          ∀ v ∈ vals, v &&& XHI_SR_DONE_MASK = 0)) := by
  have hok : hbicap_write_loop hw drvdata [] (([] : List Nat).length + 1) 0
      (([] : List Nat).length : Int) (hbicap_write_entry hw [] w) =
      some (LoopExit.finished 0, hbicap_write_entry hw [] w) := rfl
  obtain ⟨ret, wf, vals, hrun, htr, -, hne, hlen, hdl, -, hcase⟩ :=
    hbicap_fpga_ops_write_after_loop hw drvdata [] w _ 0 hok
  have hentry : (hbicap_write_entry hw [] w).trace =
      w.trace ++ [Event.wr Base.axi_lite XHI_SZ_OFFSET 0] := rfl
  refine ⟨ret, wf, vals, hrun, ?_, hne, hlen, hdl, ?_⟩
  · rw [htr, hentry, List.append_assoc, List.singleton_append]
  · rcases hcase with h | h
    · exact Or.inr h
    · exact Or.inl h

/-- C11 (counterexample). On a device that is ready at once, a write of 0 bytes
returns 0 and has written the size register of the configuration port: the
trace of the call is that register write followed by one status read. -/
theorem C11_empty_request_counterexample :
    (hbicap_fpga_ops_write hw_ready drvdata0 false [] world0).map (fun r => (r.1, r.2.trace)) =
      some (0, [Event.wr Base.axi_lite 0x108 0, Event.rd Base.axi_lite 0x110 0x1003]) :=
  rfl

/-- C12. FIFO variant: a call of `hwicap_fpga_ops_write` that acquires the mutex,
entered with at most 3 carried bytes, returns `-EINVAL` if and only if the
carried bytes and the `L` new bytes together are fewer than 4.  In that case
nothing is handed to the device (no `set_configuration` call, no copy: device
state and trace are unchanged), the carry buffer and its length are left as
they were, the state becomes the write-error state and the mutex is released. -/
theorem C12_fifo_short_input_rejected (cfg : hwicap_driver_config σ) (PAGE_SIZE : Nat)
    (page : Option (List Nat)) (buf : List Nat) (w : FifoWorld σ)
    (hP : 4 ≤ PAGE_SIZE) (hP32 : PAGE_SIZE < 4294967296)
    (hk : ∀ kbuf, page = some kbuf → PAGE_SIZE ≤ kbuf.length)
    (hc : w.write_buffer_in_use ≤ 3) (hcl : w.write_buffer_in_use ≤ w.write_buffer.length) :
    ∃ ret wf, hwicap_fpga_ops_write cfg PAGE_SIZE false page buf w = some (ret, wf) ∧
      (ret = -EINVAL ↔ w.write_buffer_in_use + buf.length < 4) ∧
      (w.write_buffer_in_use + buf.length < 4 →
        wf.trace = w.trace ∧ wf.dev = w.dev ∧ wf.write_buffer = w.write_buffer ∧
        wf.write_buffer_in_use = w.write_buffer_in_use ∧
        wf.state = FPGA_MGR_STATE_WRITE_ERR ∧ wf.sem = false) := by
  by_cases h4 : w.write_buffer_in_use + buf.length < 4
  · have hlt : (buf.length : Int) + (w.write_buffer_in_use : Int) < 4 := by omega
    refine ⟨-EINVAL, { w with state := FPGA_MGR_STATE_WRITE_ERR, sem := false }, ?_,
      ⟨fun _ => h4, fun _ => rfl⟩, fun _ => ⟨rfl, rfl, rfl, rfl, rfl, rfl⟩⟩
    unfold hwicap_fpga_ops_write
    simp only [mutex_lock_interruptible, Bool.false_eq_true, if_false, ne_eq, not_true_eq_false,
      if_pos hlt]
    rfl
  · cases page with
    | none =>
      have hnot : ¬ ((buf.length : Int) + (w.write_buffer_in_use : Int) < 4) := by omega
      refine ⟨-ENOMEM, { w with state := FPGA_MGR_STATE_WRITE_ERR, sem := false }, ?_,
        ⟨fun h => absurd h (by decide), fun h => absurd h h4⟩, fun h => absurd h h4⟩
      unfold hwicap_fpga_ops_write
      simp only [mutex_lock_interruptible, Bool.false_eq_true, if_false, ne_eq, not_true_eq_false,
        if_neg hnot]
      rfl
    | some kbuf =>
      obtain ⟨ret, wf, evs, hrun, -, -, -, -, hcase⟩ :=
        hwicap_fpga_ops_write_spec cfg PAGE_SIZE buf kbuf w hP hP32 (hk kbuf rfl) hc hcl
          (by omega)
      refine ⟨ret, wf, hrun, ⟨fun h => ?_, fun h => absurd h h4⟩, fun h => absurd h h4⟩
      rcases hcase with ⟨h1, -⟩ | ⟨h1, -⟩
      · rw [h1] at h; exact absurd h (by decide)
      · rw [h1] at h; exact absurd h (by decide)

theorem C12_fifo_short_input_rejected_witness :
    ∃ wf, hwicap_fpga_ops_write cfg_ok 4096 false (some (List.replicate 4096 0)) [6, 7]
        fifo_world1 = some (-EINVAL, wf) ∧
      fifo_world1.write_buffer_in_use = 1 ∧
      wf.trace = fifo_world1.trace ∧ wf.write_buffer = fifo_world1.write_buffer ∧
      wf.write_buffer_in_use = 1 ∧ wf.state = FPGA_MGR_STATE_WRITE_ERR := by
  obtain ⟨ret, wf, hrun, hiff, himp⟩ := C12_fifo_short_input_rejected cfg_ok 4096
    (some (List.replicate 4096 0)) [6, 7] fifo_world1 (by decide) (by decide)
    (fun kbuf h => by
      simp only [Option.some.injEq] at h
      rw [← h]
      exact (List.length_replicate 4096 0).ge)
    (by decide) (by decide)
  have hlt : fifo_world1.write_buffer_in_use + ([6, 7] : List Nat).length < 4 := by decide
  have hret := hiff.mpr hlt
  subst hret
  obtain ⟨h1, -, h3, h4, h5, -⟩ := himp hlt
  exact ⟨wf, hrun, rfl, h1, h3, h4, h5⟩

theorem cdma_status_reads_length (hw : Hw σ) :
    ∀ (n : Nat) (s : σ), (cdma_status_reads hw n s).length = n := by
  intro n
  induction n with
  | zero => intro s; rfl
  | succ n ih => intro s; simp [cdma_status_reads, ih]

/-- The answers to the first `m` of `n` reads are the answers to `m` reads. -/
theorem cdma_status_reads_take (hw : Hw σ) :
    ∀ (n m : Nat) (s : σ), m ≤ n →
      (cdma_status_reads hw n s).take m = cdma_status_reads hw m s := by
  intro n
  induction n with
  | zero =>
    intro m s h
    have hm : m = 0 := by omega
    subst hm; rfl
  | succ n ih =>
    intro m s h
    cases m with
    | zero => rfl
    | succ m => simp [cdma_status_reads, ih m _ (by omega)]

theorem filter_is_wr_map_rd (b : Base) (off : Nat) (vals : List Nat) :
    (vals.map (Event.rd b off)).filter Event.is_wr = [] := by
  induction vals with
  | nil => rfl
  | cons v t ih => simp [Event.is_wr]

/-- The status words the poll loop of `axi_cdma_busy` reads are the answers of
the device to successive reads of the engine's status register. -/
theorem axi_cdma_busy_poll_reads (hw : Hw σ) :
    ∀ (fuel retries : Nat) (w w' : World σ) (o : Option Nat),
      axi_cdma_busy_poll hw fuel retries w = some (o, w') →
      ∃ n, w'.trace = w.trace ++
        (cdma_status_reads hw n w.dev).map (Event.rd Base.cdma XAXICDMA_SR_OFFSET) := by
  intro fuel
  induction fuel with
  | zero => intro retries w w' o h; simp [axi_cdma_busy_poll] at h
  | succ k ih =>
    intro retries w w' o h
    unfold axi_cdma_busy_poll at h
    simp only [] at h
    by_cases hto : retries + 1 > XACDMA_MAX_RETRIES
    · rw [if_pos hto] at h
      simp only [Option.some.injEq, Prod.mk.injEq] at h
      obtain ⟨-, rfl⟩ := h
      exact ⟨1, by simp [ioread32le, cdma_status_reads]⟩
    · rw [if_neg hto] at h
      by_cases hioc : (ioread32le hw Base.cdma XAXICDMA_SR_OFFSET w).1 &&& XACDMA_IOC_IRQ = 0
      · rw [if_pos hioc] at h
        obtain ⟨n, hn⟩ := ih _ _ _ _ h
        refine ⟨n + 1, ?_⟩
        rw [hn]
        simp [ioread32le, cdma_status_reads]
      · rw [if_neg hioc] at h
        simp only [Option.some.injEq, Prod.mk.injEq] at h
        obtain ⟨-, rfl⟩ := h
        exact ⟨1, by simp [ioread32le, cdma_status_reads]⟩

/-- What `axi_cdma_busy` does, in terms of the answers of the device: it always
returns, after `n ≤ XACDMA_MAX_RETRIES + 1` reads of the status register; either
all `XACDMA_MAX_RETRIES + 1` reads were made and it reports the timeout without
a write, or read `n ≤ XACDMA_MAX_RETRIES` was the first to show the completion
flag, which it writes back. -/
theorem axi_cdma_busy_reads (hw : Hw σ) (w : World σ) :
    ∃ st w' n, axi_cdma_busy hw w = some (st, w') ∧ 1 ≤ n ∧ n ≤ XACDMA_MAX_RETRIES + 1 ∧
      (∀ v ∈ (cdma_status_reads hw n w.dev).dropLast, v &&& XACDMA_IOC_IRQ = 0) ∧
      ((st = to_u32 XACDMA_WRITE_TIMEOUT ∧ n = XACDMA_MAX_RETRIES + 1 ∧
          w'.trace = w.trace ++
            (cdma_status_reads hw n w.dev).map (Event.rd Base.cdma XAXICDMA_SR_OFFSET)) ∨
        (∃ sr, (cdma_status_reads hw n w.dev).getLast? = some sr ∧
          sr &&& XACDMA_IOC_IRQ ≠ 0 ∧ n ≤ XACDMA_MAX_RETRIES ∧
          w'.trace = w.trace ++
            (cdma_status_reads hw n w.dev).map (Event.rd Base.cdma XAXICDMA_SR_OFFSET) ++
            [Event.wr Base.cdma XAXICDMA_SR_OFFSET XACDMA_IOC_IRQ] ∧
          st = if sr &&& XAXICDMA_ERR_IRQ ≠ 0 then to_u32 XACDMA_WRITE_ERROR else 0)) := by
  obtain ⟨o, w1, vals, he, -, -, -, htr, hne, hlen, hdl, hnone, hsome⟩ :=
    axi_cdma_busy_poll_spec hw (XACDMA_MAX_RETRIES + 1) 0 w (Nat.zero_le _) (by omega)
  obtain ⟨n, hn⟩ := axi_cdma_busy_poll_reads hw _ _ _ _ _ he
  have hv : vals = cdma_status_reads hw n w.dev := by
    rw [htr] at hn
    have h1 := List.append_cancel_left hn
    refine List.map_injective_iff.mpr ?_ h1
    intro a b hab
    simpa using hab
  have hvl : vals.length = n := by rw [hv, cdma_status_reads_length]
  have hn1 : 1 ≤ n := by
    rcases Nat.eq_zero_or_pos n with h0 | h0
    · rw [h0] at hvl
      exact absurd (List.length_eq_zero.mp hvl) hne
    · exact h0
  rw [hv] at hdl htr hsome
  have hrl := cdma_status_reads_length hw n w.dev
  unfold axi_cdma_busy
  rw [he]
  cases o with
  | none =>
    refine ⟨_, _, n, rfl, hn1, by omega, hdl, Or.inl ⟨rfl, ?_, htr⟩⟩
    have := hnone rfl
    omega
  | some sr =>
    obtain ⟨h1, h2, h3⟩ := hsome sr rfl
    by_cases herr : sr &&& XAXICDMA_ERR_IRQ ≠ 0
    · simp only [if_pos herr]
      refine ⟨_, _, n, rfl, hn1, by omega, hdl, Or.inr ⟨sr, h1, h2, by omega, ?_, ?_⟩⟩
      · simp [iowrite32le, htr]
      · rw [if_pos herr]
    · simp only [if_neg herr]
      refine ⟨_, _, n, rfl, hn1, by omega, hdl, Or.inr ⟨sr, h1, h2, by omega, ?_, ?_⟩⟩
      · simp [iowrite32le, htr]
      · rw [if_neg herr]

/-- C13. Function `axi_cdma_busy` always returns, after `n` reads of the engine's
status register with `1 ≤ n ≤ XACDMA_MAX_RETRIES + 1 = 10001`, and its register
accesses are these `n` reads, followed by one write-back of the completion
flag unless it reports the timeout.  It returns `XACDMA_WRITE_TIMEOUT` (the `u32`
that reads `-3` as an `int`) if and only if none of the answers of the device
to the first `XACDMA_MAX_RETRIES = 10000` status reads has the completion flag
(0x1000) set; on timeout it has written no register. -/
theorem C13_cdma_busy_timeout (hw : Hw σ) (w : World σ) :
    ∃ st w' n, axi_cdma_busy hw w = some (st, w') ∧
      1 ≤ n ∧ n ≤ XACDMA_MAX_RETRIES + 1 ∧ XACDMA_MAX_RETRIES + 1 = 10001 ∧
      w'.trace = w.trace ++
        (cdma_status_reads hw n w.dev).map (Event.rd Base.cdma XAXICDMA_SR_OFFSET) ++
        (if st = to_u32 XACDMA_WRITE_TIMEOUT then []
          else [Event.wr Base.cdma XAXICDMA_SR_OFFSET XACDMA_IOC_IRQ]) ∧
      (st = to_u32 XACDMA_WRITE_TIMEOUT ↔
        ∀ v ∈ cdma_status_reads hw XACDMA_MAX_RETRIES w.dev, v &&& XACDMA_IOC_IRQ = 0) ∧
      (st = to_u32 XACDMA_WRITE_TIMEOUT →
        (w'.trace.drop w.trace.length).filter Event.is_wr = []) ∧
      to_int (to_u32 XACDMA_WRITE_TIMEOUT) = -3 ∧ XACDMA_IOC_IRQ = 0x1000 := by
  obtain ⟨st, w', n, hrun, hn1, hn2, hdl, hcase⟩ := axi_cdma_busy_reads hw w
  have hrl := cdma_status_reads_length hw n w.dev
  rcases hcase with ⟨h1, h2, h3⟩ | ⟨sr, h1, h2, h3, h4, h5⟩
  · refine ⟨st, w', n, hrun, hn1, hn2, rfl, ?_, ?_, ?_, by decide, rfl⟩
    · rw [if_pos h1, List.append_nil]; exact h3
    · refine ⟨fun _ => ?_, fun _ => h1⟩
      have ht := cdma_status_reads_take hw n XACDMA_MAX_RETRIES w.dev (by omega)
      rw [← ht]
      have hd : (cdma_status_reads hw n w.dev).dropLast =
          (cdma_status_reads hw n w.dev).take XACDMA_MAX_RETRIES := by
        rw [List.dropLast_eq_take, hrl, h2]; rfl
      rw [← hd]
      exact hdl
    · intro _
      rw [h3, List.drop_left, filter_is_wr_map_rd]
  · have hst : st ≠ to_u32 XACDMA_WRITE_TIMEOUT := by
      rw [h5]
      by_cases herr : sr &&& XAXICDMA_ERR_IRQ ≠ 0
      · rw [if_pos herr]; decide
      · rw [if_neg herr]; decide
    refine ⟨st, w', n, hrun, hn1, hn2, rfl, ?_, ?_, fun h => absurd h hst, by decide, rfl⟩
    · rw [if_neg hst]; exact h4
    · refine ⟨fun h => absurd h hst, fun hall => ?_⟩
      have hmem : sr ∈ cdma_status_reads hw n w.dev := List.mem_of_getLast?_eq_some h1
      have ht := cdma_status_reads_take hw XACDMA_MAX_RETRIES n w.dev h3
      rw [← ht] at hmem
      exact absurd (hall sr (List.mem_of_mem_take hmem)) h2

/-- C14. Function `axi_cdma_busy`: when one of the answers of the device to the first
`XACDMA_MAX_RETRIES = 10000` status reads has the completion flag (0x1000) set,
the poll ends at the first such answer `sr`, read number `n ≤ 10000`; the
function then writes `0x1000` to the status register, which is its only
register write, and returns `XACDMA_WRITE_ERROR` (the `u32` that reads `-2`
as an `int`) if the error flag (0x4000) is set in `sr`, and `0` otherwise. -/
theorem C14_cdma_busy_completion (hw : Hw σ) (w : World σ)
    (hflag : ∃ v ∈ cdma_status_reads hw XACDMA_MAX_RETRIES w.dev, v &&& XACDMA_IOC_IRQ ≠ 0) :
    ∃ st w' n sr, axi_cdma_busy hw w = some (st, w') ∧
      1 ≤ n ∧ n ≤ XACDMA_MAX_RETRIES ∧
      (cdma_status_reads hw n w.dev).getLast? = some sr ∧ sr &&& XACDMA_IOC_IRQ ≠ 0 ∧
      (∀ v ∈ (cdma_status_reads hw n w.dev).dropLast, v &&& XACDMA_IOC_IRQ = 0) ∧
      w'.trace = w.trace ++
        (cdma_status_reads hw n w.dev).map (Event.rd Base.cdma XAXICDMA_SR_OFFSET) ++
        [Event.wr Base.cdma XAXICDMA_SR_OFFSET 0x1000] ∧
      (w'.trace.drop w.trace.length).filter Event.is_wr =
        [Event.wr Base.cdma XAXICDMA_SR_OFFSET 0x1000] ∧
      st = (if sr &&& XAXICDMA_ERR_IRQ ≠ 0 then to_u32 XACDMA_WRITE_ERROR else 0) ∧
      to_int st = (if sr &&& 0x4000 ≠ 0 then -2 else 0) := by
  obtain ⟨st, w', n, hrun, hn1, hn2, hdl, hcase⟩ := axi_cdma_busy_reads hw w
  have hrl := cdma_status_reads_length hw n w.dev
  rcases hcase with ⟨-, h2, -⟩ | ⟨sr, h1, h2, h3, h4, h5⟩
  · exfalso
    obtain ⟨v, hv, hne⟩ := hflag
    have ht := cdma_status_reads_take hw n XACDMA_MAX_RETRIES w.dev (by omega)
    have hd : (cdma_status_reads hw n w.dev).dropLast =
        (cdma_status_reads hw n w.dev).take XACDMA_MAX_RETRIES := by
      rw [List.dropLast_eq_take, hrl, h2]; rfl
    rw [← ht, ← hd] at hv
    exact hne (hdl v hv)
  · refine ⟨st, w', n, sr, hrun, hn1, h3, h1, h2, hdl, h4, ?_, h5, ?_⟩
    · rw [h4, List.append_assoc, List.drop_left, List.filter_append, filter_is_wr_map_rd]
      rfl
    · rw [h5]
      by_cases herr : sr &&& XAXICDMA_ERR_IRQ ≠ 0
      · have herr' : sr &&& 0x4000 ≠ 0 := herr
        rw [if_pos herr, if_pos herr']; decide
      · have herr' : ¬ sr &&& 0x4000 ≠ 0 := herr
        rw [if_neg herr, if_neg herr']; decide

theorem C14_cdma_busy_completion_witness :
    (∃ v ∈ cdma_status_reads hw_error XACDMA_MAX_RETRIES world0.dev, v &&& XACDMA_IOC_IRQ ≠ 0) ∧
      ∃ st w', axi_cdma_busy hw_error world0 = some (st, w') ∧
        w'.trace = [Event.rd Base.cdma 0x04 0x5002, Event.wr Base.cdma 0x04 0x1000] ∧
        to_int st = -2 := by
  have hflag : ∃ v ∈ cdma_status_reads hw_error XACDMA_MAX_RETRIES world0.dev,
      v &&& XACDMA_IOC_IRQ ≠ 0 :=
    ⟨0x5002, List.mem_cons_self _ _, by decide⟩
  refine ⟨hflag, ?_⟩
  obtain ⟨st, w', n, sr, hrun, -, -, -, -, -, -, -, -, hst⟩ :=
    C14_cdma_busy_completion hw_error world0 hflag
  have e1 : axi_cdma_busy hw_error world0 = some (to_u32 XACDMA_WRITE_ERROR, { world0 with
      trace := [Event.rd Base.cdma 0x04 0x5002, Event.wr Base.cdma 0x04 0x1000] }) := rfl
  rw [e1] at hrun
  simp only [Option.some.injEq, Prod.mk.injEq] at hrun
  obtain ⟨rfl, rfl⟩ := hrun
  exact ⟨_, _, e1, rfl, by decide⟩

/-- The chunk loop of `hbicap_fpga_ops_write` leaves mutex, state and flags alone;
it only stages chunks and accesses registers of the transfer engine, never the
configuration port; and the status with which it is left through `goto error`
is one of the three error codes of `axi_cdma_write`. -/
theorem hbicap_write_loop_frame (hw : Hw σ) (drvdata : hbicap_drvdata) (buf : List Nat) :
    ∀ (fuel : Nat) (written left : Int) (w w' : World σ) (ex : LoopExit),
      hbicap_write_loop hw drvdata buf fuel written left w = some (ex, w') →
      w'.sem = w.sem ∧ w'.state = w.state ∧ w'.flags = w.flags ∧
        (∃ evs, w'.trace = w.trace ++ evs ∧ ∀ e ∈ evs, e.on_axi_lite = false) ∧
        (∀ st wr, ex = LoopExit.error st wr →
          st = XACDMA_NOT_IDLE ∨ st = XACDMA_WRITE_ERROR ∨ st = XACDMA_WRITE_TIMEOUT) := by
  intro fuel
  induction fuel with
  | zero => intro written left w w' ex h; simp [hbicap_write_loop] at h
  | succ n ih =>
    intro written left w w' ex h
    unfold hbicap_write_loop hbicap_write_chunk at h
    by_cases hl : left > 0
    · simp only [if_pos hl] at h
      obtain ⟨st, w2, he, -⟩ := axi_cdma_write_spec hw 0 (drvdata.ddr_phys_base_addr % 4294967296)
        drvdata.axi_data_phys_base_higher drvdata.axi_data_phys_base_lower
        (to_u32 (if left < 4096 then left else 4096))
        { w with trace := w.trace ++ [Event.stage written (if left < 4096 then left else 4096)
          (buf_read buf written (if left < 4096 then left else 4096))] }
      rw [he] at h
      obtain ⟨f1, f2, f3, ⟨evs, f4, f5⟩, f6⟩ := axi_cdma_write_frame hw _ _ _ _ _ _ _ _ he
      have hev : ∀ e ∈ Event.stage written (if left < 4096 then left else 4096)
          (buf_read buf written (if left < 4096 then left else 4096)) :: evs,
          e.on_axi_lite = false := by
        intro e he'
        rcases List.mem_cons.mp he' with h1 | h1
        · rw [h1]; rfl
        · have := f5 e h1
          cases e with
          | rd b o v => cases b <;> simp_all [Event.on_cdma, Event.on_axi_lite]
          | wr b o v => cases b <;> simp_all [Event.on_cdma, Event.on_axi_lite]
          | stage o c d => rfl
      by_cases hst : st ≠ 0
      · simp only [if_pos hst] at h
        simp only [Option.some.injEq, Prod.mk.injEq] at h
        obtain ⟨rfl, rfl⟩ := h
        refine ⟨f1, f2, f3, ⟨Event.stage written (if left < 4096 then left else 4096)
          (buf_read buf written (if left < 4096 then left else 4096)) :: evs, ?_, hev⟩, ?_⟩
        · rw [f4]; simp
        · intro st' wr' hx
          simp only [LoopExit.error.injEq] at hx
          obtain ⟨rfl, -⟩ := hx
          rcases f6 with h0 | h0
          · exact absurd h0 hst
          · exact h0
      · simp only [if_neg hst] at h
        obtain ⟨r1, r2, r3, ⟨evs', r4, r5⟩, r6⟩ := ih _ _ _ _ _ h
        refine ⟨by rw [r1, f1], by rw [r2, f2], by rw [r3, f3], ⟨Event.stage written (if left < 4096 then left else 4096)
          (buf_read buf written (if left < 4096 then left else 4096)) :: evs ++ evs', ?_, ?_⟩, r6⟩
        · rw [r4, f4]; simp
        · intro e he'
          rcases List.mem_append.mp he' with h1 | h1
          · exact hev e h1
          · exact r5 e h1
    · simp only [if_neg hl] at h
      simp only [Option.some.injEq, Prod.mk.injEq] at h
      obtain ⟨rfl, rfl⟩ := h
      exact ⟨rfl, rfl, rfl, ⟨[], by simp, by simp⟩, fun st wr hx => by cases hx⟩

/-- Every call of `hbicap_fpga_ops_write` that acquires the mutex returns.  Its
trace is the write of the size register, then the events of the chunk loop
(none of them on the configuration port), then status reads of the
configuration port.  It returns `0`, `-42` or one of the three error codes of
`axi_cdma_write`, and whatever it returns the state it leaves is
`FPGA_MGR_STATE_WRITE`. -/
theorem hbicap_fpga_ops_write_frame (hw : Hw σ) (drvdata : hbicap_drvdata) (buf : List Nat)
    (w : World σ) :
    ∃ (ret : Int) (wf : World σ) (evs : List Event) (vals : List Nat),
      hbicap_fpga_ops_write hw drvdata false buf w = some (ret, wf) ∧
      wf.trace = w.trace ++
        Event.wr Base.axi_lite XHI_SZ_OFFSET (to_u32 ((buf.length >>> 2 : Nat) : Int)) :: evs ++
        vals.map (Event.rd Base.axi_lite XHI_SR_OFFSET) ∧
      (∀ e ∈ evs, e.on_axi_lite = false) ∧
      wf.state = FPGA_MGR_STATE_WRITE ∧ wf.flags = w.flags ∧
      (ret = 0 ∨ ret = -42 ∨ ret = XACDMA_NOT_IDLE ∨ ret = XACDMA_WRITE_ERROR ∨
        ret = XACDMA_WRITE_TIMEOUT) ∧
      (ret = -42 ↔ wf.sem = true) := by
  obtain ⟨⟨ex, w2⟩, hloop⟩ := hbicap_write_loop_total hw drvdata buf (buf.length + 1) 0 buf.length
    (hbicap_write_entry hw buf w) (by simp)
  obtain ⟨f1, f2, f3, ⟨evs, f4, f5⟩, f6⟩ := hbicap_write_loop_frame hw drvdata buf _ _ _ _ _ _ hloop
  have hentry : axi_hbicap_set_size_register hw (to_u32 ((buf.length >>> 2 : Nat) : Int))
      { w with state := FPGA_MGR_STATE_WRITE, sem := true } = hbicap_write_entry hw buf w := rfl
  have htr0 : (hbicap_write_entry hw buf w).trace = w.trace ++
      [Event.wr Base.axi_lite XHI_SZ_OFFSET (to_u32 ((buf.length >>> 2 : Nat) : Int))] := rfl
  have hsem : w2.sem = true := by rw [f1]; rfl
  have hstate : w2.state = FPGA_MGR_STATE_WRITE := by rw [f2]; rfl
  have hflags : w2.flags = w.flags := by rw [f3]; rfl
  cases ex with
  | error st wr =>
    have hrun : hbicap_fpga_ops_write hw drvdata false buf w =
        some (to_int st, { w2 with sem := mutex_unlock w2.sem }) := by
      unfold hbicap_fpga_ops_write
      simp only [mutex_lock_interruptible, Bool.false_eq_true, if_false, ne_eq,
        not_true_eq_false]
      rw [hentry, hloop]
    have hst := f6 st wr rfl
    refine ⟨_, _, evs, [], hrun, ?_, f5, hstate, hflags, ?_, ?_⟩
    · show w2.trace = _
      rw [f4, htr0]; simp
    · rcases hst with h | h | h <;> rw [h] <;> decide
    · constructor
      · intro h
        rcases hst with h' | h' | h' <;> rw [h'] at h <;> exact absurd h (by decide)
      · intro h
        exact absurd h (by simp [mutex_unlock])
  | finished written =>
    obtain ⟨ret, wf, vals, hrun, htr, hst, -, -, -, -, hcase⟩ :=
      hbicap_fpga_ops_write_after_loop hw drvdata buf w w2 written hloop
    obtain ⟨t, w3, vals', he, -, -, hf3, -⟩ :=
      hbicap_busy_wait_spec hw (XHI_MAX_RETRIES + 1) 0 w2 (Nat.zero_le _) (by omega)
    have hfl : wf.flags = w.flags := by
      have hrun2 := hrun
      unfold hbicap_fpga_ops_write at hrun2
      simp only [mutex_lock_interruptible, Bool.false_eq_true, if_false, ne_eq,
        not_true_eq_false] at hrun2
      rw [hentry, hloop] at hrun2
      simp only [he] at hrun2
      cases t with
      | true =>
        simp only [Option.some.injEq, Prod.mk.injEq] at hrun2
        rw [← hrun2.2, hf3, hflags]
      | false =>
        simp only [Option.some.injEq, Prod.mk.injEq] at hrun2
        rw [← hrun2.2]
        show w3.flags = _
        rw [hf3, hflags]
    refine ⟨ret, wf, evs, vals, hrun, ?_, f5, hst, hfl, ?_, ?_⟩
    · rw [htr, f4, htr0]; simp
    · rcases hcase with ⟨h, -⟩ | ⟨h, -⟩
      · exact Or.inr (Or.inl h)
      · exact Or.inl h
    · rcases hcase with ⟨h, h2, -⟩ | ⟨h, h2, -⟩
      · exact ⟨fun _ => h2, fun _ => h⟩
      · constructor
        · intro h'; rw [h] at h'; exact absurd h' (by decide)
        · intro h'; rw [h2] at h'; exact absurd h' (by decide)

theorem size_writes_append (a b : List Event) :
    size_writes (a ++ b) = size_writes a ++ size_writes b := by
  simp [size_writes, List.filterMap_append]

theorem size_writes_map_rd (b : Base) (off : Nat) (vals : List Nat) :
    size_writes (vals.map (Event.rd b off)) = [] := by
  induction vals with
  | nil => rfl
  | cons v t ih => simp [size_writes]

theorem size_writes_off_axi_lite (evs : List Event) (h : ∀ e ∈ evs, e.on_axi_lite = false) :
    size_writes evs = [] := by
  induction evs with
  | nil => rfl
  | cons e t ih =>
    have he := h e (List.mem_cons_self _ _)
    have ht : ∀ x ∈ t, x.on_axi_lite = false := fun x hx => h x (List.mem_cons_of_mem _ hx)
    have := ih ht
    cases e with
    | rd b o v => simp_all [size_writes]
    | wr b o v => cases b <;> simp_all [size_writes, Event.on_axi_lite]
    | stage o c d => simp_all [size_writes]

/-- The word count `size >> 2` as the `u32` argument of `axi_hbicap_set_size_register`. -/
theorem to_u32_shift (L : Nat) :
    to_u32 ((L >>> 2 : Nat) : Int) = (L / 4) % 4294967296 := by
  have h : L >>> 2 = L / 4 := by
    rw [Nat.shiftRight_eq_div_pow]
  rw [h]
  unfold to_u32
  omega

/-- C18. DMA variant: every call of `hbicap_fpga_ops_write` that acquires the mutex
returns, and the first thing it does is write the size register of the
configuration port (offset 0x108) with the number of 32-bit words of the
request, `⌊L/4⌋` as a `u32`.  Everything else the call does (the staging copies
and the engine register accesses of all chunks, the final status polls) comes
after that write, and contains no further write to the configuration port: the
size register is written exactly once per call, whatever the outcome. -/
theorem C18_dma_size_register_once (hw : Hw σ) (drvdata : hbicap_drvdata) (buf : List Nat)
    (w : World σ) :
    ∃ (ret : Int) (wf : World σ) (evs : List Event),
      hbicap_fpga_ops_write hw drvdata false buf w = some (ret, wf) ∧
      wf.trace = w.trace ++
        Event.wr Base.axi_lite XHI_SZ_OFFSET ((buf.length / 4) % 4294967296) :: evs ∧
      (∀ e ∈ evs, e.on_axi_lite = true → e.is_wr = false) ∧
      size_writes evs = [] ∧
      size_writes (wf.trace.drop w.trace.length) = [(buf.length / 4) % 4294967296] ∧
      XHI_SZ_OFFSET = 0x108 := by
  obtain ⟨ret, wf, evs, vals, hrun, htr, hev, -⟩ := hbicap_fpga_ops_write_frame hw drvdata buf w
  rw [to_u32_shift] at htr
  have hsz : size_writes (evs ++ vals.map (Event.rd Base.axi_lite XHI_SR_OFFSET)) = [] := by
    rw [size_writes_append, size_writes_map_rd, size_writes_off_axi_lite evs hev]
    rfl
  refine ⟨ret, wf, evs ++ vals.map (Event.rd Base.axi_lite XHI_SR_OFFSET), hrun, ?_, ?_, hsz, ?_,
    rfl⟩
  · rw [htr]; simp
  · intro e he hax
    rcases List.mem_append.mp he with h1 | h1
    · rw [hev e h1] at hax; exact absurd hax (by decide)
    · obtain ⟨v, -, rfl⟩ := List.mem_map.mp h1
      rfl
  · rw [htr]
    have hd : (w.trace ++ Event.wr Base.axi_lite XHI_SZ_OFFSET (buf.length / 4 % 4294967296) ::
        evs ++ vals.map (Event.rd Base.axi_lite XHI_SR_OFFSET)).drop w.trace.length =
        [Event.wr Base.axi_lite XHI_SZ_OFFSET (buf.length / 4 % 4294967296)] ++
          (evs ++ vals.map (Event.rd Base.axi_lite XHI_SR_OFFSET)) := by
      rw [List.append_assoc, List.drop_left]
      simp
    rw [hd, size_writes_append, hsz]
    simp [size_writes]

/-- C16 (failing inputs). DMA variant: a write of 5 bytes on a device whose
engine raises the error flag returns `XACDMA_WRITE_ERROR`, and a write of 5 bytes
on a device whose configuration port never shows DONE returns `-42`; in both
cases the state that `hbicap_fpga_ops_state` reports afterwards is still
`FPGA_MGR_STATE_WRITE`, not `FPGA_MGR_STATE_WRITE_ERR`. -/
theorem C16_dma_error_leaves_write_state :
    (∃ wf : World Unit,
      hbicap_fpga_ops_write hw_error drvdata0 false [1, 2, 3, 4, 5] world0 =
        some (XACDMA_WRITE_ERROR, wf) ∧
      hbicap_fpga_ops_state wf = FPGA_MGR_STATE_WRITE) ∧
    (∃ wf : World Unit,
      hbicap_fpga_ops_write hw_never_done drvdata0 false [1, 2, 3, 4, 5] world0 =
        some (-42, wf) ∧
      hbicap_fpga_ops_state wf = FPGA_MGR_STATE_WRITE) ∧
    FPGA_MGR_STATE_WRITE ≠ FPGA_MGR_STATE_WRITE_ERR := by
  refine ⟨⟨_, rfl, rfl⟩, ?_, by decide⟩
  obtain ⟨ret, wf, vals, hrun, -, hst, -, -, -, hprov, hcase⟩ :=
    hbicap_fpga_ops_write_after_loop hw_never_done drvdata0 [1, 2, 3, 4, 5] world0 _ _ rfl
  rcases hcase with ⟨h1, -⟩ | ⟨-, -, sr, h2, h3⟩
  · subst h1
    exact ⟨wf, hrun, hst⟩
  · obtain ⟨s, hs⟩ := hprov sr (List.mem_of_getLast?_eq_some h2)
    rw [hs] at h3
    exact absurd (hw_never_done_busy s) h3

/-- In the DMA variant only an interrupted wait for the mutex makes
`hbicap_fpga_ops_write` record the write-error state: a call that acquires the
mutex returns with the state `FPGA_MGR_STATE_WRITE`, whether it returns `0` or an
error; a call whose wait is interrupted returns `-EINTR` with the state
`FPGA_MGR_STATE_WRITE_ERR`. -/
theorem hbicap_fpga_ops_write_state (hw : Hw σ) (drvdata : hbicap_drvdata) (buf : List Nat)
    (w : World σ) :
    (∃ ret wf, hbicap_fpga_ops_write hw drvdata false buf w = some (ret, wf) ∧
      hbicap_fpga_ops_state wf = FPGA_MGR_STATE_WRITE) ∧
    (∃ wf, hbicap_fpga_ops_write hw drvdata true buf w = some (-EINTR, wf) ∧
      hbicap_fpga_ops_state wf = FPGA_MGR_STATE_WRITE_ERR) := by
  obtain ⟨ret, wf, evs, vals, hrun, -, -, hst, -⟩ := hbicap_fpga_ops_write_frame hw drvdata buf w
  refine ⟨⟨ret, wf, hrun, hst⟩,
    ⟨{ w with state := FPGA_MGR_STATE_WRITE_ERR, sem := mutex_unlock w.sem }, ?_, rfl⟩⟩
  unfold hbicap_fpga_ops_write
  simp [mutex_lock_interruptible, EINTR, to_int]

/-- In the FIFO variant every error return of `hwicap_fpga_ops_write` records the
write-error state: for a call entered with at most 3 carried bytes, whatever
the outcome of the wait for the mutex and of the page allocation, the call
returns, with the state `FPGA_MGR_STATE_WRITE_ERR` when it returns an error and
`FPGA_MGR_STATE_WRITE` when it returns `0`. -/
theorem hwicap_fpga_ops_write_state (cfg : hwicap_driver_config σ) (PAGE_SIZE : Nat)
    (interrupted : Bool) (page : Option (List Nat)) (buf : List Nat) (w : FifoWorld σ)
    (hP : 4 ≤ PAGE_SIZE) (hP32 : PAGE_SIZE < 4294967296)
    (hk : ∀ kbuf, page = some kbuf → PAGE_SIZE ≤ kbuf.length)
    (hc : w.write_buffer_in_use ≤ 3) (hcl : w.write_buffer_in_use ≤ w.write_buffer.length) :
    ∃ ret wf, hwicap_fpga_ops_write cfg PAGE_SIZE interrupted page buf w = some (ret, wf) ∧
      (ret = 0 ∨ ret = -EINTR ∨ ret = -EINVAL ∨ ret = -ENOMEM ∨ ret = -EFAULT) ∧
      (ret ≠ 0 → hwicap_fpga_ops_state wf = FPGA_MGR_STATE_WRITE_ERR) ∧
      (ret = 0 → hwicap_fpga_ops_state wf = FPGA_MGR_STATE_WRITE) := by
  cases interrupted with
  | true =>
    refine ⟨-EINTR, { w with state := FPGA_MGR_STATE_WRITE_ERR, sem := mutex_unlock w.sem }, ?_,
      by simp, fun _ => rfl, fun h => absurd h (by decide)⟩
    unfold hwicap_fpga_ops_write
    simp [mutex_lock_interruptible, EINTR, to_int]
  | false =>
    by_cases h4 : w.write_buffer_in_use + buf.length < 4
    · have hlt : (buf.length : Int) + (w.write_buffer_in_use : Int) < 4 := by omega
      refine ⟨-EINVAL, { w with state := FPGA_MGR_STATE_WRITE_ERR, sem := false }, ?_,
        by simp, fun _ => rfl, fun h => absurd h (by decide)⟩
      unfold hwicap_fpga_ops_write
      simp only [mutex_lock_interruptible, Bool.false_eq_true, if_false, ne_eq,
        not_true_eq_false, if_pos hlt]
      rfl
    · cases page with
      | none =>
        have hnot : ¬ ((buf.length : Int) + (w.write_buffer_in_use : Int) < 4) := by omega
        refine ⟨-ENOMEM, { w with state := FPGA_MGR_STATE_WRITE_ERR, sem := false }, ?_,
          by simp, fun _ => rfl, fun h => absurd h (by decide)⟩
        unfold hwicap_fpga_ops_write
        simp only [mutex_lock_interruptible, Bool.false_eq_true, if_false, ne_eq,
          not_true_eq_false, if_neg hnot]
        rfl
      | some kbuf =>
        obtain ⟨ret, wf, evs, hrun, -, -, -, -, hcase⟩ :=
          hwicap_fpga_ops_write_spec cfg PAGE_SIZE buf kbuf w hP hP32 (hk kbuf rfl) hc hcl
            (by omega)
        refine ⟨ret, wf, hrun, ?_⟩
        rcases hcase with ⟨h1, h2, -⟩ | ⟨h1, h2, -⟩
        · exact ⟨by simp [h1], fun _ => h2, fun h => by rw [h1] at h; exact absurd h (by decide)⟩
        · exact ⟨by simp [h1], fun h => absurd h1 h, fun _ => h2⟩

/-- The byte counts of the chunks of a request add up to its length. -/
theorem dma_chunk_sizes_sum (L : Nat) :
    ∀ (c j : Nat), 4096 * j ≤ L → c = dma_chunk_count L - j →
      ((List.range' j c).map (fun k => min 4096 (L - 4096 * k))).sum = L - 4096 * j := by
  intro c
  induction c with
  | zero =>
    intro j hj hc
    unfold dma_chunk_count at hc
    simp only [List.range'_zero, List.map_nil, List.sum_nil]
    omega
  | succ c ih =>
    intro j hj hc
    rw [List.range'_succ, List.map_cons, List.sum_cons]
    by_cases hm : L - 4096 * j ≤ 4096
    · have hc0 : c = 0 := by unfold dma_chunk_count at hc; omega
      subst hc0
      simp only [List.range'_zero, List.map_nil, List.sum_nil]
      omega
    · rw [ih (j + 1) (by omega) (by omega)]
      omega

theorem btt_writes_dma_chunks_events (drvdata : hbicap_drvdata) (buf : List Nat) :
    ∀ (recs : List (Nat × Nat × List Nat)) (j : Nat),
      btt_writes (dma_chunks_events drvdata buf j recs) =
        (List.range' j recs.length).map (fun k => min 4096 (buf.length - 4096 * k)) := by
  intro recs
  induction recs with
  | nil => intro j; rfl
  | cons r rs ih =>
    intro j
    simp only [dma_chunks_events, btt_writes_append, ih, List.length_cons, List.range'_succ,
      List.map_cons]
    have h1 : btt_writes (dma_chunk_events drvdata buf j r) =
        [min 4096 (buf.length - 4096 * j)] := by
      unfold dma_chunk_events
      rw [← List.singleton_append, btt_writes_append, btt_writes_append, btt_writes_append,
        btt_writes_map_rd]
      simp [btt_writes, cdma_program_events, XAXICDMA_CR_OFFSET, XAXICDMA_SR_OFFSET,
        XAXICDMA_SRCADDR_LOWER_OFFSET, XAXICDMA_SRCADDR_HIGHER_OFFSET,
        XAXICDMA_DSTADDR_LOWER_OFFSET, XAXICDMA_DSTADDR_HIGHER_OFFSET, XAXICDMA_BTT_OFFSET]
    rw [h1]
    rfl

/-- The complete trace of a chunk loop that is left normally: the events of
the chunks `j, j+1, ...` up to the last, each with the engine idle at its start
and with a completion poll that ended, within the retry ceiling, on a status
word with the completion flag set and the error flag clear. -/
theorem hbicap_write_loop_finished_trace (hw : Hw σ) (drvdata : hbicap_drvdata)
    (buf : List Nat) :
    ∀ (fuel j : Nat) (written left : Int) (w w' : World σ) (wr : Int),
      written + left = buf.length → 0 ≤ left →
      (0 < left → written = ((4096 * j : Nat) : Int)) →
      (left = 0 → dma_chunk_count buf.length ≤ j) →
      hbicap_write_loop hw drvdata buf fuel written left w =
        some (LoopExit.finished wr, w') →
      ∃ recs : List (Nat × Nat × List Nat),
        recs.length = dma_chunk_count buf.length - j ∧
        w'.trace = w.trace ++ dma_chunks_events drvdata buf j recs ∧
        ∀ r ∈ recs, r.1 &&& XAXICDMA_IDLE ≠ 0 ∧ r.2.2.length ≤ XACDMA_MAX_RETRIES ∧
          (∀ v ∈ r.2.2.dropLast, v &&& XACDMA_IOC_IRQ = 0) ∧
          ∃ sr, r.2.2.getLast? = some sr ∧ sr &&& XACDMA_IOC_IRQ ≠ 0 ∧
            sr &&& XAXICDMA_ERR_IRQ = 0 := by
  intro fuel
  induction fuel with
  | zero => intro j written left w w' wr _ _ _ _ h; simp [hbicap_write_loop] at h
  | succ n ih =>
    intro j written left w w' wr hsum hleft hwr hend h
    unfold hbicap_write_loop hbicap_write_chunk at h
    by_cases hl : left > 0
    · simp only [if_pos hl] at h
      have hwj := hwr hl
      subst hwj
      have hlen : (if left < 4096 then left else 4096) =
          ((min 4096 (buf.length - 4096 * j) : Nat) : Int) := by
        clear h ih hwr hend
        by_cases h4 : left < 4096
        · rw [if_pos h4]; omega
        · rw [if_neg h4]; omega
      have hdata : buf_read buf ((4096 * j : Nat) : Int)
          ((min 4096 (buf.length - 4096 * j) : Nat) : Int) =
          (buf.drop (4096 * j)).take 4096 := by
        unfold buf_read
        simp only [Int.toNat_ofNat]
        by_cases hm : buf.length - 4096 * j ≤ 4096
        · rw [Nat.min_eq_right hm, List.take_of_length_le (by simp),
            List.take_of_length_le (by simp; omega)]
        · rw [Nat.min_eq_left (by omega)]
      have hu : to_u32 ((min 4096 (buf.length - 4096 * j) : Nat) : Int) =
          min 4096 (buf.length - 4096 * j) := by
        unfold to_u32; clear h ih hwr hend hlen hdata; omega
      rw [hlen, hdata, hu] at h
      obtain ⟨st, w2, he, -, -, -, hcase⟩ := axi_cdma_write_spec hw 0
        (drvdata.ddr_phys_base_addr % 4294967296)
        drvdata.axi_data_phys_base_higher drvdata.axi_data_phys_base_lower
        (min 4096 (buf.length - 4096 * j))
        { w with trace := w.trace ++ [Event.stage ((4096 * j : Nat) : Int)
          ((min 4096 (buf.length - 4096 * j) : Nat) : Int) ((buf.drop (4096 * j)).take 4096)] }
      rw [he] at h
      by_cases hst : st ≠ 0
      · simp only [if_pos hst] at h
        simp at h
      · simp only [if_neg hst] at h
        have hst0 : st = 0 := by simpa using hst
        subst hst0
        obtain ⟨recs, r1, r2, r3⟩ := ih (j + 1) _ _ w2 w' wr
          (by clear h he ih hwr hend hcase hdata hu; omega)
          (by clear h he ih hwr hend hcase hdata hu; omega)
          (by clear h he ih hwr hend hcase hdata hu; omega)
          (by unfold dma_chunk_count; clear h he ih hwr hend hcase hdata hu; omega) h
        have hcnt : dma_chunk_count buf.length - j =
            (dma_chunk_count buf.length - (j + 1)) + 1 := by
          unfold dma_chunk_count; clear h he ih hwr hend hcase hdata hu r2 r3; omega
        rcases hcase with ⟨-, h0, -⟩ | ⟨hidle, c, vals, -, -, hdl, hc⟩
        · exact absurd h0 (by decide)
        · rcases hc with ⟨h0, -, -⟩ | ⟨sr, h1, h2, h3, htr, hst5⟩
          · exact absurd h0 (by decide)
          · have herr : sr &&& XAXICDMA_ERR_IRQ = 0 := by
              by_cases hx : sr &&& XAXICDMA_ERR_IRQ ≠ 0
              · rw [if_pos hx] at hst5; exact absurd hst5 (by decide)
              · simpa using hx
            refine ⟨((ioread32le hw Base.cdma XAXICDMA_SR_OFFSET
              { w with trace := w.trace ++ [Event.stage ((4096 * j : Nat) : Int)
                ((min 4096 (buf.length - 4096 * j) : Nat) : Int)
                ((buf.drop (4096 * j)).take 4096)] }).1, c, vals) :: recs, ?_, ?_, ?_⟩
            · rw [List.length_cons, r1, hcnt]
            · rw [r2, htr]
              simp only [dma_chunks_events, dma_chunk_events, List.append_assoc,
                List.singleton_append, List.cons_append, List.nil_append]
            · intro r hr
              rcases List.mem_cons.mp hr with hr1 | hr1
              · rw [hr1]
                exact ⟨hidle, h3, hdl, sr, h1, h2, herr⟩
              · exact r3 r hr1
    · simp only [if_neg hl] at h
      simp only [Option.some.injEq, Prod.mk.injEq, LoopExit.finished.injEq] at h
      obtain ⟨rfl, rfl⟩ := h
      have hl0 : left = 0 := by omega
      have hcnt : dma_chunk_count buf.length - j = 0 := by
        have := hend hl0
        omega
      exact ⟨[], by rw [hcnt]; rfl, by simp [dma_chunks_events], by simp⟩

/-- C15. DMA variant: whenever `hbicap_fpga_ops_write` returns `0`, the mutex was
acquired and the trace of the call is: the write of the size register; then,
for each of the `⌈L/4096⌉` chunks in order, the staging copy, the arming of the
engine and a completion poll that ended on a status word with the completion
flag set and the error flag clear; then at most `XHI_MAX_RETRIES + 1` status
reads of the configuration port, the last of which shows DONE.  The byte counts
with which the engine was armed are `min(4096, L - 4096*k)` for
`k = 0 .. ⌈L/4096⌉ - 1` and add up to exactly `L`; the mutex is released. -/
theorem C15_dma_success_invariant (hw : Hw σ) (drvdata : hbicap_drvdata) (interrupted : Bool)
    (buf : List Nat) (w wf : World σ)
    (h : hbicap_fpga_ops_write hw drvdata interrupted buf w = some (0, wf)) :
    interrupted = false ∧
    ∃ (recs : List (Nat × Nat × List Nat)) (done : List Nat),
      wf.trace = w.trace ++
        Event.wr Base.axi_lite XHI_SZ_OFFSET ((buf.length / 4) % 4294967296) ::
          (dma_chunks_events drvdata buf 0 recs ++
            done.map (Event.rd Base.axi_lite XHI_SR_OFFSET)) ∧
      recs.length = dma_chunk_count buf.length ∧
      btt_writes (wf.trace.drop w.trace.length) =
        (List.range (dma_chunk_count buf.length)).map
          (fun k => min 4096 (buf.length - 4096 * k)) ∧
      (btt_writes (wf.trace.drop w.trace.length)).sum = buf.length ∧
      (∀ r ∈ recs, ∃ sr, r.2.2.getLast? = some sr ∧ sr &&& XACDMA_IOC_IRQ ≠ 0 ∧
        sr &&& XAXICDMA_ERR_IRQ = 0) ∧
      done.length ≤ XHI_MAX_RETRIES + 1 ∧
      (∃ sr, done.getLast? = some sr ∧ sr &&& XHI_SR_DONE_MASK ≠ 0) ∧
      wf.sem = false := by
  cases interrupted with
  | true =>
    exfalso
    unfold hbicap_fpga_ops_write at h
    simp [mutex_lock_interruptible, EINTR, to_int] at h
  | false =>
    refine ⟨rfl, ?_⟩
    obtain ⟨⟨ex, w2⟩, hloop⟩ := hbicap_write_loop_total hw drvdata buf (buf.length + 1) 0
      buf.length (hbicap_write_entry hw buf w) (by simp)
    have hentry : axi_hbicap_set_size_register hw (to_u32 ((buf.length >>> 2 : Nat) : Int))
        { w with state := FPGA_MGR_STATE_WRITE, sem := true } = hbicap_write_entry hw buf w := rfl
    have htr0 : (hbicap_write_entry hw buf w).trace = w.trace ++
        [Event.wr Base.axi_lite XHI_SZ_OFFSET ((buf.length / 4) % 4294967296)] := by
      rw [← to_u32_shift]; rfl
    cases ex with
    | error st wr =>
      exfalso
      obtain ⟨-, -, -, -, f6⟩ := hbicap_write_loop_frame hw drvdata buf _ _ _ _ _ _ hloop
      unfold hbicap_fpga_ops_write at h
      simp only [mutex_lock_interruptible, Bool.false_eq_true, if_false, ne_eq,
        not_true_eq_false] at h
      rw [hentry, hloop] at h
      simp only [Option.some.injEq, Prod.mk.injEq] at h
      rcases f6 st wr rfl with h' | h' | h' <;> rw [h'] at h <;> exact absurd h.1 (by decide)
    | finished written =>
      obtain ⟨ret, wf', done, hrun, htr, -, -, hlen, -, -, hcase⟩ :=
        hbicap_fpga_ops_write_after_loop hw drvdata buf w w2 written hloop
      rw [h] at hrun
      simp only [Option.some.injEq, Prod.mk.injEq] at hrun
      obtain ⟨hret, rfl⟩ := hrun
      obtain ⟨recs, r1, r2, r3⟩ := hbicap_write_loop_finished_trace hw drvdata buf
        (buf.length + 1) 0 0 buf.length _ w2 written (by simp) (by simp) (by intro _; simp)
        (by intro h0; unfold dma_chunk_count; omega) hloop
      have hshape : wf.trace = w.trace ++
          Event.wr Base.axi_lite XHI_SZ_OFFSET ((buf.length / 4) % 4294967296) ::
            (dma_chunks_events drvdata buf 0 recs ++
              done.map (Event.rd Base.axi_lite XHI_SR_OFFSET)) := by
        rw [htr, r2, htr0]; simp
      have hbtt : btt_writes (wf.trace.drop w.trace.length) =
          (List.range (dma_chunk_count buf.length)).map
            (fun k => min 4096 (buf.length - 4096 * k)) := by
        rw [hshape, List.drop_left, ← List.singleton_append, btt_writes_append,
          btt_writes_append, btt_writes_map_rd, btt_writes_dma_chunks_events, r1,
          List.range_eq_range']
        simp [btt_writes]
      rcases hcase with ⟨h1, -⟩ | ⟨-, hsem, hdone⟩
      · rw [h1] at hret; exact absurd hret (by decide)
      · refine ⟨recs, done, hshape, by rw [r1]; rfl, hbtt, ?_, ?_, hlen, hdone, hsem⟩
        · rw [hbtt, List.range_eq_range']
          have := dma_chunk_sizes_sum buf.length (dma_chunk_count buf.length) 0 (by omega) rfl
          simpa using this
        · intro r hr
          obtain ⟨-, -, -, hsr⟩ := r3 r hr
          exact hsr

theorem C15_dma_success_invariant_witness :
    ∃ wf : World Unit,
      hbicap_fpga_ops_write hw_ready drvdata0 false [1, 2, 3, 4, 5] world0 = some (0, wf) ∧
      btt_writes (wf.trace.drop world0.trace.length) = [5] ∧
      (btt_writes (wf.trace.drop world0.trace.length)).sum = 5 ∧ wf.sem = false := by
  have e1 : hbicap_fpga_ops_write hw_ready drvdata0 false [1, 2, 3, 4, 5] world0 =
      some (0, { world0 with
        state := FPGA_MGR_STATE_WRITE
        trace := [Event.wr Base.axi_lite 0x108 1, Event.stage 0 5 [1, 2, 3, 4, 5],
          Event.rd Base.cdma 0x04 0x1003, Event.rd Base.cdma 0x00 0x1003,
          Event.wr Base.cdma 0x00 0x5003, Event.wr Base.cdma 0x1C 0,
          Event.wr Base.cdma 0x18 0x70000000, Event.wr Base.cdma 0x24 0,
          Event.wr Base.cdma 0x20 0xA0000000, Event.wr Base.cdma 0x28 5,
          Event.rd Base.cdma 0x04 0x1003, Event.wr Base.cdma 0x04 0x1000,
          Event.rd Base.axi_lite 0x110 0x1003] }) := rfl
  obtain ⟨-, recs, done, -, -, hbtt, hsum, -, -, -, hsem⟩ :=
    C15_dma_success_invariant hw_ready drvdata0 false [1, 2, 3, 4, 5] world0 _ e1
  exact ⟨_, e1, hbtt, hsum, hsem⟩

/-- A chunk loop of `hwicap_fpga_ops_write` that starts with an empty carry buffer
never copies from the carry buffer and leaves it empty; when it is left
normally, at most 3 bytes are left over. -/
theorem hwicap_write_loop_no_carry (cfg : hwicap_driver_config σ) (PAGE_SIZE : Nat)
    (buf : List Nat) :
    ∀ (fuel : Nat) (written left : Int) (kbuf : List Nat) (w w' : FifoWorld σ) (ex : FifoExit),
      w.write_buffer_in_use = 0 →
      hwicap_write_loop cfg PAGE_SIZE buf fuel written left kbuf w = some (ex, w') →
      w'.write_buffer_in_use = 0 ∧ w'.write_buffer = w.write_buffer ∧
        (∃ evs, w'.trace = w.trace ++ evs ∧ ∀ n, FifoEvent.memcpy_kbuf_carry n ∉ evs) ∧
        (∀ wr l, ex = FifoExit.finished wr l → l ≤ 3) := by
  intro fuel
  induction fuel with
  | zero => intro written left kbuf w w' ex _ h; simp [hwicap_write_loop] at h
  | succ n ih =>
    intro written left kbuf w w' ex h0 h
    unfold hwicap_write_loop at h
    by_cases hgt : left > 3
    · simp only [if_pos hgt] at h
      generalize hlen : (4 * ((if left > (PAGE_SIZE : Int) then (PAGE_SIZE : Int) else left) / 4))
        = len at h
      have hn0 : ¬ (w.write_buffer_in_use ≠ 0) := by simp [h0]
      simp only [if_neg hn0] at h
      generalize hr : fifo_set_configuration cfg
        (load_words (memcpy kbuf 0 (buf.drop written.toNat) len) (to_u32 (len / 4)))
        { w with trace := w.trace ++ [FifoEvent.memcpy_kbuf_buf 0 written len] } = r at h
      have hr1 : r.2.write_buffer_in_use = 0 := by rw [← hr]; exact h0
      have hr2 : r.2.write_buffer = w.write_buffer := by rw [← hr]; rfl
      have hr3 : r.2.trace = w.trace ++ [FifoEvent.memcpy_kbuf_buf 0 written len,
          FifoEvent.set_configuration
            (load_words (memcpy kbuf 0 (buf.drop written.toNat) len) (to_u32 (len / 4))) r.1] := by
        rw [← hr]; simp [fifo_set_configuration]
      have hrn0 : ¬ (r.2.write_buffer_in_use ≠ 0) := by simp [hr1]
      by_cases hst : r.1 ≠ 0
      · simp only [if_pos hst] at h
        simp only [Option.some.injEq, Prod.mk.injEq] at h
        obtain ⟨rfl, rfl⟩ := h
        refine ⟨hr1, hr2, ⟨_, hr3, by simp⟩, ?_⟩
        intro wr l hx; cases hx
      · simp only [if_neg hst, if_neg hrn0] at h
        obtain ⟨i1, i2, ⟨evs, i3, i4⟩, i5⟩ := ih _ _ _ _ _ _ hr1 h
        refine ⟨i1, by rw [i2, hr2], ⟨[FifoEvent.memcpy_kbuf_buf 0 written len,
          FifoEvent.set_configuration
            (load_words (memcpy kbuf 0 (buf.drop written.toNat) len) (to_u32 (len / 4))) r.1] ++
            evs, ?_, ?_⟩, i5⟩
        · rw [i3, hr3, List.append_assoc]
        · intro m hm
          rcases List.mem_append.mp hm with h1 | h1
          · simp at h1
          · exact i4 m h1
    · simp only [if_neg hgt] at h
      simp only [Option.some.injEq, Prod.mk.injEq] at h
      obtain ⟨rfl, rfl⟩ := h
      refine ⟨h0, rfl, ⟨[], by simp, by simp⟩, ?_⟩
      intro wr l hx
      simp only [FifoExit.finished.injEq] at hx
      omega

/-- The carried bytes are folded into the first chunk only.  In a chunk loop
of `hwicap_fpga_ops_write` no event after the first is a copy from the carry
buffer; the carry buffer itself is not written; and the carry length at the
end is `0`, unless no `set_configuration` call succeeded, in which case it is
what it was at the start. -/
theorem hwicap_write_loop_carry (cfg : hwicap_driver_config σ) (PAGE_SIZE : Nat)
    (buf : List Nat) (fuel : Nat) (written left : Int) (kbuf : List Nat) (w w' : FifoWorld σ)
    (ex : FifoExit)
    (h : hwicap_write_loop cfg PAGE_SIZE buf fuel written left kbuf w = some (ex, w')) :
    w'.write_buffer = w.write_buffer ∧
      (∃ evs, w'.trace = w.trace ++ evs ∧ (∀ n, FifoEvent.memcpy_kbuf_carry n ∉ evs.tail) ∧
        (w'.write_buffer_in_use = 0 ∨
          (w'.write_buffer_in_use = w.write_buffer_in_use ∧
            ∀ ws, FifoEvent.set_configuration ws 0 ∉ evs))) ∧
      (∀ wr l, ex = FifoExit.finished wr l → l ≤ 3) := by
  by_cases h0 : w.write_buffer_in_use = 0
  · obtain ⟨i1, i2, ⟨evs, i3, i4⟩, i5⟩ :=
      hwicap_write_loop_no_carry cfg PAGE_SIZE buf fuel written left kbuf w w' ex h0 h
    exact ⟨i2, ⟨evs, i3, fun n hn => i4 n (List.mem_of_mem_tail hn), Or.inl i1⟩, i5⟩
  · cases fuel with
    | zero => simp [hwicap_write_loop] at h
    | succ n =>
      unfold hwicap_write_loop at h
      by_cases hgt : left > 3
      · simp only [if_pos hgt] at h
        generalize hlen :
          (4 * ((if left > (PAGE_SIZE : Int) then (PAGE_SIZE : Int) else left) / 4)) = len at h
        have hn0 : w.write_buffer_in_use ≠ 0 := h0
        simp only [if_pos hn0] at h
        generalize hr : fifo_set_configuration cfg
          (load_words (memcpy (memcpy kbuf 0 w.write_buffer (w.write_buffer_in_use : Int))
            w.write_buffer_in_use (buf.drop written.toNat) (len - (w.write_buffer_in_use : Int)))
            (to_u32 (len / 4)))
          { w with trace := w.trace ++ [FifoEvent.memcpy_kbuf_carry (w.write_buffer_in_use : Int),
            FifoEvent.memcpy_kbuf_buf (w.write_buffer_in_use : Int) written
              (len - (w.write_buffer_in_use : Int))] } = r at h
        have hr1 : r.2.write_buffer_in_use = w.write_buffer_in_use := by rw [← hr]; rfl
        have hr2 : r.2.write_buffer = w.write_buffer := by rw [← hr]; rfl
        have hr3 : r.2.trace = w.trace ++
            [FifoEvent.memcpy_kbuf_carry (w.write_buffer_in_use : Int),
              FifoEvent.memcpy_kbuf_buf (w.write_buffer_in_use : Int) written
                (len - (w.write_buffer_in_use : Int)),
              FifoEvent.set_configuration
                (load_words (memcpy (memcpy kbuf 0 w.write_buffer (w.write_buffer_in_use : Int))
                  w.write_buffer_in_use (buf.drop written.toNat)
                  (len - (w.write_buffer_in_use : Int))) (to_u32 (len / 4))) r.1] := by
          rw [← hr]; simp [fifo_set_configuration]
        have hrn0 : r.2.write_buffer_in_use ≠ 0 := by rw [hr1]; exact h0
        by_cases hst : r.1 ≠ 0
        · simp only [if_pos hst] at h
          simp only [Option.some.injEq, Prod.mk.injEq] at h
          obtain ⟨rfl, rfl⟩ := h
          refine ⟨hr2, ⟨_, hr3, by simp, Or.inr ⟨hr1, ?_⟩⟩, ?_⟩
          · intro ws hm
            simp only [List.mem_cons, List.mem_singleton, FifoEvent.set_configuration.injEq,
              List.not_mem_nil, or_false, false_or] at hm
            rcases hm with h1 | h1 | h1
            · cases h1
            · cases h1
            · exact hst h1.2.symm
          · intro wr l hx; cases hx
        · simp only [if_neg hst, if_pos hrn0] at h
          obtain ⟨i1, i2, ⟨evs, i3, i4⟩, i5⟩ :=
            hwicap_write_loop_no_carry cfg PAGE_SIZE buf _ _ _ _ _ _ _ rfl h
          refine ⟨by rw [i2]; exact hr2, ⟨[FifoEvent.memcpy_kbuf_carry (w.write_buffer_in_use : Int),
              FifoEvent.memcpy_kbuf_buf (w.write_buffer_in_use : Int) written
                (len - (w.write_buffer_in_use : Int)),
              FifoEvent.set_configuration
                (load_words (memcpy (memcpy kbuf 0 w.write_buffer (w.write_buffer_in_use : Int))
                  w.write_buffer_in_use (buf.drop written.toNat)
                  (len - (w.write_buffer_in_use : Int))) (to_u32 (len / 4))) r.1] ++ evs,
            ?_, ?_, Or.inl i1⟩, i5⟩
          · rw [i3]
            show r.2.trace ++ evs = _
            rw [hr3, List.append_assoc]
          · intro m hm
            simp only [List.cons_append, List.tail_cons, List.mem_cons, List.nil_append] at hm
            rcases hm with h1 | h1 | h1
            · cases h1
            · cases h1
            · exact i4 m h1
      · simp only [if_neg hgt] at h
        simp only [Option.some.injEq, Prod.mk.injEq] at h
        obtain ⟨rfl, rfl⟩ := h
        refine ⟨rfl, ⟨[], by simp, by simp, Or.inr ⟨rfl, by simp⟩⟩, ?_⟩
        intro wr l hx
        simp only [FifoExit.finished.injEq] at hx
        omega

/-- C17. FIFO variant: `write_buffer_in_use ≤ 3` is an invariant of
`hwicap_fpga_ops_write`.  Every call that starts with at most 3 carried bytes
returns, whatever the outcome of the wait for the mutex, of the length check,
of the page allocation and of the transfers, and at most 3 bytes are held in
the carry buffer when it returns.  The carried bytes are folded into the first
chunk only: a copy from the carry buffer can only be the first event of the
call.  And once a `set_configuration` call of the call has succeeded the carry
length is `0`: it is `0` on return, unless the call ends by storing a new tail
of `n` bytes, `0 < n < 4`, in the carry buffer, which then holds `n` bytes. -/
theorem C17_fifo_carry_invariant (cfg : hwicap_driver_config σ) (PAGE_SIZE : Nat)
    (interrupted : Bool) (page : Option (List Nat)) (buf : List Nat) (w : FifoWorld σ)
    (hP : 4 ≤ PAGE_SIZE) (hc : w.write_buffer_in_use ≤ 3) :
    ∃ (ret : Int) (wf : FifoWorld σ) (evs : List FifoEvent),
      hwicap_fpga_ops_write cfg PAGE_SIZE interrupted page buf w = some (ret, wf) ∧
      wf.trace = w.trace ++ evs ∧
      wf.write_buffer_in_use ≤ 3 ∧
      (∀ n, FifoEvent.memcpy_kbuf_carry n ∉ evs.tail) ∧
      ((∃ ws, FifoEvent.set_configuration ws 0 ∈ evs) →
        wf.write_buffer_in_use = 0 ∨
          ∃ off n, evs.getLast? = some (FifoEvent.memcpy_carry_buf off n) ∧ 0 < n ∧ n < 4 ∧
            wf.write_buffer_in_use = n.toNat) := by
  cases interrupted with
  | true =>
    refine ⟨-EINTR, { w with state := FPGA_MGR_STATE_WRITE_ERR, sem := mutex_unlock w.sem }, [],
      ?_, by simp, hc, by simp, by simp⟩
    unfold hwicap_fpga_ops_write
    simp [mutex_lock_interruptible, EINTR, to_int]
  | false =>
    by_cases h4 : (buf.length : Int) + (w.write_buffer_in_use : Int) < 4
    · refine ⟨-EINVAL, { w with state := FPGA_MGR_STATE_WRITE_ERR, sem := false }, [], ?_,
        by simp, hc, by simp, by simp⟩
      unfold hwicap_fpga_ops_write
      simp only [mutex_lock_interruptible, Bool.false_eq_true, if_false, ne_eq,
        not_true_eq_false, if_pos h4]
      rfl
    · cases page with
      | none =>
        refine ⟨-ENOMEM, { w with state := FPGA_MGR_STATE_WRITE_ERR, sem := false }, [], ?_,
          by simp, hc, by simp, by simp⟩
        unfold hwicap_fpga_ops_write
        simp only [mutex_lock_interruptible, Bool.false_eq_true, if_false, ne_eq,
          not_true_eq_false, if_neg h4]
        rfl
      | some kbuf =>
        obtain ⟨ex, w', evs0, he, -⟩ := hwicap_write_loop_total cfg PAGE_SIZE buf hP
          (((buf.length : Int) + (w.write_buffer_in_use : Int)).toNat + 1) 0
          ((buf.length : Int) + (w.write_buffer_in_use : Int)) kbuf
          { w with state := FPGA_MGR_STATE_WRITE, sem := true } (Nat.lt_succ_self _)
        obtain ⟨-, ⟨evs, c2, c3, c4⟩, c5⟩ :=
          hwicap_write_loop_carry cfg PAGE_SIZE buf _ _ _ _ _ _ _ he
        have hle : w'.write_buffer_in_use ≤ 3 := by
          rcases c4 with h | ⟨h, -⟩
          · rw [h]; exact Nat.zero_le _
          · rw [h]; exact hc
        have hzero : (∃ ws, FifoEvent.set_configuration ws 0 ∈ evs) →
            w'.write_buffer_in_use = 0 := by
          rintro ⟨ws, hws⟩
          rcases c4 with h | ⟨-, h⟩
          · exact h
          · exact absurd hws (h ws)
        unfold hwicap_fpga_ops_write
        simp only [mutex_lock_interruptible, Bool.false_eq_true, if_false, ne_eq,
          not_true_eq_false, if_neg h4]
        rw [he]
        cases ex with
        | error st =>
          exact ⟨_, _, evs, rfl, c2, hle, c3, fun hp => Or.inl (hzero hp)⟩
        | finished wr l =>
          have hl3 := c5 wr l rfl
          by_cases hif : l > 0 ∧ l < 4
          · simp only [if_pos hif]
            refine ⟨_, _, evs ++ [FifoEvent.memcpy_carry_buf wr l], rfl, ?_, ?_, ?_, ?_⟩
            · show w'.trace ++ _ = _
              rw [c2, List.append_assoc]
            · show l.toNat ≤ 3
              omega
            · intro n hn
              cases evs with
              | nil => simp at hn
              | cons e t =>
                simp only [List.cons_append, List.tail_cons, List.mem_append,
                  List.mem_singleton] at hn
                rcases hn with h1 | h1
                · exact c3 n h1
                · cases h1
            · intro _
              exact Or.inr ⟨wr, l, by simp, hif.1, hif.2, rfl⟩
          · simp only [if_neg hif]
            exact ⟨_, _, evs, rfl, c2, hle, c3, fun hp => Or.inl (hzero hp)⟩

theorem C17_fifo_carry_invariant_witness :
    fifo_world1.write_buffer_in_use = 1 ∧
      ∃ wf, hwicap_fpga_ops_write cfg_ok 4096 false (some (List.replicate 4096 0)) [6, 7, 8]
          fifo_world1 = some (0, wf) ∧
        wf.trace = fifo_world1.trace ++ [FifoEvent.memcpy_kbuf_carry 1,
          FifoEvent.memcpy_kbuf_buf 1 0 3, FifoEvent.set_configuration [0x08070605] 0] ∧
        wf.write_buffer_in_use ≤ 3 ∧ wf.write_buffer_in_use = 0 := by
  obtain ⟨ret, wf, evs, hrun, -, hle, -, -⟩ := C17_fifo_carry_invariant cfg_ok 4096 false
    (some (List.replicate 4096 0)) [6, 7, 8] fifo_world1 (by decide) (by decide)
  have e1 : hwicap_fpga_ops_write cfg_ok 4096 false (some (List.replicate 4096 0)) [6, 7, 8]
      fifo_world1 = some (0, fifo_world2) := rfl
  rw [e1] at hrun
  simp only [Option.some.injEq, Prod.mk.injEq] at hrun
  obtain ⟨rfl, rfl⟩ := hrun
  exact ⟨rfl, _, e1, rfl, hle, rfl⟩

/-- Clearing the software-reset bit of a 32-bit control word leaves every
other bit as it was. -/
theorem testBit_clear_sw_reset (v : Nat) (hv : v < 4294967296) (i : Nat) :
    (v &&& (4294967295 - XHI_CR_SW_RESET_MASK)).testBit i = (v.testBit i && decide (i ≠ 3)) := by
  rw [Nat.testBit_and]
  by_cases hi : i < 32
  · have h1 : (4294967295 - XHI_CR_SW_RESET_MASK).testBit i = decide (i ≠ 3) := by
      unfold XHI_CR_SW_RESET_MASK
      interval_cases i <;> decide
    rw [h1]
  · have h2 : v.testBit i = false := by
      apply Nat.testBit_eq_false_of_lt
      calc v < 4294967296 := hv
        _ = 2 ^ 32 := by norm_num
        _ ≤ 2 ^ i := Nat.pow_le_pow_right (by norm_num) (by omega)
    rw [h2]; rfl

/-- Setting the software-reset bit of a control word leaves every other bit as
it was. -/
theorem testBit_set_sw_reset (v : Nat) (i : Nat) :
    (v ||| XHI_CR_SW_RESET_MASK).testBit i = (v.testBit i || decide (i = 3)) := by
  rw [Nat.testBit_or]
  have h : XHI_CR_SW_RESET_MASK = 2 ^ 3 := rfl
  rw [h, Nat.testBit_two_pow]
  by_cases h3 : i = 3
  · subst h3; simp
  · have h3' : ¬ 3 = i := fun h => h3 h.symm
    simp [h3, h3']

/-- C19. DMA variant: with supported flags `hbicap_fpga_ops_write_init` returns `0`
and leaves the state at write-init.  Its only hardware accesses are the
software-reset pulse of the configuration port: one read of the control
register (0x10C) giving `v`, a write of `v | 0x8` and a write of `v & ~0x8`, in
which all bits but the reset bit (bit 3) are as read.  No register of the
transfer engine is read or written; the mutex is not touched and `priv->flags`
holds the requested flags. -/
theorem C19_dma_write_init_reset_pulse (hw : Hw σ) (k : FlagBits)
    (feature_list info_flags : Nat) (w : World σ)
    (hsup : flags_subset (eemi_flags k info_flags) feature_list) :
    ∃ v, v = (hw.rd Base.axi_lite XHI_CR_OFFSET w.dev).1 % 4294967296 ∧
      (hbicap_fpga_ops_write_init hw k feature_list info_flags w).1 = 0 ∧
      (hbicap_fpga_ops_write_init hw k feature_list info_flags w).2.state =
        FPGA_MGR_STATE_WRITE_INIT ∧
      (hbicap_fpga_ops_write_init hw k feature_list info_flags w).2.trace = w.trace ++
        [Event.rd Base.axi_lite 0x10C v, Event.wr Base.axi_lite 0x10C (v ||| 0x8),
          Event.wr Base.axi_lite 0x10C (v &&& 0xFFFFFFF7)] ∧
      (∀ i, (v ||| 0x8).testBit i = (v.testBit i || decide (i = 3))) ∧
      (∀ i, (v &&& 0xFFFFFFF7).testBit i = (v.testBit i && decide (i ≠ 3))) ∧
      (∀ e ∈ (hbicap_fpga_ops_write_init hw k feature_list info_flags w).2.trace.drop
          w.trace.length, e.on_cdma = false) ∧
      (hbicap_fpga_ops_write_init hw k feature_list info_flags w).2.dev =
        hw.wr Base.axi_lite XHI_CR_OFFSET (v &&& 0xFFFFFFF7)
          (hw.wr Base.axi_lite XHI_CR_OFFSET (v ||| 0x8)
            (hw.rd Base.axi_lite XHI_CR_OFFSET w.dev).2) ∧
      (hbicap_fpga_ops_write_init hw k feature_list info_flags w).2.sem = w.sem ∧
      (hbicap_fpga_ops_write_init hw k feature_list info_flags w).2.flags = info_flags := by
  have h := (and_eq_iff_flags_subset (eemi_flags k info_flags) feature_list).mpr hsup
  have hd : hbicap_fpga_ops_write_init hw k feature_list info_flags w =
      (0, axi_hbicap_reset hw { w with state := FPGA_MGR_STATE_WRITE_INIT, flags := info_flags }) := by
    simp [hbicap_fpga_ops_write_init, h]
  have hv : (hw.rd Base.axi_lite XHI_CR_OFFSET w.dev).1 % 4294967296 < 4294967296 :=
    Nat.mod_lt _ (by norm_num)
  have htr : (axi_hbicap_reset hw
      { w with state := FPGA_MGR_STATE_WRITE_INIT, flags := info_flags }).trace = w.trace ++
      [Event.rd Base.axi_lite 0x10C ((hw.rd Base.axi_lite XHI_CR_OFFSET w.dev).1 % 4294967296),
        Event.wr Base.axi_lite 0x10C
          ((hw.rd Base.axi_lite XHI_CR_OFFSET w.dev).1 % 4294967296 ||| 0x8),
        Event.wr Base.axi_lite 0x10C
          ((hw.rd Base.axi_lite XHI_CR_OFFSET w.dev).1 % 4294967296 &&& 0xFFFFFFF7)] := by
    simp [axi_hbicap_reset, ioread32le, iowrite32le, XHI_CR_OFFSET, XHI_CR_SW_RESET_MASK]
  have hdev : (axi_hbicap_reset hw
      { w with state := FPGA_MGR_STATE_WRITE_INIT, flags := info_flags }).dev =
      hw.wr Base.axi_lite XHI_CR_OFFSET
        ((hw.rd Base.axi_lite XHI_CR_OFFSET w.dev).1 % 4294967296 &&& 0xFFFFFFF7)
        (hw.wr Base.axi_lite XHI_CR_OFFSET
          ((hw.rd Base.axi_lite XHI_CR_OFFSET w.dev).1 % 4294967296 ||| 0x8)
          (hw.rd Base.axi_lite XHI_CR_OFFSET w.dev).2) := by
    simp [axi_hbicap_reset, ioread32le, iowrite32le, XHI_CR_SW_RESET_MASK]
  rw [hd]
  refine ⟨_, rfl, rfl, rfl, htr, fun i => testBit_set_sw_reset _ i,
    fun i => testBit_clear_sw_reset _ hv i, ?_, hdev, rfl, rfl⟩
  intro e he
  simp only [] at he
  rw [htr, List.drop_left] at he
  simp only [List.mem_cons, List.mem_singleton, List.not_mem_nil, or_false] at he
  rcases he with rfl | rfl | rfl <;> rfl

theorem C19_dma_write_init_reset_pulse_witness :
    flags_subset (eemi_flags flag_bits0 0x1) 0x1 ∧
      hbicap_fpga_ops_write_init hw_ready flag_bits0 0x1 0x1 world0 =
        (0, { world0 with
          state := FPGA_MGR_STATE_WRITE_INIT
          flags := 0x1
          trace := [Event.rd Base.axi_lite 0x10C 0x1003, Event.wr Base.axi_lite 0x10C 0x100B,
            Event.wr Base.axi_lite 0x10C 0x1003] }) := by
  have hs : flags_subset (eemi_flags flag_bits0 0x1) 0x1 :=
    (and_eq_iff_flags_subset _ _).mp (by decide)
  obtain ⟨v, hv, h1, h2, h3, -⟩ := C19_dma_write_init_reset_pulse hw_ready flag_bits0 0x1 0x1
    world0 hs
  exact ⟨hs, rfl⟩

/-- Function `hwicap_get_configuration_register` runs up to three operations in order: the
`set_configuration` of the sync header, the `set_configuration` of the read
command, and the `get_configuration` of one word.  It stops at the first one
that fails and returns its status; it returns `0` when all three succeed. -/
theorem hwicap_get_configuration_register_trace (cfg : hwicap_driver_config σ)
    (pk : hwicap_packets) (reg : Nat) (w : FifoWorld σ) :
    (hwicap_get_configuration_register cfg pk reg w).2.2.state = w.state ∧
    (hwicap_get_configuration_register cfg pk reg w).2.2.flags = w.flags ∧
    ((hwicap_get_configuration_register cfg pk reg w).1 = 0 →
      (hwicap_get_configuration_register cfg pk reg w).2.2.trace = w.trace ++
        [FifoEvent.set_configuration [pk.XHI_DUMMY_PACKET, pk.XHI_NOOP_PACKET,
            pk.XHI_SYNC_PACKET, pk.XHI_NOOP_PACKET, pk.XHI_NOOP_PACKET] 0,
          FifoEvent.set_configuration [pk.hwicap_type_1_read reg ||| 1, pk.XHI_NOOP_PACKET,
            pk.XHI_NOOP_PACKET] 0,
          FifoEvent.get_configuration 1 0]) ∧
    ((hwicap_get_configuration_register cfg pk reg w).1 ≠ 0 →
      (hwicap_get_configuration_register cfg pk reg w).2.2.trace = w.trace ++
          [FifoEvent.set_configuration [pk.XHI_DUMMY_PACKET, pk.XHI_NOOP_PACKET,
            pk.XHI_SYNC_PACKET, pk.XHI_NOOP_PACKET, pk.XHI_NOOP_PACKET]
            (hwicap_get_configuration_register cfg pk reg w).1] ∨
        (hwicap_get_configuration_register cfg pk reg w).2.2.trace = w.trace ++
          [FifoEvent.set_configuration [pk.XHI_DUMMY_PACKET, pk.XHI_NOOP_PACKET,
              pk.XHI_SYNC_PACKET, pk.XHI_NOOP_PACKET, pk.XHI_NOOP_PACKET] 0,
            FifoEvent.set_configuration [pk.hwicap_type_1_read reg ||| 1, pk.XHI_NOOP_PACKET,
              pk.XHI_NOOP_PACKET] (hwicap_get_configuration_register cfg pk reg w).1] ∨
        (hwicap_get_configuration_register cfg pk reg w).2.2.trace = w.trace ++
          [FifoEvent.set_configuration [pk.XHI_DUMMY_PACKET, pk.XHI_NOOP_PACKET,
              pk.XHI_SYNC_PACKET, pk.XHI_NOOP_PACKET, pk.XHI_NOOP_PACKET] 0,
            FifoEvent.set_configuration [pk.hwicap_type_1_read reg ||| 1, pk.XHI_NOOP_PACKET,
              pk.XHI_NOOP_PACKET] 0,
            FifoEvent.get_configuration 1
              (hwicap_get_configuration_register cfg pk reg w).1]) := by
  unfold hwicap_get_configuration_register
  simp only []
  by_cases h1 : (fifo_set_configuration cfg [pk.XHI_DUMMY_PACKET, pk.XHI_NOOP_PACKET,
      pk.XHI_SYNC_PACKET, pk.XHI_NOOP_PACKET, pk.XHI_NOOP_PACKET] w).1 ≠ 0
  · rw [if_pos h1]
    exact ⟨rfl, rfl, fun h => absurd h h1, fun _ => Or.inl rfl⟩
  · rw [if_neg h1]
    have h1' : (cfg.set_configuration w.dev [pk.XHI_DUMMY_PACKET, pk.XHI_NOOP_PACKET,
        pk.XHI_SYNC_PACKET, pk.XHI_NOOP_PACKET, pk.XHI_NOOP_PACKET]).1 = 0 := by
      simpa [fifo_set_configuration] using h1
    by_cases h2 : (fifo_set_configuration cfg [pk.hwicap_type_1_read reg ||| 1,
        pk.XHI_NOOP_PACKET, pk.XHI_NOOP_PACKET]
        (fifo_set_configuration cfg [pk.XHI_DUMMY_PACKET, pk.XHI_NOOP_PACKET,
          pk.XHI_SYNC_PACKET, pk.XHI_NOOP_PACKET, pk.XHI_NOOP_PACKET] w).2).1 ≠ 0
    · rw [if_pos h2]
      refine ⟨rfl, rfl, fun h => absurd h h2, fun _ => Or.inr (Or.inl ?_)⟩
      simp [fifo_set_configuration, h1']
    · rw [if_neg h2]
      have h2' : (cfg.set_configuration (cfg.set_configuration w.dev [pk.XHI_DUMMY_PACKET,
          pk.XHI_NOOP_PACKET, pk.XHI_SYNC_PACKET, pk.XHI_NOOP_PACKET, pk.XHI_NOOP_PACKET]).2
          [pk.hwicap_type_1_read reg ||| 1, pk.XHI_NOOP_PACKET, pk.XHI_NOOP_PACKET]).1 = 0 := by
        simpa [fifo_set_configuration] using h2
      by_cases h3 : (fifo_get_configuration cfg 1
          (fifo_set_configuration cfg [pk.hwicap_type_1_read reg ||| 1,
            pk.XHI_NOOP_PACKET, pk.XHI_NOOP_PACKET]
            (fifo_set_configuration cfg [pk.XHI_DUMMY_PACKET, pk.XHI_NOOP_PACKET,
              pk.XHI_SYNC_PACKET, pk.XHI_NOOP_PACKET, pk.XHI_NOOP_PACKET] w).2).2).1 ≠ 0
      · rw [if_pos h3]
        refine ⟨rfl, rfl, fun h => absurd h h3, fun _ => Or.inr (Or.inr ?_)⟩
        simp [fifo_get_configuration, fifo_set_configuration, h1', h2']
      · rw [if_neg h3]
        have h3' : (cfg.get_configuration (cfg.set_configuration (cfg.set_configuration w.dev
            [pk.XHI_DUMMY_PACKET, pk.XHI_NOOP_PACKET, pk.XHI_SYNC_PACKET, pk.XHI_NOOP_PACKET,
              pk.XHI_NOOP_PACKET]).2
            [pk.hwicap_type_1_read reg ||| 1, pk.XHI_NOOP_PACKET, pk.XHI_NOOP_PACKET]).2 1).1 =
            0 := by
          simpa [fifo_get_configuration, fifo_set_configuration] using h3
        refine ⟨rfl, rfl, fun _ => ?_, fun h => absurd rfl h⟩
        simp [fifo_get_configuration, fifo_set_configuration, h1', h2', h3']

/-- C20. FIFO variant: with supported flags `hwicap_fpga_ops_write_init` runs the
reset and then the three handshake steps in order: desync (`d1`), read of the
IDCODE register (`g`), desync (`d2`), each step starting in the world the
previous one left.  It returns `0` if and only if all three steps return `0`,
and then the state is write-init and the operations performed are, in order:
reset, desync packet, sync header, read command, read of one word, desync
packet.  Otherwise it returns exactly the nonzero status of the first failing
step, in the world that step left (no later step is run) with the state set
to the write-init-error state. -/
theorem C20_fifo_write_init_handshake (cfg : hwicap_driver_config σ) (pk : hwicap_packets)
    (k : FlagBits) (feature_list info_flags : Nat) (w : FifoWorld σ)
    (hsup : flags_subset (eemi_flags k info_flags) feature_list) :
    let w0 := fifo_reset cfg { w with state := FPGA_MGR_STATE_WRITE_INIT, flags := info_flags }
    let d1 := hwicap_command_desync cfg pk w0
    let g := hwicap_get_configuration_register cfg pk config_regs_IDCODE d1.2
    let d2 := hwicap_command_desync cfg pk g.2.2
    let r := hwicap_fpga_ops_write_init cfg pk k feature_list info_flags w
    w0.trace = w.trace ++ [FifoEvent.reset] ∧
    d1.2.trace = w0.trace ++ [FifoEvent.set_configuration
      [pk.hwicap_type_1_write config_regs_CMD ||| 1, pk.XHI_CMD_DESYNCH, pk.XHI_NOOP_PACKET,
        pk.XHI_NOOP_PACKET] d1.1] ∧
    (∃ evs, g.2.2.trace = d1.2.trace ++ evs) ∧
    d2.2.trace = g.2.2.trace ++ [FifoEvent.set_configuration
      [pk.hwicap_type_1_write config_regs_CMD ||| 1, pk.XHI_CMD_DESYNCH, pk.XHI_NOOP_PACKET,
        pk.XHI_NOOP_PACKET] d2.1] ∧
    (r.1 = 0 ↔ d1.1 = 0 ∧ g.1 = 0 ∧ d2.1 = 0) ∧
    (d1.1 ≠ 0 → r = (d1.1, { d1.2 with state := FPGA_MGR_STATE_WRITE_INIT_ERR })) ∧
    (d1.1 = 0 → g.1 ≠ 0 → r = (g.1, { g.2.2 with state := FPGA_MGR_STATE_WRITE_INIT_ERR })) ∧
    (d1.1 = 0 → g.1 = 0 → d2.1 ≠ 0 →
      r = (d2.1, { d2.2 with state := FPGA_MGR_STATE_WRITE_INIT_ERR })) ∧
    (d1.1 = 0 → g.1 = 0 → d2.1 = 0 →
      r = (0, d2.2) ∧ r.2.state = FPGA_MGR_STATE_WRITE_INIT ∧
      r.2.trace = w.trace ++ [FifoEvent.reset,
        FifoEvent.set_configuration [pk.hwicap_type_1_write config_regs_CMD ||| 1,
          pk.XHI_CMD_DESYNCH, pk.XHI_NOOP_PACKET, pk.XHI_NOOP_PACKET] 0,
        FifoEvent.set_configuration [pk.XHI_DUMMY_PACKET, pk.XHI_NOOP_PACKET,
          pk.XHI_SYNC_PACKET, pk.XHI_NOOP_PACKET, pk.XHI_NOOP_PACKET] 0,
        FifoEvent.set_configuration [pk.hwicap_type_1_read config_regs_IDCODE ||| 1,
          pk.XHI_NOOP_PACKET, pk.XHI_NOOP_PACKET] 0,
        FifoEvent.get_configuration 1 0,
        FifoEvent.set_configuration [pk.hwicap_type_1_write config_regs_CMD ||| 1,
          pk.XHI_CMD_DESYNCH, pk.XHI_NOOP_PACKET, pk.XHI_NOOP_PACKET] 0]) := by
  intro w0 d1 g d2 r
  have h := (and_eq_iff_flags_subset (eemi_flags k info_flags) feature_list).mpr hsup
  have hdef : r =
      if d1.1 ≠ 0 then (d1.1, { d1.2 with state := FPGA_MGR_STATE_WRITE_INIT_ERR })
      else if g.1 ≠ 0 then (g.1, { g.2.2 with state := FPGA_MGR_STATE_WRITE_INIT_ERR })
      else if d2.1 ≠ 0 then (d2.1, { d2.2 with state := FPGA_MGR_STATE_WRITE_INIT_ERR })
      else (0, d2.2) := by
    show hwicap_fpga_ops_write_init cfg pk k feature_list info_flags w = _
    unfold hwicap_fpga_ops_write_init
    have hn : ¬ (feature_list &&& eemi_flags k info_flags ≠ eemi_flags k info_flags) := by
      simp [h]
    simp only [if_neg hn]
  obtain ⟨g1, g2, g3, g4⟩ :=
    hwicap_get_configuration_register_trace cfg pk config_regs_IDCODE d1.2
  obtain ⟨⟨gevs, g5⟩, -⟩ := hwicap_get_configuration_register_spec cfg pk config_regs_IDCODE d1.2
  have hd1tr : d1.2.trace = w0.trace ++ [FifoEvent.set_configuration
      [pk.hwicap_type_1_write config_regs_CMD ||| 1, pk.XHI_CMD_DESYNCH, pk.XHI_NOOP_PACKET,
        pk.XHI_NOOP_PACKET] d1.1] := rfl
  have hd2tr : d2.2.trace = g.2.2.trace ++ [FifoEvent.set_configuration
      [pk.hwicap_type_1_write config_regs_CMD ||| 1, pk.XHI_CMD_DESYNCH, pk.XHI_NOOP_PACKET,
        pk.XHI_NOOP_PACKET] d2.1] := rfl
  have hw0tr : w0.trace = w.trace ++ [FifoEvent.reset] := rfl
  refine ⟨hw0tr, hd1tr, ⟨gevs, g5⟩, hd2tr, ?_, ?_, ?_, ?_, ?_⟩
  · rw [hdef]
    by_cases e1 : d1.1 ≠ 0
    · rw [if_pos e1]
      exact ⟨fun h0 => absurd h0 e1, fun h0 => absurd h0.1 e1⟩
    · rw [if_neg e1]
      by_cases e2 : g.1 ≠ 0
      · rw [if_pos e2]
        exact ⟨fun h0 => absurd h0 e2, fun h0 => absurd h0.2.1 e2⟩
      · rw [if_neg e2]
        by_cases e3 : d2.1 ≠ 0
        · rw [if_pos e3]
          exact ⟨fun h0 => absurd h0 e3, fun h0 => absurd h0.2.2 e3⟩
        · rw [if_neg e3]
          exact ⟨fun _ => ⟨by simpa using e1, by simpa using e2, by simpa using e3⟩, fun _ => rfl⟩
  · intro e1
    rw [hdef, if_pos e1]
  · intro e1 e2
    rw [hdef, if_neg (by simp [e1]), if_pos e2]
  · intro e1 e2 e3
    rw [hdef, if_neg (by simp [e1]), if_neg (by simp [e2]), if_pos e3]
  · intro e1 e2 e3
    have hr : r = (0, d2.2) := by
      rw [hdef, if_neg (by simp [e1]), if_neg (by simp [e2]), if_neg (by simp [e3])]
    refine ⟨hr, ?_, ?_⟩
    · rw [hr]
      show d2.2.state = _
      have : d2.2.state = g.2.2.state := rfl
      rw [this, g1]
      rfl
    · rw [hr]
      show d2.2.trace = _
      rw [hd2tr, g3 e2, hd1tr, hw0tr, e1, e3]
      simp

theorem C20_fifo_write_init_handshake_witness :
    flags_subset (eemi_flags flag_bits0 0x1) 0x1 ∧
      hwicap_fpga_ops_write_init cfg_eio packets0 flag_bits0 0x1 0x1 fifo_world0 =
        (-5, { fifo_world0 with
          state := FPGA_MGR_STATE_WRITE_INIT_ERR
          flags := 0x1
          trace := [FifoEvent.reset,
            FifoEvent.set_configuration [0x30008001, 13, 0x20000000, 0x20000000] (-5)] }) ∧
      (hwicap_fpga_ops_write_init cfg_ok packets0 flag_bits0 0x1 0x1 fifo_world0).1 = 0 ∧
      (hwicap_fpga_ops_write_init cfg_ok packets0 flag_bits0 0x1 0x1 fifo_world0).2.state =
        FPGA_MGR_STATE_WRITE_INIT := by
  have hs : flags_subset (eemi_flags flag_bits0 0x1) 0x1 :=
    (and_eq_iff_flags_subset _ _).mp (by decide)
  have hfail := C20_fifo_write_init_handshake cfg_eio packets0 flag_bits0 0x1 0x1 fifo_world0 hs
  have hok := C20_fifo_write_init_handshake cfg_ok packets0 flag_bits0 0x1 0x1 fifo_world0 hs
  obtain ⟨-, -, -, -, -, f1, -⟩ := hfail
  obtain ⟨-, -, -, -, -, -, -, -, f2⟩ := hok
  obtain ⟨o1, o2, -⟩ := f2 rfl rfl rfl
  refine ⟨hs, ?_, ?_, o2⟩
  · rw [f1 (by decide)]
    rfl
  · rw [o1]

/-- Setting the two interrupt-enable bits (12 and 14) of a control word leaves
every other bit as it was. -/
theorem testBit_set_simple_irq (c : Nat) (i : Nat) :
    (c ||| XAXICDMA_SIMPLE_IRQ).testBit i = (c.testBit i || decide (i = 12 ∨ i = 14)) := by
  rw [Nat.testBit_or]
  have h : XAXICDMA_SIMPLE_IRQ.testBit i = decide (i = 12 ∨ i = 14) := by
    unfold XAXICDMA_SIMPLE_IRQ
    by_cases hi : i < 16
    · interval_cases i <;> decide
    · have h1 : (20480 : Nat).testBit i = false := by
        apply Nat.testBit_eq_false_of_lt
        calc (20480 : Nat) < 2 ^ 16 := by norm_num
          _ ≤ 2 ^ i := Nat.pow_le_pow_right (by norm_num) (by omega)
      have h2 : ¬ (i = 12 ∨ i = 14) := by omega
      rw [h1]; simp [h2]
  rw [h]

/-- C21. Function `axi_cdma_write`, when the idle check finds the engine idle (`v` is
the status word it read), reads the control register (giving `c`) and then
performs its register writes in this fixed order: CONTROL (0x00) with
`c | 0x5000`, in which every bit but the two interrupt-enable bits is as read;
SRC_ADDR_HIGH (0x1C); SRC_ADDR_LOW (0x18); DST_ADDR_HIGH (0x24); DST_ADDR_LOW
(0x20); and last BYTES_TO_TRANSFER (0x28) with the byte count `n`.  Only then
does it poll for completion: `axi_cdma_busy` runs in the world `wp` these
accesses left, and the value `axi_cdma_write` returns is the status of that
poll, as an `int`.  The register writes of the whole call are these six,
followed by the write-back of the completion flag unless the poll timed out,
so the byte count is written exactly once, after both address pairs. -/
theorem C21_cdma_program_order (hw : Hw σ) (a b a' b' n : Nat) (w : World σ)
    (hidle : (hw.rd Base.cdma XAXICDMA_SR_OFFSET w.dev).1 % 4294967296 &&& XAXICDMA_IDLE ≠ 0) :
    ∃ (v c st : Nat) (wp wf : World σ),
      v = (hw.rd Base.cdma XAXICDMA_SR_OFFSET w.dev).1 % 4294967296 ∧
      c = (hw.rd Base.cdma XAXICDMA_CR_OFFSET
        (hw.rd Base.cdma XAXICDMA_SR_OFFSET w.dev).2).1 % 4294967296 ∧
      wp.trace = w.trace ++
        [Event.rd Base.cdma 0x04 v, Event.rd Base.cdma 0x00 c,
          Event.wr Base.cdma 0x00 (c ||| 0x5000),
          Event.wr Base.cdma 0x1C a, Event.wr Base.cdma 0x18 b,
          Event.wr Base.cdma 0x24 a', Event.wr Base.cdma 0x20 b',
          Event.wr Base.cdma 0x28 n] ∧
      (∀ i, (c ||| 0x5000).testBit i = (c.testBit i || decide (i = 12 ∨ i = 14))) ∧
      axi_cdma_busy hw wp = some (st, wf) ∧
      axi_cdma_write hw a b a' b' n w = some (to_int st, wf) ∧
      (wf.trace.drop w.trace.length).filter Event.is_wr =
        [Event.wr Base.cdma 0x00 (c ||| 0x5000),
          Event.wr Base.cdma 0x1C a, Event.wr Base.cdma 0x18 b,
          Event.wr Base.cdma 0x24 a', Event.wr Base.cdma 0x20 b',
          Event.wr Base.cdma 0x28 n] ++
        (if st = to_u32 XACDMA_WRITE_TIMEOUT then []
          else [Event.wr Base.cdma 0x04 0x1000]) := by
  have hi : ¬ (ioread32le hw Base.cdma XAXICDMA_SR_OFFSET w).1 &&& XAXICDMA_IDLE = 0 := hidle
  have hne : (if (ioread32le hw Base.cdma XAXICDMA_SR_OFFSET w).1 &&& XAXICDMA_IDLE ≠ 0
      then 1 else 0) ≠ 0 := by simp [hi]
  obtain ⟨st, wf, m, hrun, -, -, -, hcase⟩ := axi_cdma_busy_reads hw
    (axi_cdma_set_size hw n (axi_cdma_set_destination_addr hw a' b'
      (axi_cdma_set_source_addr hw a b
        (axi_cdma_set_interrupts hw (ioread32le hw Base.cdma XAXICDMA_SR_OFFSET w).2))))
  have htp : (axi_cdma_set_size hw n (axi_cdma_set_destination_addr hw a' b'
      (axi_cdma_set_source_addr hw a b
        (axi_cdma_set_interrupts hw (ioread32le hw Base.cdma XAXICDMA_SR_OFFSET w).2)))).trace =
      w.trace ++
        [Event.rd Base.cdma 0x04 ((hw.rd Base.cdma XAXICDMA_SR_OFFSET w.dev).1 % 4294967296),
          Event.rd Base.cdma 0x00 ((hw.rd Base.cdma XAXICDMA_CR_OFFSET
            (hw.rd Base.cdma XAXICDMA_SR_OFFSET w.dev).2).1 % 4294967296),
          Event.wr Base.cdma 0x00 ((hw.rd Base.cdma XAXICDMA_CR_OFFSET
            (hw.rd Base.cdma XAXICDMA_SR_OFFSET w.dev).2).1 % 4294967296 ||| 0x5000),
          Event.wr Base.cdma 0x1C a, Event.wr Base.cdma 0x18 b,
          Event.wr Base.cdma 0x24 a', Event.wr Base.cdma 0x20 b',
          Event.wr Base.cdma 0x28 n] := by
    simp [axi_cdma_set_size, axi_cdma_set_destination_addr, axi_cdma_set_source_addr,
      axi_cdma_set_interrupts, iowrite32le, ioread32le, XAXICDMA_CR_OFFSET, XAXICDMA_SR_OFFSET,
      XAXICDMA_SRCADDR_LOWER_OFFSET, XAXICDMA_SRCADDR_HIGHER_OFFSET,
      XAXICDMA_DSTADDR_LOWER_OFFSET, XAXICDMA_DSTADDR_HIGHER_OFFSET, XAXICDMA_BTT_OFFSET,
      XAXICDMA_SIMPLE_IRQ]
  have hwrite : axi_cdma_write hw a b a' b' n w = some (to_int st, wf) := by
    unfold axi_cdma_write axi_cdma_check_IDLE
    simp only []
    rw [if_neg hne, hrun]
  refine ⟨_, _, st, _, wf, rfl, rfl, htp, fun i => testBit_set_simple_irq _ i, hrun, hwrite, ?_⟩
  rcases hcase with ⟨h1, -, h3⟩ | ⟨sr, -, -, -, h4, h5⟩
  · rw [if_pos h1, h3, htp, List.append_assoc, List.drop_left, List.filter_append,
      filter_is_wr_map_rd]
    rfl
  · have hst : st ≠ to_u32 XACDMA_WRITE_TIMEOUT := by
      rw [h5]
      by_cases herr : sr &&& XAXICDMA_ERR_IRQ ≠ 0
      · rw [if_pos herr]; decide
      · rw [if_neg herr]; decide
    rw [if_neg hst, h4, htp, List.append_assoc, List.append_assoc, List.drop_left,
      List.filter_append, List.filter_append, filter_is_wr_map_rd]
    rfl

theorem C21_cdma_program_order_witness :
    (hw_ready.rd Base.cdma XAXICDMA_SR_OFFSET world0.dev).1 % 4294967296 &&& XAXICDMA_IDLE ≠ 0 ∧
      axi_cdma_write hw_ready 0 0x70000000 0 0xA0000000 5 world0 =
        some (0, { world0 with
          trace := [Event.rd Base.cdma 0x04 0x1003, Event.rd Base.cdma 0x00 0x1003,
            Event.wr Base.cdma 0x00 0x5003, Event.wr Base.cdma 0x1C 0,
            Event.wr Base.cdma 0x18 0x70000000, Event.wr Base.cdma 0x24 0,
            Event.wr Base.cdma 0x20 0xA0000000, Event.wr Base.cdma 0x28 5,
            Event.rd Base.cdma 0x04 0x1003, Event.wr Base.cdma 0x04 0x1000] }) := by
  have hidle : (hw_ready.rd Base.cdma XAXICDMA_SR_OFFSET world0.dev).1 % 4294967296 &&&
      XAXICDMA_IDLE ≠ 0 := by decide
  obtain ⟨v, c, st, wp, wf, -, -, -, -, -, hrun, -⟩ :=
    C21_cdma_program_order hw_ready 0 0x70000000 0 0xA0000000 5 world0 hidle
  exact ⟨hidle, rfl⟩

/-- The capability mask depends on the requested flags only through the five
tests `flags & FPGA_MGR_*`. -/
theorem eemi_flags_congr (k : FlagBits) (f f' : Nat)
    (h1 : (f &&& k.FPGA_MGR_USERKEY_ENCRYPTED_BITSTREAM ≠ 0) ↔
      (f' &&& k.FPGA_MGR_USERKEY_ENCRYPTED_BITSTREAM ≠ 0))
    (h2 : (f &&& k.FPGA_MGR_ENCRYPTED_BITSTREAM ≠ 0) ↔
      (f' &&& k.FPGA_MGR_ENCRYPTED_BITSTREAM ≠ 0))
    (h3 : (f &&& k.FPGA_MGR_DDR_MEM_AUTH_BITSTREAM ≠ 0) ↔
      (f' &&& k.FPGA_MGR_DDR_MEM_AUTH_BITSTREAM ≠ 0))
    (h4 : (f &&& k.FPGA_MGR_SECURE_MEM_AUTH_BITSTREAM ≠ 0) ↔
      (f' &&& k.FPGA_MGR_SECURE_MEM_AUTH_BITSTREAM ≠ 0))
    (h5 : (f &&& k.FPGA_MGR_PARTIAL_RECONFIG ≠ 0) ↔ (f' &&& k.FPGA_MGR_PARTIAL_RECONFIG ≠ 0)) :
    eemi_flags k f = eemi_flags k f' := by
  unfold eemi_flags
  simp only [h1, h2, h3, h4, h5]

/-- The status of `hwicap_command_desync` and the device state it leaves depend
on the device state only. -/
theorem hwicap_command_desync_dev (cfg : hwicap_driver_config σ) (pk : hwicap_packets)
    (w w' : FifoWorld σ) (h : w.dev = w'.dev) :
    (hwicap_command_desync cfg pk w).1 = (hwicap_command_desync cfg pk w').1 ∧
      (hwicap_command_desync cfg pk w).2.dev = (hwicap_command_desync cfg pk w').2.dev := by
  simp [hwicap_command_desync, fifo_set_configuration, h]

/-- The status of `hwicap_get_configuration_register` and the device state it
leaves depend on the device state only. -/
theorem hwicap_get_configuration_register_dev (cfg : hwicap_driver_config σ)
    (pk : hwicap_packets) (reg : Nat) (w w' : FifoWorld σ) (h : w.dev = w'.dev) :
    (hwicap_get_configuration_register cfg pk reg w).1 =
        (hwicap_get_configuration_register cfg pk reg w').1 ∧
      (hwicap_get_configuration_register cfg pk reg w).2.2.dev =
        (hwicap_get_configuration_register cfg pk reg w').2.2.dev := by
  simp only [hwicap_get_configuration_register, fifo_set_configuration, fifo_get_configuration, h]
  split_ifs <;> simp

/-- The status `hwicap_fpga_ops_write_init` returns: `-EINVAL` for an unsupported
capability mask, else the status of the first failing handshake step, else `0`. -/
theorem hwicap_fpga_ops_write_init_status (cfg : hwicap_driver_config σ)
    (pk : hwicap_packets) (k : FlagBits) (feature_list f : Nat) (w : FifoWorld σ) :
    (hwicap_fpga_ops_write_init cfg pk k feature_list f w).1 =
      if feature_list &&& eemi_flags k f ≠ eemi_flags k f then -EINVAL
      else if (hwicap_command_desync cfg pk (fifo_reset cfg
          { w with state := FPGA_MGR_STATE_WRITE_INIT, flags := f })).1 ≠ 0 then
        (hwicap_command_desync cfg pk (fifo_reset cfg
          { w with state := FPGA_MGR_STATE_WRITE_INIT, flags := f })).1
      else if (hwicap_get_configuration_register cfg pk config_regs_IDCODE
          (hwicap_command_desync cfg pk (fifo_reset cfg
            { w with state := FPGA_MGR_STATE_WRITE_INIT, flags := f })).2).1 ≠ 0 then
        (hwicap_get_configuration_register cfg pk config_regs_IDCODE
          (hwicap_command_desync cfg pk (fifo_reset cfg
            { w with state := FPGA_MGR_STATE_WRITE_INIT, flags := f })).2).1
      else (hwicap_command_desync cfg pk
        (hwicap_get_configuration_register cfg pk config_regs_IDCODE
          (hwicap_command_desync cfg pk (fifo_reset cfg
            { w with state := FPGA_MGR_STATE_WRITE_INIT, flags := f })).2).2.2).1 := by
  unfold hwicap_fpga_ops_write_init
  simp only []
  split_ifs with h1 h2 h3 h4
  · rfl
  · rfl
  · rfl
  · rfl
  · have h4' : (hwicap_command_desync cfg pk
        (hwicap_get_configuration_register cfg pk config_regs_IDCODE
          (hwicap_command_desync cfg pk (fifo_reset cfg
            { w with state := FPGA_MGR_STATE_WRITE_INIT, flags := f })).2).2.2).1 = 0 := by
      simpa using h4
    rw [h4']

/-- The status `hwicap_fpga_ops_write_init` returns does not depend on the flags
word beyond the capability mask derived from it. -/
theorem hwicap_fpga_ops_write_init_status_congr (cfg : hwicap_driver_config σ)
    (pk : hwicap_packets) (k : FlagBits) (feature_list f f' : Nat) (w : FifoWorld σ)
    (h : eemi_flags k f = eemi_flags k f') :
    (hwicap_fpga_ops_write_init cfg pk k feature_list f w).1 =
      (hwicap_fpga_ops_write_init cfg pk k feature_list f' w).1 := by
  rw [hwicap_fpga_ops_write_init_status, hwicap_fpga_ops_write_init_status, h]
  obtain ⟨a1, a2⟩ := hwicap_command_desync_dev cfg pk
    (fifo_reset cfg { w with state := FPGA_MGR_STATE_WRITE_INIT, flags := f })
    (fifo_reset cfg { w with state := FPGA_MGR_STATE_WRITE_INIT, flags := f' }) rfl
  obtain ⟨b1, b2⟩ := hwicap_get_configuration_register_dev cfg pk config_regs_IDCODE _ _ a2
  obtain ⟨c1, -⟩ := hwicap_command_desync_dev cfg pk _ _ b2
  rw [a1, b1, c1]

/-- C24. Flag mapping of both `write_init` functions, for capability constants
that are five distinct single bits (`2^pU`, `2^pD`, `2^pA`, `2^pO`, `2^pP`).  For
every flags word `f` the capability mask `eemi_flags k f` contains the
user-key-encryption bit iff the user-key flag is set; the device-key-encryption
bit iff the encrypted flag is set and the user-key flag is clear; the
DDR-authentication bit iff the DDR-auth flag is set; the
secure-memory-authentication bit iff the secure-memory-auth flag is set and the
DDR-auth flag is clear; the partial bit iff the partial-reconfiguration flag is
set; and no other bit.  So it never holds both encryption bits or both
authentication bits.  And two flags words that agree on the five flag tests
give the same mask and the same return value of `hbicap_fpga_ops_write_init` and
of `hwicap_fpga_ops_write_init`. -/
theorem C24_flag_mapping (hw : Hw σ) (cfg : hwicap_driver_config σ) (pk : hwicap_packets)
    (k : FlagBits) (pU pD pA pO pP : Nat)
    (hU : k.XILINX_ZYNQMP_PM_FPGA_ENCRYPTION_USERKEY = 2 ^ pU)
    (hD : k.XILINX_ZYNQMP_PM_FPGA_ENCRYPTION_DEVKEY = 2 ^ pD)
    (hA : k.XILINX_ZYNQMP_PM_FPGA_AUTHENTICATION_DDR = 2 ^ pA)
    (hO : k.XILINX_ZYNQMP_PM_FPGA_AUTHENTICATION_OCM = 2 ^ pO)
    (hPb : k.XILINX_ZYNQMP_PM_FPGA_PARTIAL = 2 ^ pP)
    (hnd : [pU, pD, pA, pO, pP].Nodup) (f : Nat) :
    ((eemi_flags k f).testBit pU = true ↔ f &&& k.FPGA_MGR_USERKEY_ENCRYPTED_BITSTREAM ≠ 0) ∧
    ((eemi_flags k f).testBit pD = true ↔
      f &&& k.FPGA_MGR_ENCRYPTED_BITSTREAM ≠ 0 ∧
        f &&& k.FPGA_MGR_USERKEY_ENCRYPTED_BITSTREAM = 0) ∧
    ((eemi_flags k f).testBit pA = true ↔ f &&& k.FPGA_MGR_DDR_MEM_AUTH_BITSTREAM ≠ 0) ∧
    ((eemi_flags k f).testBit pO = true ↔
      f &&& k.FPGA_MGR_SECURE_MEM_AUTH_BITSTREAM ≠ 0 ∧
        f &&& k.FPGA_MGR_DDR_MEM_AUTH_BITSTREAM = 0) ∧
    ((eemi_flags k f).testBit pP = true ↔ f &&& k.FPGA_MGR_PARTIAL_RECONFIG ≠ 0) ∧
    (∀ i, i ∉ [pU, pD, pA, pO, pP] → (eemi_flags k f).testBit i = false) ∧
    ¬ ((eemi_flags k f).testBit pU = true ∧ (eemi_flags k f).testBit pD = true) ∧
    ¬ ((eemi_flags k f).testBit pA = true ∧ (eemi_flags k f).testBit pO = true) ∧
    (∀ f' : Nat,
      ((f' &&& k.FPGA_MGR_USERKEY_ENCRYPTED_BITSTREAM ≠ 0) ↔
        (f &&& k.FPGA_MGR_USERKEY_ENCRYPTED_BITSTREAM ≠ 0)) →
      ((f' &&& k.FPGA_MGR_ENCRYPTED_BITSTREAM ≠ 0) ↔
        (f &&& k.FPGA_MGR_ENCRYPTED_BITSTREAM ≠ 0)) →
      ((f' &&& k.FPGA_MGR_DDR_MEM_AUTH_BITSTREAM ≠ 0) ↔
        (f &&& k.FPGA_MGR_DDR_MEM_AUTH_BITSTREAM ≠ 0)) →
      ((f' &&& k.FPGA_MGR_SECURE_MEM_AUTH_BITSTREAM ≠ 0) ↔
        (f &&& k.FPGA_MGR_SECURE_MEM_AUTH_BITSTREAM ≠ 0)) →
      ((f' &&& k.FPGA_MGR_PARTIAL_RECONFIG ≠ 0) ↔ (f &&& k.FPGA_MGR_PARTIAL_RECONFIG ≠ 0)) →
      eemi_flags k f' = eemi_flags k f ∧
      (∀ (feature_list : Nat) (w : World σ),
        (hbicap_fpga_ops_write_init hw k feature_list f' w).1 =
          (hbicap_fpga_ops_write_init hw k feature_list f w).1) ∧
      (∀ (feature_list : Nat) (fw : FifoWorld σ),
        (hwicap_fpga_ops_write_init cfg pk k feature_list f' fw).1 =
          (hwicap_fpga_ops_write_init cfg pk k feature_list f fw).1)) := by
  simp only [List.nodup_cons, List.mem_cons, List.mem_singleton, List.not_mem_nil, or_false,
    not_or, List.nodup_nil, and_true, not_false_eq_true] at hnd
  obtain ⟨⟨n1, n2, n3, n4⟩, ⟨n5, n6, n7⟩, ⟨n8, n9⟩, n10⟩ := hnd
  have key : ∀ i, (eemi_flags k f).testBit i =
      ((decide (i = pU) && decide (f &&& k.FPGA_MGR_USERKEY_ENCRYPTED_BITSTREAM ≠ 0)) ||
        (decide (i = pD) && decide (f &&& k.FPGA_MGR_ENCRYPTED_BITSTREAM ≠ 0 ∧
          f &&& k.FPGA_MGR_USERKEY_ENCRYPTED_BITSTREAM = 0)) ||
        (decide (i = pA) && decide (f &&& k.FPGA_MGR_DDR_MEM_AUTH_BITSTREAM ≠ 0)) ||
        (decide (i = pO) && decide (f &&& k.FPGA_MGR_SECURE_MEM_AUTH_BITSTREAM ≠ 0 ∧
          f &&& k.FPGA_MGR_DDR_MEM_AUTH_BITSTREAM = 0)) ||
        (decide (i = pP) && decide (f &&& k.FPGA_MGR_PARTIAL_RECONFIG ≠ 0))) := by
    intro i
    unfold eemi_flags
    simp only [hU, hD, hA, hO, hPb]
    by_cases c1 : f &&& k.FPGA_MGR_USERKEY_ENCRYPTED_BITSTREAM = 0 <;>
    by_cases c2 : f &&& k.FPGA_MGR_ENCRYPTED_BITSTREAM = 0 <;>
    by_cases c3 : f &&& k.FPGA_MGR_DDR_MEM_AUTH_BITSTREAM = 0 <;>
    by_cases c4 : f &&& k.FPGA_MGR_SECURE_MEM_AUTH_BITSTREAM = 0 <;>
    by_cases c5 : f &&& k.FPGA_MGR_PARTIAL_RECONFIG = 0 <;>
    simp [c1, c2, c3, c4, c5, Nat.testBit_or, Nat.testBit_two_pow, eq_comm]
  refine ⟨?_, ?_, ?_, ?_, ?_, ?_, ?_, ?_, ?_⟩
  · rw [key]; simp [n1, n2, n3, n4]
  · rw [key]; simp [n1, n5, n6, n7, Ne.symm n1]
  · rw [key]; simp [n2, n5, n8, n9, Ne.symm n2, Ne.symm n5]
  · rw [key]; simp [n3, n6, n8, n10, Ne.symm n3, Ne.symm n6, Ne.symm n8]
  · rw [key]
    simp [n4, n7, n9, n10, Ne.symm n4, Ne.symm n7, Ne.symm n9, Ne.symm n10]
  · intro i hi
    simp only [List.mem_cons, List.mem_singleton, List.not_mem_nil, or_false, not_or] at hi
    obtain ⟨i1, i2, i3, i4, i5⟩ := hi
    rw [key]; simp [i1, i2, i3, i4, i5]
  · rw [key, key]
    simp [n1, n2, n3, n4, n5, n6, n7, Ne.symm n1]
    intro h _; exact h
  · rw [key, key]
    simp [n2, n5, n8, n9, n3, n6, n10, Ne.symm n2, Ne.symm n5, Ne.symm n3, Ne.symm n6, Ne.symm n8]
    intro h _; exact h
  · intro f' e1 e2 e3 e4 e5
    have he := eemi_flags_congr k f' f e1 e2 e3 e4 e5
    refine ⟨he, ?_, ?_⟩
    · intro feature_list w
      simp [hbicap_fpga_ops_write_init, he]
      split_ifs <;> rfl
    · intro feature_list fw
      exact hwicap_fpga_ops_write_init_status_congr cfg pk k feature_list f' f fw he

theorem C24_flag_mapping_witness :
    ([3, 4, 1, 2, 0] : List Nat).Nodup ∧
      flag_bits0.XILINX_ZYNQMP_PM_FPGA_ENCRYPTION_USERKEY = 2 ^ 3 ∧
      flag_bits0.XILINX_ZYNQMP_PM_FPGA_ENCRYPTION_DEVKEY = 2 ^ 4 ∧
      eemi_flags flag_bits0 0x24 = 0x8 ∧
      (eemi_flags flag_bits0 0x24).testBit 3 = true ∧
      (eemi_flags flag_bits0 0x24).testBit 4 = false ∧
      (hbicap_fpga_ops_write_init hw_ready flag_bits0 0x1 0x3C world0).1 =
        (hbicap_fpga_ops_write_init hw_ready flag_bits0 0x1 0x24 world0).1 := by
  have hnd : ([3, 4, 1, 2, 0] : List Nat).Nodup := by decide
  obtain ⟨h1, h2, -, -, -, -, -, -, h9⟩ := C24_flag_mapping hw_ready cfg_ok packets0 flag_bits0
    3 4 1 2 0 rfl rfl rfl rfl rfl hnd 0x24
  obtain ⟨-, h10, -⟩ := h9 0x3C (by decide) (by decide) (by decide) (by decide) (by decide)
  refine ⟨hnd, rfl, rfl, by decide, h1.mpr (by decide), ?_, h10 0x1 world0⟩
  cases hb : (eemi_flags flag_bits0 0x24).testBit 4 with
  | false => rfl
  | true => exact absurd (h2.mp hb).2 (by decide)

/-- C23. In both variants `write` never returns a positive value.
DMA variant: every call of `hbicap_fpga_ops_write` returns `0`, `-EINTR`, `-42` or
one of the three error codes of `axi_cdma_write`; and whenever its chunk loop
runs to completion `written = L`, so the remainder `size - written` is `0`.
FIFO variant: every call of `hwicap_fpga_ops_write` entered with at most 3
carried bytes returns `0`, `-EINTR`, `-EINVAL`, `-ENOMEM` or `-EFAULT`; and whenever
its chunk loop runs to completion, `written`, after the tail step has added
the 1 to 3 bytes it stores in the carry buffer, is `L`, so the remainder is `0`.
A nonzero remainder is never returned. -/
theorem C23_write_never_positive (hw : Hw σ) (drvdata : hbicap_drvdata)
    (cfg : hwicap_driver_config σ) (PAGE_SIZE : Nat) (interrupted : Bool)
    (page : Option (List Nat)) (buf : List Nat) (w : World σ) (fw : FifoWorld σ)
    (hP : 4 ≤ PAGE_SIZE) (hP32 : PAGE_SIZE < 4294967296)
    (hk : ∀ kbuf, page = some kbuf → PAGE_SIZE ≤ kbuf.length)
    (hc : fw.write_buffer_in_use ≤ 3) (hcl : fw.write_buffer_in_use ≤ fw.write_buffer.length) :
    (∃ ret wf, hbicap_fpga_ops_write hw drvdata interrupted buf w = some (ret, wf) ∧ ret ≤ 0 ∧
      (ret = 0 ∨ ret = -EINTR ∨ ret = -42 ∨ ret = XACDMA_NOT_IDLE ∨ ret = XACDMA_WRITE_ERROR ∨
        ret = XACDMA_WRITE_TIMEOUT)) ∧
    (∀ written w2,
      hbicap_write_loop hw drvdata buf (buf.length + 1) 0 buf.length
        (hbicap_write_entry hw buf w) = some (LoopExit.finished written, w2) →
      written = buf.length ∧ to_int ((buf.length : Int) - written) = 0) ∧
    (∃ ret wf, hwicap_fpga_ops_write cfg PAGE_SIZE interrupted page buf fw = some (ret, wf) ∧
      ret ≤ 0 ∧
      (ret = 0 ∨ ret = -EINTR ∨ ret = -EINVAL ∨ ret = -ENOMEM ∨ ret = -EFAULT)) ∧
    (∀ kbuf wr l w2, page = some kbuf → 4 ≤ fw.write_buffer_in_use + buf.length →
      hwicap_write_loop cfg PAGE_SIZE buf
        (((buf.length : Int) + (fw.write_buffer_in_use : Int)).toNat + 1) 0
        ((buf.length : Int) + (fw.write_buffer_in_use : Int)) kbuf
        { fw with state := FPGA_MGR_STATE_WRITE, sem := true } =
        some (FifoExit.finished wr l, w2) →
      0 ≤ l ∧ l < 4 ∧ (if l > 0 ∧ l < 4 then wr + l else wr) = buf.length ∧
        to_int ((buf.length : Int) - (if l > 0 ∧ l < 4 then wr + l else wr)) = 0) := by
  refine ⟨?_, ?_, ?_, ?_⟩
  · cases interrupted with
    | true =>
      refine ⟨-EINTR, { w with state := FPGA_MGR_STATE_WRITE_ERR, sem := mutex_unlock w.sem },
        ?_, by decide, by simp⟩
      unfold hbicap_fpga_ops_write
      simp [mutex_lock_interruptible, EINTR, to_int]
    | false =>
      obtain ⟨ret, wf, evs, vals, hrun, -, -, -, -, hret, -⟩ :=
        hbicap_fpga_ops_write_frame hw drvdata buf w
      refine ⟨ret, wf, hrun, ?_, ?_⟩
      · rcases hret with h | h | h | h | h <;> rw [h] <;> decide
      · rcases hret with h | h | h | h | h <;> simp [h]
  · intro written w2 hloop
    obtain ⟨r1, -⟩ := hbicap_write_loop_finished hw drvdata buf (buf.length + 1) 0
      0 buf.length _ w2 written (by simp) (by simp) (by intro _; simp)
      (by intro h; unfold dma_chunk_count; omega) hloop
    refine ⟨r1, ?_⟩
    rw [r1]; simp [to_int]
  · obtain ⟨ret, wf, hrun, hret, -⟩ := hwicap_fpga_ops_write_state cfg PAGE_SIZE interrupted
      page buf fw hP hP32 hk hc hcl
    refine ⟨ret, wf, hrun, ?_, hret⟩
    rcases hret with h | h | h | h | h <;> rw [h] <;> decide
  · intro kbuf wr l w2 hpage h4 hloop
    have hcast : (buf.length : Int) + (fw.write_buffer_in_use : Int) =
        ((fw.write_buffer_in_use + (buf.length - 0) : Nat) : Int) := by omega
    rw [hcast] at hloop
    obtain ⟨i1, ⟨wn', i2, i3, i4⟩, i5, -⟩ := hwicap_write_loop_finished cfg PAGE_SIZE buf hP hP32
      _ 0 (fw.write_buffer_in_use + (buf.length - 0)) kbuf
      { fw with state := FPGA_MGR_STATE_WRITE, sem := true } w2 wr l rfl (Nat.zero_le _) hc hcl
      (hk kbuf hpage) hloop
    have h3 : 3 < fw.write_buffer_in_use + (buf.length - 0) := by omega
    rw [if_pos h3] at i5
    rw [i5] at i4
    have hl0 : 0 ≤ l := by rw [i1]; exact Int.natCast_nonneg _
    have hl4 : l < 4 := by rw [i1]; omega
    have hfin : (if l > 0 ∧ l < 4 then wr + l else wr) = (buf.length : Int) := by
      by_cases hif : l > 0 ∧ l < 4
      · rw [if_pos hif, i1, i2]; omega
      · rw [if_neg hif, i2]
        have : l = 0 := by omega
        rw [this] at i1
        omega
    refine ⟨hl0, hl4, hfin, ?_⟩
    rw [hfin]; simp [to_int]

theorem C23_write_never_positive_witness :
    (∃ wf, hbicap_fpga_ops_write hw_ready drvdata0 false [1, 2, 3, 4, 5] world0 = some (0, wf)) ∧
      (∃ wf, hwicap_fpga_ops_write cfg_ok 4096 false (some (List.replicate 4096 0))
        [1, 2, 3, 4, 5] fifo_world0 = some (0, wf)) ∧
      (∃ ret wf, hbicap_fpga_ops_write hw_error drvdata0 false [1, 2, 3, 4, 5] world0 =
        some (ret, wf) ∧ ret ≤ 0) := by
  obtain ⟨⟨ret, wf, hrun, hle, -⟩, -, -, -⟩ := C23_write_never_positive hw_error drvdata0 cfg_ok
    4096 false (some (List.replicate 4096 0)) [1, 2, 3, 4, 5] world0 fifo_world0 (by decide)
    (by decide)
    (fun kbuf h => by
      simp only [Option.some.injEq] at h
      rw [← h]
      exact (List.length_replicate 4096 0).ge)
    (by decide) (by decide)
  exact ⟨⟨_, rfl⟩, ⟨fifo_world1, rfl⟩, ret, wf, hrun, hle⟩

/-- Invariant of the chunk loop of `hwicap_fpga_ops_write`: as long as
`left = write_buffer_in_use + (L - written)` with `0 ≤ written ≤ L` and at most 3
carried bytes, every copy of the loop is in bounds; and when the loop is left
normally the relation still holds, at most 3 bytes are left, and the carry
buffer has been emptied if the loop ran at all. -/
theorem hwicap_write_loop_bounds (cfg : hwicap_driver_config σ) (PAGE_SIZE : Nat)
    (buf : List Nat) (hP : 4 ≤ PAGE_SIZE) :
    ∀ (fuel : Nat) (written left : Int) (kbuf : List Nat) (w w' : FifoWorld σ) (ex : FifoExit),
      0 ≤ written → written ≤ buf.length → w.write_buffer_in_use ≤ 3 →
      left = (w.write_buffer_in_use : Int) + ((buf.length : Int) - written) →
      hwicap_write_loop cfg PAGE_SIZE buf fuel written left kbuf w = some (ex, w') →
      (∃ evs, w'.trace = w.trace ++ evs ∧
        ∀ e ∈ evs, copy_in_bounds PAGE_SIZE buf.length e = true) ∧
      (∀ wr l, ex = FifoExit.finished wr l →
        0 ≤ wr ∧ wr ≤ buf.length ∧ l ≤ 3 ∧
        l = (w'.write_buffer_in_use : Int) + ((buf.length : Int) - wr) ∧
        (3 < left → w'.write_buffer_in_use = 0)) := by
  intro fuel
  induction fuel with
  | zero => intro written left kbuf w w' ex _ _ _ _ h; simp [hwicap_write_loop] at h
  | succ n ih =>
    intro written left kbuf w w' ex hw0 hwL hc hleft h
    unfold hwicap_write_loop at h
    by_cases hgt : left > 3
    · simp only [if_pos hgt] at h
      generalize hlen : (4 * ((if left > (PAGE_SIZE : Int) then (PAGE_SIZE : Int) else left) / 4))
        = len at h
      have hlen4 : 4 ≤ len ∧ len ≤ left ∧ len ≤ (PAGE_SIZE : Int) ∧ len % 4 = 0 := by
        rw [← hlen]
        by_cases hp : left > (PAGE_SIZE : Int)
        · rw [if_pos hp]; omega
        · rw [if_neg hp]; omega
      obtain ⟨l1, l2, l3, l4⟩ := hlen4
      by_cases h0 : w.write_buffer_in_use = 0
      · have hn0 : ¬ (w.write_buffer_in_use ≠ 0) := by simp [h0]
        simp only [if_neg hn0] at h
        generalize hr : fifo_set_configuration cfg
          (load_words (memcpy kbuf 0 (buf.drop written.toNat) len) (to_u32 (len / 4)))
          { w with trace := w.trace ++ [FifoEvent.memcpy_kbuf_buf 0 written len] } = r at h
        have hr1 : r.2.write_buffer_in_use = 0 := by rw [← hr]; exact h0
        have hr3 : r.2.trace = w.trace ++ [FifoEvent.memcpy_kbuf_buf 0 written len,
            FifoEvent.set_configuration
              (load_words (memcpy kbuf 0 (buf.drop written.toNat) len) (to_u32 (len / 4)))
              r.1] := by
          rw [← hr]; simp [fifo_set_configuration]
        have hrn0 : ¬ (r.2.write_buffer_in_use ≠ 0) := by simp [hr1]
        have hb : ∀ e ∈ [FifoEvent.memcpy_kbuf_buf 0 written len,
            FifoEvent.set_configuration
              (load_words (memcpy kbuf 0 (buf.drop written.toNat) len) (to_u32 (len / 4)))
              r.1], copy_in_bounds PAGE_SIZE buf.length e = true := by
          intro e he
          simp only [List.mem_cons, List.mem_singleton, List.not_mem_nil, or_false] at he
          rcases he with rfl | rfl
          · simp only [copy_in_bounds, decide_eq_true_eq]
            rw [h0] at hleft
            omega
          · rfl
        by_cases hst : r.1 ≠ 0
        · simp only [if_pos hst] at h
          simp only [Option.some.injEq, Prod.mk.injEq] at h
          obtain ⟨rfl, rfl⟩ := h
          exact ⟨⟨_, hr3, hb⟩, fun wr l hx => by cases hx⟩
        · simp only [if_neg hst, if_neg hrn0] at h
          obtain ⟨⟨evs, i1, i2⟩, i3⟩ := ih (written + len) (left - len) _ r.2 w' ex
            (by omega) (by rw [h0] at hleft; omega) (by rw [hr1]; omega)
            (by rw [hr1]; rw [h0] at hleft; omega) h
          obtain ⟨j1, -⟩ := hwicap_write_loop_no_carry cfg PAGE_SIZE buf _ _ _ _ _ _ _ hr1 h
          refine ⟨⟨_, by rw [i1, hr3, List.append_assoc], ?_⟩, ?_⟩
          · intro e he
            rcases List.mem_append.mp he with h1 | h1
            · exact hb e h1
            · exact i2 e h1
          · intro wr l hx
            obtain ⟨k1, k2, k3, k4, -⟩ := i3 wr l hx
            exact ⟨k1, k2, k3, k4, fun _ => j1⟩
      · have hn0 : w.write_buffer_in_use ≠ 0 := h0
        simp only [if_pos hn0] at h
        generalize hr : fifo_set_configuration cfg
          (load_words (memcpy (memcpy kbuf 0 w.write_buffer (w.write_buffer_in_use : Int))
            w.write_buffer_in_use (buf.drop written.toNat) (len - (w.write_buffer_in_use : Int)))
            (to_u32 (len / 4)))
          { w with trace := w.trace ++ [FifoEvent.memcpy_kbuf_carry (w.write_buffer_in_use : Int),
            FifoEvent.memcpy_kbuf_buf (w.write_buffer_in_use : Int) written
              (len - (w.write_buffer_in_use : Int))] } = r at h
        have hr1 : r.2.write_buffer_in_use = w.write_buffer_in_use := by rw [← hr]; rfl
        have hr3 : r.2.trace = w.trace ++
            [FifoEvent.memcpy_kbuf_carry (w.write_buffer_in_use : Int),
              FifoEvent.memcpy_kbuf_buf (w.write_buffer_in_use : Int) written
                (len - (w.write_buffer_in_use : Int)),
              FifoEvent.set_configuration
                (load_words (memcpy (memcpy kbuf 0 w.write_buffer (w.write_buffer_in_use : Int))
                  w.write_buffer_in_use (buf.drop written.toNat)
                  (len - (w.write_buffer_in_use : Int))) (to_u32 (len / 4))) r.1] := by
          rw [← hr]; simp [fifo_set_configuration]
        have hrn0 : r.2.write_buffer_in_use ≠ 0 := by rw [hr1]; exact h0
        have hb : ∀ e ∈ [FifoEvent.memcpy_kbuf_carry (w.write_buffer_in_use : Int),
              FifoEvent.memcpy_kbuf_buf (w.write_buffer_in_use : Int) written
                (len - (w.write_buffer_in_use : Int)),
              FifoEvent.set_configuration
                (load_words (memcpy (memcpy kbuf 0 w.write_buffer (w.write_buffer_in_use : Int))
                  w.write_buffer_in_use (buf.drop written.toNat)
                  (len - (w.write_buffer_in_use : Int))) (to_u32 (len / 4))) r.1],
            copy_in_bounds PAGE_SIZE buf.length e = true := by
          intro e he
          simp only [List.mem_cons, List.mem_singleton, List.not_mem_nil, or_false] at he
          rcases he with rfl | rfl | rfl
          · simp only [copy_in_bounds, decide_eq_true_eq]
            omega
          · simp only [copy_in_bounds, decide_eq_true_eq]
            omega
          · rfl
        by_cases hst : r.1 ≠ 0
        · simp only [if_pos hst] at h
          simp only [Option.some.injEq, Prod.mk.injEq] at h
          obtain ⟨rfl, rfl⟩ := h
          exact ⟨⟨_, hr3, hb⟩, fun wr l hx => by cases hx⟩
        · simp only [if_neg hst, if_pos hrn0] at h
          obtain ⟨⟨evs, i1, i2⟩, i3⟩ := ih _ _ _ _ w' ex
            (by omega) (by omega) (by show (0 : Nat) ≤ 3; omega)
            (by show _ = ((0 : Nat) : Int) + _; omega) h
          obtain ⟨j1, -⟩ := hwicap_write_loop_no_carry cfg PAGE_SIZE buf _ _ _ _ _ _ _ rfl h
          refine ⟨⟨_, by rw [i1]; show r.2.trace ++ evs = _; rw [hr3, List.append_assoc], ?_⟩, ?_⟩
          · intro e he
            rcases List.mem_append.mp he with h1 | h1
            · exact hb e h1
            · exact i2 e h1
          · intro wr l hx
            obtain ⟨k1, k2, k3, k4, -⟩ := i3 wr l hx
            exact ⟨k1, k2, k3, k4, fun _ => j1⟩
    · simp only [if_neg hgt] at h
      simp only [Option.some.injEq, Prod.mk.injEq] at h
      obtain ⟨rfl, rfl⟩ := h
      refine ⟨⟨[], by simp, by simp⟩, ?_⟩
      intro wr l hx
      simp only [FifoExit.finished.injEq] at hx
      obtain ⟨rfl, rfl⟩ := hx
      exact ⟨hw0, hwL, by omega, hleft, fun h3 => absurd h3 hgt⟩

/-- C22. FIFO variant, buffer-bounds safety of `hwicap_fpga_ops_write`: every call
entered with at most 3 carried bytes returns, and every copy it makes is in
bounds, for a caller buffer of `L` bytes and a scratch page of `PAGE_SIZE` bytes.
A copy from the carry buffer into the scratch page moves `c` bytes,
`1 ≤ c ≤ 3`.  A copy of `n` bytes from offset `s` of the caller buffer to offset
`d` of the scratch page has `0 ≤ s`, `0 ≤ n` (so `len - c` is never negative) and
`s + n ≤ L`, and the chunk `d + n` it completes is a positive multiple of 4 and
at most `PAGE_SIZE`, with `d ≤ 3`.  The copy of the tail into the carry buffer
moves `n` bytes, `1 ≤ n ≤ 3`, from offset `s` with `0 ≤ s` and `s + n ≤ L`. -/
theorem C22_fifo_copies_in_bounds (cfg : hwicap_driver_config σ) (PAGE_SIZE : Nat)
    (interrupted : Bool) (page : Option (List Nat)) (buf : List Nat) (w : FifoWorld σ)
    (hP : 4 ≤ PAGE_SIZE) (hc : w.write_buffer_in_use ≤ 3) :
    ∃ (ret : Int) (wf : FifoWorld σ) (evs : List FifoEvent),
      hwicap_fpga_ops_write cfg PAGE_SIZE interrupted page buf w = some (ret, wf) ∧
      wf.trace = w.trace ++ evs ∧
      (∀ c, FifoEvent.memcpy_kbuf_carry c ∈ evs → 0 < c ∧ c ≤ 3) ∧
      (∀ d s n, FifoEvent.memcpy_kbuf_buf d s n ∈ evs →
        0 ≤ s ∧ 0 ≤ n ∧ s + n ≤ (buf.length : Int) ∧ 0 ≤ d ∧ d ≤ 3 ∧
        0 < d + n ∧ d + n ≤ (PAGE_SIZE : Int) ∧ (d + n) % 4 = 0) ∧
      (∀ s n, FifoEvent.memcpy_carry_buf s n ∈ evs →
        0 < n ∧ n ≤ 3 ∧ 0 ≤ s ∧ s + n ≤ (buf.length : Int)) := by
  have hsuff : ∀ (ret : Int) (wf : FifoWorld σ) (evs : List FifoEvent),
      hwicap_fpga_ops_write cfg PAGE_SIZE interrupted page buf w = some (ret, wf) →
      wf.trace = w.trace ++ evs →
      (∀ e ∈ evs, copy_in_bounds PAGE_SIZE buf.length e = true) →
      ∃ (ret : Int) (wf : FifoWorld σ) (evs : List FifoEvent),
        hwicap_fpga_ops_write cfg PAGE_SIZE interrupted page buf w = some (ret, wf) ∧
        wf.trace = w.trace ++ evs ∧
        (∀ c, FifoEvent.memcpy_kbuf_carry c ∈ evs → 0 < c ∧ c ≤ 3) ∧
        (∀ d s n, FifoEvent.memcpy_kbuf_buf d s n ∈ evs →
          0 ≤ s ∧ 0 ≤ n ∧ s + n ≤ (buf.length : Int) ∧ 0 ≤ d ∧ d ≤ 3 ∧
          0 < d + n ∧ d + n ≤ (PAGE_SIZE : Int) ∧ (d + n) % 4 = 0) ∧
        (∀ s n, FifoEvent.memcpy_carry_buf s n ∈ evs →
          0 < n ∧ n ≤ 3 ∧ 0 ≤ s ∧ s + n ≤ (buf.length : Int)) := by
    intro ret wf evs hrun htr hb
    refine ⟨ret, wf, evs, hrun, htr, ?_, ?_, ?_⟩
    · intro c hm
      have := hb _ hm
      simpa only [copy_in_bounds, decide_eq_true_eq] using this
    · intro d s n hm
      have := hb _ hm
      simp only [copy_in_bounds, decide_eq_true_eq] at this
      obtain ⟨a1, a2, a3, a4, a5, a6, a7, a8⟩ := this
      exact ⟨a4, a3, a5, a1, a2, a6, a7, a8⟩
    · intro s n hm
      have := hb _ hm
      simpa only [copy_in_bounds, decide_eq_true_eq] using this
  have hcore : ∃ (ret : Int) (wf : FifoWorld σ) (evs : List FifoEvent),
      hwicap_fpga_ops_write cfg PAGE_SIZE interrupted page buf w = some (ret, wf) ∧
      wf.trace = w.trace ++ evs ∧
      (∀ e ∈ evs, copy_in_bounds PAGE_SIZE buf.length e = true) := by
    cases interrupted with
    | true =>
      refine ⟨-EINTR, { w with state := FPGA_MGR_STATE_WRITE_ERR, sem := mutex_unlock w.sem },
        [], ?_, by simp, by simp⟩
      unfold hwicap_fpga_ops_write
      simp [mutex_lock_interruptible, EINTR, to_int]
    | false =>
      by_cases h4 : (buf.length : Int) + (w.write_buffer_in_use : Int) < 4
      · refine ⟨-EINVAL, { w with state := FPGA_MGR_STATE_WRITE_ERR, sem := false }, [], ?_,
          by simp, by simp⟩
        unfold hwicap_fpga_ops_write
        simp only [mutex_lock_interruptible, Bool.false_eq_true, if_false, ne_eq,
          not_true_eq_false, if_pos h4]
        rfl
      · cases page with
        | none =>
          refine ⟨-ENOMEM, { w with state := FPGA_MGR_STATE_WRITE_ERR, sem := false }, [], ?_,
            by simp, by simp⟩
          unfold hwicap_fpga_ops_write
          simp only [mutex_lock_interruptible, Bool.false_eq_true, if_false, ne_eq,
            not_true_eq_false, if_neg h4]
          rfl
        | some kbuf =>
          obtain ⟨ex, w', evs0, he, -⟩ := hwicap_write_loop_total cfg PAGE_SIZE buf hP
            (((buf.length : Int) + (w.write_buffer_in_use : Int)).toNat + 1) 0
            ((buf.length : Int) + (w.write_buffer_in_use : Int)) kbuf
            { w with state := FPGA_MGR_STATE_WRITE, sem := true } (Nat.lt_succ_self _)
          have hl : (buf.length : Int) + (w.write_buffer_in_use : Int) =
              (w.write_buffer_in_use : Int) + ((buf.length : Int) - 0) := by omega
          obtain ⟨⟨evs, c2, c3⟩, c4⟩ := hwicap_write_loop_bounds cfg PAGE_SIZE buf hP _ _ _ _
            { w with state := FPGA_MGR_STATE_WRITE, sem := true } _ _
            (le_refl 0) (Int.natCast_nonneg _) hc hl he
          unfold hwicap_fpga_ops_write
          simp only [mutex_lock_interruptible, Bool.false_eq_true, if_false, ne_eq,
            not_true_eq_false, if_neg h4]
          rw [he]
          cases ex with
          | error st =>
            exact ⟨_, _, evs, rfl, c2, c3⟩
          | finished wr l =>
            obtain ⟨k1, k2, k3, k4, k5⟩ := c4 wr l rfl
            have hz : w'.write_buffer_in_use = 0 := k5 (by omega)
            by_cases hif : l > 0 ∧ l < 4
            · simp only [if_pos hif]
              refine ⟨_, _, evs ++ [FifoEvent.memcpy_carry_buf wr l], rfl, ?_, ?_⟩
              · show w'.trace ++ _ = _
                rw [c2, List.append_assoc]
              · intro e he'
                rcases List.mem_append.mp he' with h1 | h1
                · exact c3 e h1
                · simp only [List.mem_singleton] at h1
                  subst h1
                  simp only [copy_in_bounds, decide_eq_true_eq]
                  rw [hz] at k4
                  omega
            · simp only [if_neg hif]
              exact ⟨_, _, evs, rfl, c2, c3⟩
  obtain ⟨ret, wf, evs, hrun, htr, hb⟩ := hcore
  exact hsuff ret wf evs hrun htr hb

theorem C22_fifo_copies_in_bounds_witness :
    fifo_world1.write_buffer_in_use ≤ 3 ∧
      ∃ wf, hwicap_fpga_ops_write cfg_ok 4096 false (some (List.replicate 4096 0))
          [6, 7, 8, 9, 10] fifo_world1 = some (0, wf) ∧
        wf.trace = fifo_world1.trace ++ [FifoEvent.memcpy_kbuf_carry 1,
          FifoEvent.memcpy_kbuf_buf 1 0 3, FifoEvent.set_configuration [0x08070605] 0,
          FifoEvent.memcpy_carry_buf 3 2] := by
  obtain ⟨ret, wf, evs, hrun, -⟩ := C22_fifo_copies_in_bounds cfg_ok 4096 false
    (some (List.replicate 4096 0)) [6, 7, 8, 9, 10] fifo_world1 (by decide) (by decide)
  exact ⟨by decide, _, rfl, rfl⟩

/-- When all `⌈L/4096⌉` chunk transfers of a request succeed, the chunk loop of
`hbicap_fpga_ops_write` runs through all of them and is left normally, with
`written = L`, in the world the last transfer left. -/
theorem hbicap_write_loop_of_chunks_done (hw : Hw σ) (drvdata : hbicap_drvdata)
    (buf : List Nat) (w0 w2 : World σ)
    (hdone : hbicap_chunks_done hw drvdata buf (dma_chunk_count buf.length) w0 = some w2) :
    hbicap_write_loop hw drvdata buf (buf.length + 1) 0 buf.length w0 =
      some (LoopExit.finished buf.length, w2) := by
  cases hcount : dma_chunk_count buf.length with
  | zero =>
    have hL : buf.length = 0 := by unfold dma_chunk_count at hcount; omega
    rw [hcount] at hdone
    simp only [hbicap_chunks_done, Option.some.injEq] at hdone
    subst hdone
    rw [hL]
    rfl
  | succ k =>
    rw [hcount] at hdone
    have hk1 : 4096 * k < buf.length := by unfold dma_chunk_count at hcount; omega
    have hk2 : buf.length ≤ 4096 * (k + 1) := by unfold dma_chunk_count at hcount; omega
    simp only [hbicap_chunks_done] at hdone
    cases hd : hbicap_chunks_done hw drvdata buf k w0 with
    | none => rw [hd] at hdone; simp at hdone
    | some wk =>
      rw [hd] at hdone
      simp only [] at hdone
      cases hc : hbicap_write_chunk hw drvdata buf ((4096 * k : Nat) : Int)
          ((buf.length : Int) - ((4096 * k : Nat) : Int)) wk with
      | none => rw [hc] at hdone; simp at hdone
      | some r =>
        obtain ⟨st, w'⟩ := r
        rw [hc] at hdone
        simp only [] at hdone
        by_cases hst : st = 0
        · rw [if_pos hst] at hdone
          simp only [Option.some.injEq] at hdone
          subst hdone
          subst hst
          obtain ⟨hloop, -⟩ := hbicap_write_loop_unroll hw drvdata buf w0 k wk (by omega) hd
          have e : buf.length + 1 = (buf.length - 1 - k) + 1 + 1 + k := by omega
          rw [e, hloop, hbicap_write_loop]
          have hpos : (buf.length : Int) - ((4096 * k : Nat) : Int) > 0 := by omega
          simp only [if_pos hpos, hc, ne_eq, not_true_eq_false, if_false]
          rw [hbicap_write_loop]
          have hlen : (if (buf.length : Int) - ((4096 * k : Nat) : Int) < 4096
              then (buf.length : Int) - ((4096 * k : Nat) : Int) else 4096) =
              (buf.length : Int) - ((4096 * k : Nat) : Int) := by
            by_cases h4 : (buf.length : Int) - ((4096 * k : Nat) : Int) < 4096
            · rw [if_pos h4]
            · rw [if_neg h4]; omega
          rw [hlen]
          have hz : ¬ ((buf.length : Int) - ((4096 * k : Nat) : Int) -
              ((buf.length : Int) - ((4096 * k : Nat) : Int)) > 0) := by omega
          simp only [if_neg hz]
          have hw : ((4096 * k : Nat) : Int) + ((buf.length : Int) - ((4096 * k : Nat) : Int)) =
              (buf.length : Int) := by omega
          rw [hw]
        · rw [if_neg hst] at hdone
          simp at hdone

/-- Every value in `cdma_status_reads` is an answer of the device to a read of the
engine's status register. -/
theorem cdma_status_reads_mem (hw : Hw σ) :
    ∀ (n : Nat) (s : σ) (v : Nat), v ∈ cdma_status_reads hw n s →
      ∃ s', v = (hw.rd Base.cdma XAXICDMA_SR_OFFSET s').1 % 4294967296 := by
  intro n
  induction n with
  | zero => intro s v h; simp [cdma_status_reads] at h
  | succ n ih =>
    intro s v h
    simp only [cdma_status_reads, List.mem_cons] at h
    rcases h with h | h
    · exact ⟨s, h⟩
    · exact ih _ v h

/-- On a device whose engine status register always reads idle and complete
without error, `axi_cdma_write` succeeds. -/
theorem axi_cdma_write_of_ready (hw : Hw σ)
    (hgood : ∀ s, (hw.rd Base.cdma XAXICDMA_SR_OFFSET s).1 % 4294967296 &&& XAXICDMA_IDLE ≠ 0 ∧
      (hw.rd Base.cdma XAXICDMA_SR_OFFSET s).1 % 4294967296 &&& XACDMA_IOC_IRQ ≠ 0 ∧
      (hw.rd Base.cdma XAXICDMA_SR_OFFSET s).1 % 4294967296 &&& XAXICDMA_ERR_IRQ = 0)
    (a b a' b' n : Nat) (w : World σ) :
    ∃ w', axi_cdma_write hw a b a' b' n w = some (0, w') := by
  have hi : ¬ (ioread32le hw Base.cdma XAXICDMA_SR_OFFSET w).1 &&& XAXICDMA_IDLE = 0 :=
    (hgood w.dev).1
  have hne : (if (ioread32le hw Base.cdma XAXICDMA_SR_OFFSET w).1 &&& XAXICDMA_IDLE ≠ 0
      then 1 else 0) ≠ 0 := by simp [hi]
  obtain ⟨st, wf, m, hrun, hm1, -, hdl, hcase⟩ := axi_cdma_busy_reads hw
    (axi_cdma_set_size hw n (axi_cdma_set_destination_addr hw a' b'
      (axi_cdma_set_source_addr hw a b
        (axi_cdma_set_interrupts hw (ioread32le hw Base.cdma XAXICDMA_SR_OFFSET w).2))))
  have hwrite : axi_cdma_write hw a b a' b' n w = some (to_int st, wf) := by
    unfold axi_cdma_write axi_cdma_check_IDLE
    simp only []
    rw [if_neg hne, hrun]
  rw [hwrite]
  rcases hcase with ⟨-, h2, -⟩ | ⟨sr, h1, -, -, -, h5⟩
  · exfalso
    have hlen := cdma_status_reads_length hw m
      (axi_cdma_set_size hw n (axi_cdma_set_destination_addr hw a' b'
        (axi_cdma_set_source_addr hw a b
          (axi_cdma_set_interrupts hw (ioread32le hw Base.cdma XAXICDMA_SR_OFFSET w).2)))).dev
    have hnil : (cdma_status_reads hw m
      (axi_cdma_set_size hw n (axi_cdma_set_destination_addr hw a' b'
        (axi_cdma_set_source_addr hw a b
          (axi_cdma_set_interrupts hw (ioread32le hw Base.cdma XAXICDMA_SR_OFFSET w).2)))).dev
        ).dropLast ≠ [] := by
      intro h
      have := congrArg List.length h
      rw [List.length_dropLast, hlen, h2] at this
      simp [XACDMA_MAX_RETRIES] at this
    obtain ⟨v, hv⟩ := List.exists_mem_of_ne_nil _ hnil
    obtain ⟨s', hs'⟩ := cdma_status_reads_mem hw _ _ v (List.mem_of_mem_dropLast hv)
    have := hdl v hv
    rw [hs'] at this
    exact (hgood s').2.1 this
  · obtain ⟨s', hs'⟩ := cdma_status_reads_mem hw _ _ sr (List.mem_of_getLast?_eq_some h1)
    have herr : ¬ (sr &&& XAXICDMA_ERR_IRQ ≠ 0) := by
      rw [hs']; simp [(hgood s').2.2]
    rw [if_neg herr] at h5
    rw [h5]
    exact ⟨wf, rfl⟩

/-- On a device whose engine status register always reads idle and complete
without error, every chunk transfer succeeds. -/
theorem hbicap_chunks_done_of_ready (hw : Hw σ) (drvdata : hbicap_drvdata) (buf : List Nat)
    (hgood : ∀ s, (hw.rd Base.cdma XAXICDMA_SR_OFFSET s).1 % 4294967296 &&& XAXICDMA_IDLE ≠ 0 ∧
      (hw.rd Base.cdma XAXICDMA_SR_OFFSET s).1 % 4294967296 &&& XACDMA_IOC_IRQ ≠ 0 ∧
      (hw.rd Base.cdma XAXICDMA_SR_OFFSET s).1 % 4294967296 &&& XAXICDMA_ERR_IRQ = 0) :
    ∀ (k : Nat) (w : World σ), ∃ wk, hbicap_chunks_done hw drvdata buf k w = some wk := by
  intro k
  induction k with
  | zero => intro w; exact ⟨w, rfl⟩
  | succ k ih =>
    intro w
    obtain ⟨wk, hk⟩ := ih w
    simp only [hbicap_chunks_done, hk]
    obtain ⟨w', hw'⟩ := axi_cdma_write_of_ready hw hgood 0
      (drvdata.ddr_phys_base_addr % 4294967296)
      drvdata.axi_data_phys_base_higher drvdata.axi_data_phys_base_lower
      (to_u32 (if (buf.length : Int) - ((4096 * k : Nat) : Int) < 4096
        then (buf.length : Int) - ((4096 * k : Nat) : Int) else 4096))
      { wk with trace := wk.trace ++ [Event.stage ((4096 * k : Nat) : Int)
        (if (buf.length : Int) - ((4096 * k : Nat) : Int) < 4096
          then (buf.length : Int) - ((4096 * k : Nat) : Int) else 4096)
        (buf_read buf ((4096 * k : Nat) : Int)
          (if (buf.length : Int) - ((4096 * k : Nat) : Int) < 4096
            then (buf.length : Int) - ((4096 * k : Nat) : Int) else 4096))] }
    have hc : hbicap_write_chunk hw drvdata buf ((4096 * k : Nat) : Int)
        ((buf.length : Int) - ((4096 * k : Nat) : Int)) wk = some (0, w') := hw'
    rw [hc]
    exact ⟨w', rfl⟩

theorem hw_ready_good (s : Unit) :
    (hw_ready.rd Base.cdma XAXICDMA_SR_OFFSET s).1 % 4294967296 &&& XAXICDMA_IDLE ≠ 0 ∧
      (hw_ready.rd Base.cdma XAXICDMA_SR_OFFSET s).1 % 4294967296 &&& XACDMA_IOC_IRQ ≠ 0 ∧
      (hw_ready.rd Base.cdma XAXICDMA_SR_OFFSET s).1 % 4294967296 &&& XAXICDMA_ERR_IRQ = 0 := by
  show 0x1003 % 4294967296 &&& 0x2 ≠ 0 ∧ 0x1003 % 4294967296 &&& 0x1000 ≠ 0 ∧
    0x1003 % 4294967296 &&& 0x4000 = 0
  decide

theorem hw_never_done_good (s : Unit) :
    (hw_never_done.rd Base.cdma XAXICDMA_SR_OFFSET s).1 % 4294967296 &&& XAXICDMA_IDLE ≠ 0 ∧
      (hw_never_done.rd Base.cdma XAXICDMA_SR_OFFSET s).1 % 4294967296 &&& XACDMA_IOC_IRQ ≠ 0 ∧
      (hw_never_done.rd Base.cdma XAXICDMA_SR_OFFSET s).1 % 4294967296 &&&
        XAXICDMA_ERR_IRQ = 0 := by
  show 0x1002 % 4294967296 &&& 0x2 ≠ 0 ∧ 0x1002 % 4294967296 &&& 0x1000 ≠ 0 ∧
    0x1002 % 4294967296 &&& 0x4000 = 0
  decide

/-- The byte counts programmed into the engine while all `⌈L/4096⌉` chunk
transfers of a request succeed: `min(4096, L - 4096*k)` for chunk `k`, in order. -/
theorem hbicap_chunks_done_btt_writes (hw : Hw σ) (drvdata : hbicap_drvdata)
    (buf : List Nat) (w w2 : World σ)
    (hdone : hbicap_chunks_done hw drvdata buf (dma_chunk_count buf.length)
      (hbicap_write_entry hw buf w) = some w2) :
    btt_writes w2.trace = btt_writes w.trace ++
      (List.range (dma_chunk_count buf.length)).map
        (fun k => min 4096 (buf.length - 4096 * k)) := by
  have hok := hbicap_write_loop_of_chunks_done hw drvdata buf _ w2 hdone
  obtain ⟨-, -, -, -, -, r6⟩ := hbicap_write_loop_finished hw drvdata buf (buf.length + 1) 0
    0 buf.length _ w2 buf.length (by simp) (by simp) (by intro _; simp)
    (by intro h; unfold dma_chunk_count; omega) hok
  rw [r6, (staged_hbicap_write_entry hw buf w).2, List.range_eq_range']
  simp

/-- C1. DMA variant: for every request of `L` bytes in which every engine
transfer succeeds (each of the `⌈L/4096⌉` chunk transfers, taken in order from
the world the previous one left, returns status 0), the chunk loop of
`hbicap_fpga_ops_write` runs through all of them and ends with `written = L`
(remainder 0), the call returns, and the chunks it staged and handed to
`axi_cdma_write` are the caller's buffer cut, in order, into `⌈L/4096⌉`
consecutive pieces: chunk `k` is copied from offset `4096*k`, consists of the
bytes `[4096*k, min(4096*(k+1), L))`, its byte count `min(4096, L - 4096*k)` is
the value written to the engine's byte-count register, and every chunk but
possibly the last has exactly 4096 bytes; `L = 4096` gives exactly one chunk. -/
theorem C1_dma_chunks_cut_buffer (hw : Hw σ) (drvdata : hbicap_drvdata) (buf : List Nat)
    (w w2 : World σ)
    (hdone : hbicap_chunks_done hw drvdata buf (dma_chunk_count buf.length)
      (hbicap_write_entry hw buf w) = some w2) :
    hbicap_write_loop hw drvdata buf (buf.length + 1) 0 buf.length
        (hbicap_write_entry hw buf w) = some (LoopExit.finished buf.length, w2) ∧
    ∃ ret wf, hbicap_fpga_ops_write hw drvdata false buf w = some (ret, wf) ∧
      staged wf.trace = staged w.trace ++
        (List.range (dma_chunk_count buf.length)).map (dma_chunk buf) ∧
      btt_writes wf.trace = btt_writes w.trace ++
        (List.range (dma_chunk_count buf.length)).map
          (fun k => min 4096 (buf.length - 4096 * k)) ∧
      (∀ k, k < dma_chunk_count buf.length →
        (dma_chunk buf k).2.2 = (buf.drop (4096 * k)).take (min 4096 (buf.length - 4096 * k)) ∧
        (dma_chunk buf k).2.2.length = min 4096 (buf.length - 4096 * k) ∧
        0 < (dma_chunk buf k).2.2.length) ∧
      (∀ k, k + 1 < dma_chunk_count buf.length → (dma_chunk buf k).2.2.length = 4096) ∧
      dma_chunk_count 4096 = 1 := by
  have hok := hbicap_write_loop_of_chunks_done hw drvdata buf _ w2 hdone
  refine ⟨hok, ?_⟩
  obtain ⟨-, -, -, -, r5, r6⟩ := hbicap_write_loop_finished hw drvdata buf (buf.length + 1) 0
    0 buf.length _ w2 buf.length (by simp) (by simp) (by intro _; simp)
    (by intro h; unfold dma_chunk_count; omega) hok
  obtain ⟨e1, e2⟩ := staged_hbicap_write_entry hw buf w
  obtain ⟨t, w3, vals, he, hs, hst, hf, htr, -⟩ :=
    hbicap_busy_wait_spec hw (XHI_MAX_RETRIES + 1) 0 w2 (Nat.zero_le _) (by omega)
  have hchunks : staged w3.trace = staged w.trace ++
      (List.range (dma_chunk_count buf.length)).map (dma_chunk buf) := by
    rw [htr, staged_append, staged_map_rd, List.append_nil, r5, e1, List.range_eq_range']
    simp
  have hbtt : btt_writes w3.trace = btt_writes w.trace ++
      (List.range (dma_chunk_count buf.length)).map
        (fun k => min 4096 (buf.length - 4096 * k)) := by
    rw [htr, btt_writes_append, btt_writes_map_rd, List.append_nil, r6, e2,
      List.range_eq_range']
    simp
  have hrun : ∃ ret wf, hbicap_fpga_ops_write hw drvdata false buf w = some (ret, wf) ∧
      wf.trace = w3.trace := by
    unfold hbicap_fpga_ops_write
    simp only [mutex_lock_interruptible, Bool.false_eq_true, if_false, ne_eq, not_true_eq_false]
    have hentry : axi_hbicap_set_size_register hw (to_u32 ((buf.length >>> 2 : Nat) : Int))
        { w with state := FPGA_MGR_STATE_WRITE, sem := true } = hbicap_write_entry hw buf w := rfl
    rw [hentry, hok]
    simp only [he]
    cases t with
    | true => exact ⟨_, _, rfl, rfl⟩
    | false => exact ⟨_, _, rfl, rfl⟩
  obtain ⟨ret, wf, hr, hwf⟩ := hrun
  refine ⟨ret, wf, hr, by rw [hwf]; exact hchunks, by rw [hwf]; exact hbtt, ?_, ?_, rfl⟩
  · intro k hk
    have hk' : 4096 * k < buf.length := by unfold dma_chunk_count at hk; omega
    refine ⟨?_, ?_, ?_⟩
    · simp only [dma_chunk]
      by_cases hm : buf.length - 4096 * k ≤ 4096
      · rw [Nat.min_eq_right hm, List.take_of_length_le (by simp; omega),
          List.take_of_length_le (by simp)]
      · rw [Nat.min_eq_left (by omega)]
    · simp [dma_chunk]
    · simp [dma_chunk]; omega
  · intro k hk
    have hk' : 4096 * (k + 1) < buf.length := by unfold dma_chunk_count at hk; omega
    simp [dma_chunk]; omega

theorem C1_dma_chunks_cut_buffer_witness :
    (∃ ret wf, hbicap_fpga_ops_write hw_ready drvdata0 false (List.replicate 4097 7) world0 =
        some (ret, wf) ∧
      (staged wf.trace).map (fun c => (c.1, c.2.1)) = [(0, 4096), (4096, 1)] ∧
      btt_writes wf.trace = [4096, 1]) ∧
    (∃ ret wf, hbicap_fpga_ops_write hw_ready drvdata0 false [1, 2, 3, 4, 5] world0 =
        some (ret, wf) ∧
      staged wf.trace = [(0, 5, [1, 2, 3, 4, 5])] ∧ btt_writes wf.trace = [5]) := by
  constructor
  · obtain ⟨w2, h2⟩ := hbicap_chunks_done_of_ready hw_ready drvdata0 (List.replicate 4097 7)
      hw_ready_good (dma_chunk_count (List.replicate 4097 7).length)
      (hbicap_write_entry hw_ready (List.replicate 4097 7) world0)
    obtain ⟨-, ret, wf, h, hs, hb, -⟩ := C1_dma_chunks_cut_buffer hw_ready drvdata0
      (List.replicate 4097 7) world0 w2 h2
    have hc : dma_chunk_count 4097 = 2 := rfl
    have hr : List.range 2 = [0, 1] := rfl
    have h0 : staged world0.trace = [] := rfl
    have h0' : btt_writes world0.trace = [] := rfl
    rw [List.length_replicate, hc, hr, h0] at hs
    rw [List.length_replicate, hc, hr, h0'] at hb
    refine ⟨ret, wf, h, ?_, ?_⟩
    · rw [hs]
      simp only [List.nil_append, List.map_cons, List.map_nil, dma_chunk, List.length_replicate]
      decide
    · rw [hb]
      decide
  · obtain ⟨-, ret, wf, h, h2, h3, -⟩ := C1_dma_chunks_cut_buffer hw_ready drvdata0
      [1, 2, 3, 4, 5] world0 _ rfl
    exact ⟨ret, wf, h, h2, h3⟩

/-- C5. DMA variant: if every chunk transfer succeeds (each of the `⌈L/4096⌉`
chunk transfers, taken in order from the world the previous one left, returns
status 0, leaving the world `w2`) and the status register of the configuration
port never shows the DONE bit, `hbicap_fpga_ops_write` terminates: after the
last chunk it reads the status register exactly `XHI_MAX_RETRIES + 1 = 5001`
times (5000 busy polls are allowed, the 5001st exceeds the ceiling), does
nothing else, and reports the timeout by returning the error code `-42`. -/
theorem C5_dma_busy_poll_timeout (hw : Hw σ) (drvdata : hbicap_drvdata)
    (buf : List Nat) (w w2 : World σ)
    (hdone : hbicap_chunks_done hw drvdata buf (dma_chunk_count buf.length)
      (hbicap_write_entry hw buf w) = some w2)
    (hbusy : ∀ s, (hw.rd Base.axi_lite XHI_SR_OFFSET s).1 % 4294967296 &&& XHI_SR_DONE_MASK = 0) :
    ∃ (wf : World σ) (vals : List Nat),
      hbicap_fpga_ops_write hw drvdata false buf w = some (-42, wf) ∧
      wf.trace = w2.trace ++ vals.map (Event.rd Base.axi_lite XHI_SR_OFFSET) ∧
      vals.length = XHI_MAX_RETRIES + 1 ∧ XHI_MAX_RETRIES + 1 = 5001 ∧
      (∀ v ∈ vals, v &&& XHI_SR_DONE_MASK = 0) := by
  have hok := hbicap_write_loop_of_chunks_done hw drvdata buf _ w2 hdone
  obtain ⟨ret, wf, vals, hrun, htr, -, hne, -, -, hprov, hcase⟩ :=
    hbicap_fpga_ops_write_after_loop hw drvdata buf w w2 buf.length hok
  rcases hcase with ⟨h1, -, h3, h4⟩ | ⟨-, -, sr, h2, h3⟩
  · subst h1
    exact ⟨wf, vals, hrun, htr, h3, rfl, h4⟩
  · have hmem : sr ∈ vals := List.mem_of_getLast?_eq_some h2
    obtain ⟨s, hs⟩ := hprov sr hmem
    rw [hs] at h3
    exact absurd (hbusy s) h3

theorem C5_dma_busy_poll_timeout_witness :
    (∃ (wf : World Unit) (vals : List Nat),
      hbicap_fpga_ops_write hw_never_done drvdata0 false (List.replicate 4097 7) world0 =
        some (-42, wf) ∧
      vals.length = 5001 ∧ (∀ v ∈ vals, v &&& XHI_SR_DONE_MASK = 0) ∧
      ∃ w2 : World Unit, wf.trace = w2.trace ++ vals.map (Event.rd Base.axi_lite XHI_SR_OFFSET) ∧
        btt_writes w2.trace = [4096, 1]) ∧
    (∃ (wf : World Unit) (vals : List Nat),
      hbicap_fpga_ops_write hw_never_done drvdata0 false [1, 2, 3, 4, 5] world0 =
        some (-42, wf) ∧
      wf.trace = [Event.wr Base.axi_lite 0x108 1, Event.stage 0 5 [1, 2, 3, 4, 5],
          Event.rd Base.cdma 0x04 0x1002, Event.rd Base.cdma 0x00 0x1002,
          Event.wr Base.cdma 0x00 0x5002, Event.wr Base.cdma 0x1C 0,
          Event.wr Base.cdma 0x18 0x70000000, Event.wr Base.cdma 0x24 0,
          Event.wr Base.cdma 0x20 0xA0000000, Event.wr Base.cdma 0x28 5,
          Event.rd Base.cdma 0x04 0x1002, Event.wr Base.cdma 0x04 0x1000] ++
        vals.map (Event.rd Base.axi_lite XHI_SR_OFFSET) ∧
      vals.length = XHI_MAX_RETRIES + 1 ∧ XHI_MAX_RETRIES + 1 = 5001 ∧
      (∀ v ∈ vals, v &&& XHI_SR_DONE_MASK = 0)) := by
  constructor
  · obtain ⟨w2, h2⟩ := hbicap_chunks_done_of_ready hw_never_done drvdata0
      (List.replicate 4097 7) hw_never_done_good (dma_chunk_count (List.replicate 4097 7).length)
      (hbicap_write_entry hw_never_done (List.replicate 4097 7) world0)
    obtain ⟨wf, vals, hrun, htr, hlen, -, hall⟩ := C5_dma_busy_poll_timeout hw_never_done
      drvdata0 (List.replicate 4097 7) world0 w2 h2 hw_never_done_busy
    have r6 := hbicap_chunks_done_btt_writes hw_never_done drvdata0 (List.replicate 4097 7)
      world0 w2 h2
    refine ⟨wf, vals, hrun, hlen, hall, w2, htr, ?_⟩
    have hc : dma_chunk_count 4097 = 2 := rfl
    have h0 : btt_writes world0.trace = [] := rfl
    rw [r6, List.length_replicate, hc, h0]
    decide
  · exact C5_dma_busy_poll_timeout hw_never_done drvdata0 [1, 2, 3, 4, 5] world0 _ rfl
      hw_never_done_busy

end DFX
